import Mathlib

/-! # Northwestern course-data API client (`client.go`)

A shallow embedding of the Go package `nuapiclient`: the seven request
methods of `Client`, together with the parts of the Go standard library
they call (`net/url` query handling, `net/http` request construction,
`encoding/json` decoding into the package's record types).

Go strings are byte sequences, so they are modelled as lists of bytes.
-/

set_option maxRecDepth 100000
set_option linter.unusedTactic false
set_option linter.unreachableTactic false

namespace NuApiClient

/-! ## Go strings -/

/-- One byte of a Go string. -/
abbrev Byte := Fin 256

/-- A Go `string`: an immutable sequence of bytes. -/
abbrev GoString := List Byte

/-- The bytes of an ASCII literal. -/
def ascii (s : String) : GoString :=
  s.toList.map (fun c => Fin.ofNat c.toNat)

/-- Byte-wise lexicographic order of Go strings (`a <= b`). -/
def strLe : GoString → GoString → Bool
  | [], _ => true
  | _ :: _, [] => false
  | a :: as, b :: bs => if a.val < b.val then true else if b.val < a.val then false else strLe as bs

/-! ## `net/url`: escaping of query components -/

/-- Letters and digits, as bytes. -/
def isAlnum (c : Byte) : Bool :=
  (97 ≤ c.val && c.val ≤ 122) || (65 ≤ c.val && c.val ≤ 90) || (48 ≤ c.val && c.val ≤ 57)

/-- The function `shouldEscape(c, encodeQueryComponent)` of `net/url`: only the
unreserved characters (letters, digits, `-`, `_`, `.`, `~`) stay as they are. -/
def shouldEscape (c : Byte) : Bool :=
  if isAlnum c then false
  else if c.val = 45 || c.val = 95 || c.val = 46 || c.val = 126 then false
  else true

/-- The digit of `"0123456789ABCDEF"` at index `n`. -/
def upperhex (n : Nat) : Byte :=
  if n < 10 then Fin.ofNat (48 + n) else Fin.ofNat (55 + n)

/-- The function `url.QueryEscape`: a space becomes `+`, every other byte that
should be escaped becomes `%XX`. -/
def QueryEscape : GoString → GoString
  | [] => []
  | c :: cs =>
    if shouldEscape c then
      if c.val = 32 then (43 : Byte) :: QueryEscape cs
      else (37 : Byte) :: upperhex (c.val / 16) :: upperhex (c.val % 16) :: QueryEscape cs
    else c :: QueryEscape cs

/-- The function `ishex` of `net/url`. -/
def ishex (c : Byte) : Bool :=
  (48 ≤ c.val && c.val ≤ 57) || (97 ≤ c.val && c.val ≤ 102) || (65 ≤ c.val && c.val ≤ 70)

/-- The function `unhex` of `net/url`. -/
def unhex (c : Byte) : Nat :=
  if 48 ≤ c.val && c.val ≤ 57 then c.val - 48
  else if 97 ≤ c.val && c.val ≤ 102 then c.val - 97 + 10
  else if 65 ≤ c.val && c.val ≤ 70 then c.val - 65 + 10
  else 0

/-- The function `url.QueryUnescape`: `%XX` becomes the byte, `+` a space;
a `%` not followed by two hex digits is an error (`none`). -/
def QueryUnescape : GoString → Option GoString
  | [] => some []
  | c :: cs =>
    if c.val = 37 then
      match cs with
      | h :: l :: rest =>
        if ishex h && ishex l then
          (QueryUnescape rest).map (fun r => Fin.ofNat (unhex h * 16 + unhex l) :: r)
        else none
      | _ => none
    else if c.val = 43 then (QueryUnescape cs).map (fun r => (32 : Byte) :: r)
    else (QueryUnescape cs).map (fun r => c :: r)

/-! ## `net/url`: `Values` -/

/-- The type `url.Values`, a `map[string][]string`: an association list with
one entry per key. -/
def Values := List (GoString × List GoString)

/-- The empty map, `make(Values)`. -/
def Values.empty : Values := []

/-- The slice stored under `key` (`v[key]`), nil when the key is absent. -/
def Values.vals : Values → GoString → List GoString
  | [], _ => []
  | (k, vs) :: rest, key => if k = key then vs else Values.vals rest key

/-- The method `Values.Add`: `v[key] = append(v[key], value)`. -/
def Values.Add : Values → GoString → GoString → Values
  | [], key, value => [(key, [value])]
  | (k, vs) :: rest, key, value =>
    if k = key then (k, vs ++ [value]) :: rest else (k, vs) :: Values.Add rest key value

/-- The keys of the map. -/
def Values.keys (v : Values) : List GoString := List.map Prod.fst v

/-- Insertion of a key into a sorted list of keys. -/
def insertKey (k : GoString) : List GoString → List GoString
  | [] => [k]
  | x :: xs => if strLe k x then k :: x :: xs else x :: insertKey k xs

/-- The call `slices.Sort(keys)`: the keys in ascending byte order. -/
def sortKeys : List GoString → List GoString
  | [] => []
  | k :: ks => insertKey k (sortKeys ks)

/-- The text `keyEscaped=QueryEscape(v)` of one parameter. -/
def encodePair (keyEscaped value : GoString) : GoString :=
  keyEscaped ++ (61 : Byte) :: QueryEscape value

/-- The inner loop of `Values.Encode`: writes one parameter per value,
preceded by `&` when the buffer is not empty. -/
def encodeVals (buf keyEscaped : GoString) : List GoString → GoString
  | [] => buf
  | v :: vs =>
    encodeVals ((if buf.length > 0 then buf ++ [(38 : Byte)] else buf) ++ encodePair keyEscaped v)
      keyEscaped vs

/-- The outer loop of `Values.Encode` over the sorted keys. -/
def encodeKeys (v : Values) (buf : GoString) : List GoString → GoString
  | [] => buf
  | k :: ks => encodeKeys v (encodeVals buf (QueryEscape k) (v.vals k)) ks

/-- The method `Values.Encode`: the parameters in "URL encoded" form, sorted by key. -/
def Values.Encode (v : Values) : GoString :=
  if List.length v = 0 then [] else encodeKeys v [] (sortKeys v.keys)

/-- The call `strings.Cut(s, sep)` for a one-byte separator:
the text before the first `sep`, the text after it, and whether `sep` occurs. -/
def cut (sep : Byte) : GoString → GoString × GoString × Bool
  | [] => ([], [], false)
  | c :: cs =>
    if c = sep then ([], cs, true)
    else
      let r := cut sep cs
      (c :: r.1, r.2.1, r.2.2)

/-- The function `parseQuery` of `net/url`, with the remaining text bounded by `fuel`:
the map filled so far and whether an error was met. -/
def parseQuery : Nat → Values → Bool → GoString → Values × Bool
  | 0, m, err, _ => (m, err)
  | fuel + 1, m, err, query =>
    if query = [] then (m, err)
    else
      let c := cut 38 query
      let key := c.1
      let query := c.2.1
      if key.contains (59 : Byte) then parseQuery fuel m true query
      else if key = [] then parseQuery fuel m err query
      else
        let kv := cut 61 key
        match QueryUnescape kv.1 with
        | none => parseQuery fuel m true query
        | some key1 =>
          match QueryUnescape kv.2.1 with
          | none => parseQuery fuel m true query
          | some value => parseQuery fuel (m.Add key1 value) err query

/-- The function `url.ParseQuery`: the values and whether the query was malformed. -/
def ParseQuery (query : GoString) : Values × Bool :=
  parseQuery (query.length + 1) Values.empty false query

/-! ## `net/url`: `URL` -/

/-- The fields of `url.URL` that `Parse` fills for the URLs of this package
and that `String` reads. Userinfo is not modelled. -/
structure URL where
  Scheme : GoString
  Opaque : GoString
  Host : GoString
  Path : GoString
  ForceQuery : Bool
  RawQuery : GoString
  Fragment : GoString
  deriving DecidableEq

/-- Errors a method can return: request construction (`net/http`, `net/url`),
any error of the HTTP client (identified by a number), and the decoding errors
of `encoding/json` (`io.EOF`, `io.ErrUnexpectedEOF`, `*json.SyntaxError`,
`*json.UnmarshalTypeError` with the value it met). -/
inductive Error where
  | request (msg : GoString)
  | transport (id : Nat)
  | eof
  | unexpectedEOF
  | invalidJSON (msg : GoString)
  | unmarshalType (value : GoString)
  deriving DecidableEq

/-- The function `getScheme` of `net/url`: the scheme and the rest, or an error. -/
def getScheme (rawURL : GoString) : Nat → GoString → Except Error (GoString × GoString)
  | _, [] => .ok ([], rawURL)
  | i, c :: cs =>
    if (97 ≤ c.val && c.val ≤ 122) || (65 ≤ c.val && c.val ≤ 90) then getScheme rawURL (i + 1) cs
    else if (48 ≤ c.val && c.val ≤ 57) || c.val = 43 || c.val = 45 || c.val = 46 then
      if i = 0 then .ok ([], rawURL) else getScheme rawURL (i + 1) cs
    else if c.val = 58 then
      if i = 0 then .error (.request (ascii "missing protocol scheme"))
      else .ok (rawURL.take i, cs)
    else .ok ([], rawURL)

/-- The function `strings.ToLower` on ASCII letters. -/
def toLower (s : GoString) : GoString :=
  s.map (fun c => if 65 ≤ c.val && c.val ≤ 90 then Fin.ofNat (c.val + 32) else c)

/-- The function `stringContainsCTLByte` of `net/url`. -/
def stringContainsCTLByte (s : GoString) : Bool :=
  s.any (fun c => c.val < 32 || c.val = 127)

/-- The function `url.Parse` for URLs without userinfo, port, IPv6 literal or
percent escapes in host and path (host and path are taken as written). -/
def Parse (rawURL : GoString) : Except Error URL :=
  let fc := cut 35 rawURL
  let u := fc.1
  let frag := fc.2.1
  if stringContainsCTLByte u then
    .error (.request (ascii "net/url: invalid control character in URL"))
  else if u = ascii "*" then
    .ok { Scheme := [], Opaque := [], Host := [], Path := ascii "*", ForceQuery := false,
          RawQuery := [], Fragment := frag }
  else
    match getScheme u 0 u with
    | .error e => .error e
    | .ok (scheme, rest) =>
      let scheme := toLower scheme
      let force := rest.getLast? = some (63 : Byte) && rest.count (63 : Byte) = 1
      let qc := cut 63 rest
      let rest := if force then rest.dropLast else qc.1
      let rawQuery := if force then [] else qc.2.1
      if rest.head? ≠ some (47 : Byte) && scheme ≠ [] then
        .ok { Scheme := scheme, Opaque := rest, Host := [], Path := [], ForceQuery := force,
              RawQuery := rawQuery, Fragment := frag }
      else if rest.head? ≠ some (47 : Byte) && ((cut 47 rest).1).contains (58 : Byte) then
        .error (.request (ascii "first path segment in URL cannot contain colon"))
      else if (scheme ≠ [] || !(ascii "///").isPrefixOf rest) && (ascii "//").isPrefixOf rest then
        let authority := rest.drop 2
        let ac := cut 47 authority
        let host := ac.1
        let path := if ac.2.2 then (47 : Byte) :: ac.2.1 else []
        .ok { Scheme := scheme, Opaque := [], Host := host, Path := path, ForceQuery := force,
              RawQuery := rawQuery, Fragment := frag }
      else
        .ok { Scheme := scheme, Opaque := [], Host := [], Path := rest, ForceQuery := force,
              RawQuery := rawQuery, Fragment := frag }

/-- The function `shouldEscape(c, encodeHost)` of `net/url`. -/
def shouldEscapeHost (c : Byte) : Bool :=
  if isAlnum c then false
  else if c.val = 33 || c.val = 36 || c.val = 38 || c.val = 39 || c.val = 40 || c.val = 41 ||
      c.val = 42 || c.val = 43 || c.val = 44 || c.val = 59 || c.val = 61 || c.val = 58 ||
      c.val = 91 || c.val = 93 || c.val = 60 || c.val = 62 || c.val = 34 then false
  else if c.val = 45 || c.val = 95 || c.val = 46 || c.val = 126 then false
  else true

/-- The function `shouldEscape(c, encodePath)` of `net/url`. -/
def shouldEscapePath (c : Byte) : Bool :=
  if isAlnum c then false
  else if c.val = 45 || c.val = 95 || c.val = 46 || c.val = 126 then false
  else if c.val = 36 || c.val = 38 || c.val = 43 || c.val = 44 || c.val = 47 || c.val = 58 ||
      c.val = 59 || c.val = 61 || c.val = 64 then false
  else true

/-- The function `shouldEscape(c, encodeFragment)` of `net/url`. -/
def shouldEscapeFragment (c : Byte) : Bool :=
  if isAlnum c then false
  else if c.val = 45 || c.val = 95 || c.val = 46 || c.val = 126 then false
  else if c.val = 36 || c.val = 38 || c.val = 43 || c.val = 44 || c.val = 47 || c.val = 58 ||
      c.val = 59 || c.val = 61 || c.val = 63 || c.val = 64 then false
  else if c.val = 33 || c.val = 40 || c.val = 41 || c.val = 42 then false
  else true

/-- The function `escape` of `net/url` in a mode other than query component:
every byte that should be escaped becomes `%XX`. -/
def escapeWith (should : Byte → Bool) : GoString → GoString
  | [] => []
  | c :: cs =>
    if should c then
      (37 : Byte) :: upperhex (c.val / 16) :: upperhex (c.val % 16) :: escapeWith should cs
    else c :: escapeWith should cs

/-- The method `URL.String`, for a URL without userinfo and without `RawPath`,
`RawFragment` and `OmitHost`. -/
def URL.String (u : URL) : GoString :=
  let buf : GoString := if u.Scheme ≠ [] then u.Scheme ++ [(58 : Byte)] else []
  let buf :=
    if u.Opaque ≠ [] then buf ++ u.Opaque
    else
      let buf :=
        if u.Scheme ≠ [] || u.Host ≠ [] then
          (if u.Host ≠ [] || u.Path ≠ [] then buf ++ ascii "//" else buf) ++
            escapeWith shouldEscapeHost u.Host
        else buf
      let path := if u.Path = ascii "*" then u.Path else escapeWith shouldEscapePath u.Path
      let buf := if path ≠ [] && path.head? ≠ some (47 : Byte) && u.Host ≠ [] then
        buf ++ [(47 : Byte)] else buf
      let buf := if buf.length = 0 && ((cut 47 path).1).contains (58 : Byte) then
        buf ++ ascii "./" else buf
      buf ++ path
  let buf := if u.ForceQuery || u.RawQuery ≠ [] then buf ++ (63 : Byte) :: u.RawQuery else buf
  if u.Fragment ≠ [] then buf ++ (35 : Byte) :: escapeWith shouldEscapeFragment u.Fragment else buf

/-- The method `URL.Query`: `ParseQuery(u.RawQuery)`, malformed pairs dropped. -/
def URL.Query (u : URL) : Values := (ParseQuery u.RawQuery).1

/-! ## `net/http`: requests, responses, the HTTP client -/

/-- The fields of `http.Request` that the package sets. -/
structure Request where
  Method : GoString
  URL : URL
  deriving DecidableEq

/-- The function `isTokenRune` of `net/http` on one byte. -/
def isTokenByte (c : Byte) : Bool :=
  isAlnum c || c.val = 33 || c.val = 35 || c.val = 36 || c.val = 37 || c.val = 38 ||
    c.val = 39 || c.val = 42 || c.val = 43 || c.val = 45 || c.val = 46 || c.val = 94 ||
    c.val = 95 || c.val = 96 || c.val = 124 || c.val = 126

/-- The function `validMethod` of `net/http`. -/
def validMethod (method : GoString) : Bool :=
  method.length > 0 && method.all isTokenByte

/-- The function `http.NewRequest` with a nil body. -/
def NewRequest (method url : GoString) : Except Error Request :=
  let method := if method = [] then ascii "GET" else method
  if !validMethod method then .error (.request (ascii "net/http: invalid method"))
  else
    match Parse url with
    | .error e => .error e
    | .ok u => .ok { Method := method, URL := u }

/-- The body of a response as the decoder reads it: the bytes delivered, then
either the end of the stream (`none`) or a read error. -/
structure Body where
  data : GoString
  readErr : Option Error
  deriving DecidableEq

/-- The fields of `http.Response` that matter to the package. -/
structure Response where
  StatusCode : Nat
  Body : Body
  deriving DecidableEq

/-- The behaviour of `(*http.Client).Do`: for each request either an error or a response. -/
abbrev HTTPClient := Request → Except Error Response

/-- The constant `baseURL`. -/
def baseURL : GoString := ascii "http://api.asg.northwestern.edu/"

/-- The struct `Client`: a Northwestern Course Data API client. -/
structure Client where
  key : GoString
  client : HTTPClient

/-- The function `NewClient`: a new client using `key`; `http` is the behaviour of
the `&http.Client{}` it creates. -/
def NewClient (http : HTTPClient) (key : GoString) : Client :=
  { key := key, client := http }

/-! ## `encoding/json`: reading one value from the body -/

/-- A JSON value as the decoder stores it: numbers keep their literal text,
strings and object keys are unquoted. -/
inductive JValue where
  | null
  | bool (b : Bool)
  | number (lit : GoString)
  | string (s : GoString)
  | array (elems : List JValue)
  | object (members : List (GoString × JValue))

/-- Outcome of scanning a prefix of the input: a result and the bytes after it,
the input ended too early (`more`), or a byte that cannot continue the value (`bad`). -/
inductive Scan (α : Type) where
  | ok (a : α) (rest : GoString)
  | more
  | bad (msg : GoString)

/-- The function `isSpace` of the scanner: space, tab, carriage return, newline. -/
def isSpace (c : Byte) : Bool :=
  c.val = 32 || c.val = 9 || c.val = 13 || c.val = 10

/-- Skips the white space before a token. -/
def skipSpace : GoString → GoString
  | [] => []
  | c :: cs => if isSpace c then skipSpace cs else c :: cs

/-- Decimal digits. -/
def isDigit (c : Byte) : Bool := 48 ≤ c.val && c.val ≤ 57

/-- The bytes of `lit` are expected next (rest of `true`, `false`, `null`). -/
def scanLiteral : GoString → GoString → Scan Unit
  | [], s => .ok () s
  | _ :: _, [] => .more
  | l :: ls, c :: cs =>
    if c = l then scanLiteral ls cs else .bad (ascii "invalid character in literal")

/-- The states of the scanner inside a string: `stateInString`, `stateInStringEsc`, and
`stateInStringEscU` to `stateInStringEscU123` by the number of hex digits still to come. -/
inductive StringState where
  | inString
  | inStringEsc
  | inStringEscU (left : Nat)

/-- Puts a scanned byte in front of the bytes scanned after it. -/
def Scan.cons (c : Byte) : Scan GoString → Scan GoString
  | .ok raw rest => .ok (c :: raw) rest
  | .more => .more
  | .bad m => .bad m

/-- The string states of the scanner, one byte at a time: the raw bytes up to the closing
quote, and the rest. -/
def scanStringFrom : StringState → GoString → Scan GoString
  | _, [] => .more
  | .inString, c :: cs =>
    if c.val = 34 then .ok [] cs
    else if c.val = 92 then Scan.cons c (scanStringFrom .inStringEsc cs)
    else if c.val < 32 then .bad (ascii "in string literal")
    else Scan.cons c (scanStringFrom .inString cs)
  | .inStringEsc, c :: cs =>
    if c.val = 98 || c.val = 102 || c.val = 110 || c.val = 114 || c.val = 116 ||
        c.val = 92 || c.val = 47 || c.val = 34 then
      Scan.cons c (scanStringFrom .inString cs)
    else if c.val = 117 then Scan.cons c (scanStringFrom (.inStringEscU 4) cs)
    else .bad (ascii "in string escape code")
  | .inStringEscU left, c :: cs =>
    if ishex c then
      Scan.cons c (scanStringFrom (if left ≤ 1 then .inString else .inStringEscU (left - 1)) cs)
    else .bad (ascii "in \\u hexadecimal character escape")

/-- The scanner after the opening quote of a string (`stateInString`). -/
def scanString (s : GoString) : Scan GoString := scanStringFrom .inString s

/-- The states of the scanner inside a number: `stateNeg`, `state0`, `state1`, `stateDot`,
`stateDot0`, `stateE`, `stateESign`, `stateE0`. -/
inductive NumberState where
  | neg
  | zero
  | digits
  | dot
  | dot0
  | e
  | eSign
  | e0

/-- The number states of the scanner, one byte at a time: the rest of the literal and
what follows it. In `state0`, `state1`, `stateDot0` and `stateE0` a byte that cannot
continue the number ends it (`stateEndValue`), and so does the end of the data. -/
def scanNumberFrom : NumberState → GoString → Scan GoString
  | .neg, [] => .more
  | .zero, [] => .ok [] []
  | .digits, [] => .ok [] []
  | .dot, [] => .more
  | .dot0, [] => .ok [] []
  | .e, [] => .more
  | .eSign, [] => .more
  | .e0, [] => .ok [] []
  | .neg, c :: cs =>
    if c.val = 48 then Scan.cons c (scanNumberFrom .zero cs)
    else if 49 ≤ c.val && c.val ≤ 57 then Scan.cons c (scanNumberFrom .digits cs)
    else .bad (ascii "in numeric literal")
  | .zero, c :: cs =>
    if c.val = 46 then Scan.cons c (scanNumberFrom .dot cs)
    else if c.val = 101 || c.val = 69 then Scan.cons c (scanNumberFrom .e cs)
    else .ok [] (c :: cs)
  | .digits, c :: cs =>
    if isDigit c then Scan.cons c (scanNumberFrom .digits cs)
    else if c.val = 46 then Scan.cons c (scanNumberFrom .dot cs)
    else if c.val = 101 || c.val = 69 then Scan.cons c (scanNumberFrom .e cs)
    else .ok [] (c :: cs)
  | .dot, c :: cs =>
    if isDigit c then Scan.cons c (scanNumberFrom .dot0 cs)
    else .bad (ascii "after decimal point in numeric literal")
  | .dot0, c :: cs =>
    if isDigit c then Scan.cons c (scanNumberFrom .dot0 cs)
    else if c.val = 101 || c.val = 69 then Scan.cons c (scanNumberFrom .e cs)
    else .ok [] (c :: cs)
  | .e, c :: cs =>
    if c.val = 43 || c.val = 45 then Scan.cons c (scanNumberFrom .eSign cs)
    else if isDigit c then Scan.cons c (scanNumberFrom .e0 cs)
    else .bad (ascii "in exponent of numeric literal")
  | .eSign, c :: cs =>
    if isDigit c then Scan.cons c (scanNumberFrom .e0 cs)
    else .bad (ascii "in exponent of numeric literal")
  | .e0, c :: cs =>
    if isDigit c then Scan.cons c (scanNumberFrom .e0 cs)
    else .ok [] (c :: cs)

/-- The scanner at the first byte of a number, `-` or a digit (`stateBeginValue`): the
literal and the rest. -/
def scanNumber : GoString → Scan GoString
  | [] => .more
  | c :: cs =>
    if c.val = 45 then Scan.cons c (scanNumberFrom .neg cs)
    else if c.val = 48 then Scan.cons c (scanNumberFrom .zero cs)
    else Scan.cons c (scanNumberFrom .digits cs)

/-- The function `utf8.EncodeRune` (as `utf8.AppendRune`): a surrogate or a value
above `0x10FFFF` is written as U+FFFD. -/
def encodeRune (r : Nat) : GoString :=
  if r ≤ 0x7F then [Fin.ofNat r]
  else if r ≤ 0x7FF then [Fin.ofNat (0xC0 + r / 64), Fin.ofNat (0x80 + r % 64)]
  else if r > 0x10FFFF || (0xD800 ≤ r && r ≤ 0xDFFF) then [0xEF, 0xBF, 0xBD]
  else if r ≤ 0xFFFF then
    [Fin.ofNat (0xE0 + r / 4096), Fin.ofNat (0x80 + r / 64 % 64), Fin.ofNat (0x80 + r % 64)]
  else
    [Fin.ofNat (0xF0 + r / 262144), Fin.ofNat (0x80 + r / 4096 % 64),
      Fin.ofNat (0x80 + r / 64 % 64), Fin.ofNat (0x80 + r % 64)]

/-- The table `first` of `unicode/utf8` for a non-ASCII leading byte: the length of the
sequence and the range accepted for its second byte; `none` for an invalid leading byte. -/
def firstInfo (p0 : Nat) : Option (Nat × Nat × Nat) :=
  if 0xC2 ≤ p0 && p0 ≤ 0xDF then some (2, 0x80, 0xBF)
  else if p0 = 0xE0 then some (3, 0xA0, 0xBF)
  else if p0 = 0xED then some (3, 0x80, 0x9F)
  else if 0xE1 ≤ p0 && p0 ≤ 0xEF then some (3, 0x80, 0xBF)
  else if p0 = 0xF0 then some (4, 0x90, 0xBF)
  else if 0xF1 ≤ p0 && p0 ≤ 0xF3 then some (4, 0x80, 0xBF)
  else if p0 = 0xF4 then some (4, 0x80, 0x8F)
  else none

/-- Continuation bytes `0x80..0xBF`. -/
def isCont (b : Byte) : Bool := 0x80 ≤ b.val && b.val ≤ 0xBF

/-- The function `utf8.DecodeRune` on input that starts with a non-ASCII byte:
the rune and its width; an invalid sequence gives U+FFFD and width 1. -/
def decodeRune (p : GoString) : Nat × Nat :=
  match p with
  | [] => (0xFFFD, 0)
  | p0 :: rest =>
    match firstInfo p0.val with
    | none => (0xFFFD, 1)
    | some (sz, lo, hi) =>
      match rest with
      | [] => (0xFFFD, 1)
      | b1 :: rest1 =>
        if rest.length + 1 < sz then (0xFFFD, 1)
        else if b1.val < lo || hi < b1.val then (0xFFFD, 1)
        else if sz ≤ 2 then ((p0.val % 32) * 64 + b1.val % 64, 2)
        else
          match rest1 with
          | [] => (0xFFFD, 1)
          | b2 :: rest2 =>
            if !isCont b2 then (0xFFFD, 1)
            else if sz ≤ 3 then ((p0.val % 16) * 4096 + (b1.val % 64) * 64 + b2.val % 64, 3)
            else
              match rest2 with
              | [] => (0xFFFD, 1)
              | b3 :: _ =>
                if !isCont b3 then (0xFFFD, 1)
                else ((p0.val % 8) * 262144 + (b1.val % 64) * 4096 + (b2.val % 64) * 64
                  + b3.val % 64, 4)

/-- The function `getu4` of `encoding/json`: the value of `\uXXXX` at the start
of the input, `none` (Go: `-1`) when the input does not start with such an escape. -/
def getu4 (s : GoString) : Option Nat :=
  match s with
  | b :: u :: h1 :: h2 :: h3 :: h4 :: _ =>
    if b.val = 92 && u.val = 117 && ishex h1 && ishex h2 && ishex h3 && ishex h4 then
      some (((unhex h1 * 16 + unhex h2) * 16 + unhex h3) * 16 + unhex h4)
    else none
  | _ => none

/-- The function `utf16.DecodeRune`: the code point of a surrogate pair, U+FFFD otherwise. -/
def utf16DecodeRune (r1 : Nat) (r2 : Option Nat) : Nat :=
  match r2 with
  | some r2 =>
    if 0xD800 ≤ r1 && r1 < 0xDC00 && 0xDC00 ≤ r2 && r2 < 0xE000 then
      (r1 - 0xD800) * 1024 + (r2 - 0xDC00) + 0x10000
    else 0xFFFD
  | none => 0xFFFD

/-- The slow path of `unquoteBytes` on the bytes between the quotes of a scanned string
(the fast path returns the same bytes): escapes are resolved and invalid UTF-8 is
coerced to U+FFFD. `fuel` bounds the number of steps. -/
def unquoteLoop : Nat → GoString → GoString
  | 0, _ => []
  | _ + 1, [] => []
  | fuel + 1, c :: cs =>
    if c.val = 92 then
      match cs with
      | [] => []
      | e :: cs1 =>
        if e.val = 34 || e.val = 92 || e.val = 47 || e.val = 39 then e :: unquoteLoop fuel cs1
        else if e.val = 98 then (8 : Byte) :: unquoteLoop fuel cs1
        else if e.val = 102 then (12 : Byte) :: unquoteLoop fuel cs1
        else if e.val = 110 then (10 : Byte) :: unquoteLoop fuel cs1
        else if e.val = 114 then (13 : Byte) :: unquoteLoop fuel cs1
        else if e.val = 116 then (9 : Byte) :: unquoteLoop fuel cs1
        else if e.val = 117 then
          match getu4 (c :: cs) with
          | none => []
          | some rr =>
            let rest := cs.drop 5
            if 0xD800 ≤ rr && rr < 0xE000 then
              let dec := utf16DecodeRune rr (getu4 rest)
              if dec ≠ 0xFFFD then encodeRune dec ++ unquoteLoop fuel (rest.drop 6)
              else encodeRune 0xFFFD ++ unquoteLoop fuel rest
            else encodeRune rr ++ unquoteLoop fuel rest
        else []
    else if c.val = 34 || c.val < 32 then []
    else if c.val < 128 then c :: unquoteLoop fuel cs
    else
      let d := decodeRune (c :: cs)
      encodeRune d.1 ++ unquoteLoop fuel ((c :: cs).drop d.2)

/-- The function `unquoteBytes` on the bytes between the quotes of a scanned string. -/
def unquote (raw : GoString) : GoString := unquoteLoop (raw.length + 1) raw

/-- The message of the syntax error that stands for running out of `fuel`; the fuel that
`readValue` gives is never used up. -/
def fuelMsg : GoString := ascii "out of fuel"

/-- The constant `maxNestingDepth` of the scanner. -/
def maxNestingDepth : Nat := 10000

mutual
/-- The scanner at the beginning of a value (`stateBeginValue`), at nesting depth
`depth`; `fuel` bounds the number of nested calls. -/
def scanValue : Nat → Nat → GoString → Scan JValue
  | 0, _, _ => .bad fuelMsg
  | fuel + 1, depth, s =>
    match skipSpace s with
    | [] => .more
    | c :: cs =>
      if c.val = 123 then
        if depth + 1 > maxNestingDepth then .bad (ascii "exceeded max depth")
        else
          match skipSpace cs with
          | [] => .more
          | d :: ds =>
            if d.val = 125 then .ok (.object []) ds
            else scanMembers fuel (depth + 1) [] cs
      else if c.val = 91 then
        if depth + 1 > maxNestingDepth then .bad (ascii "exceeded max depth")
        else
          match skipSpace cs with
          | [] => .more
          | d :: ds =>
            if d.val = 93 then .ok (.array []) ds
            else scanElems fuel (depth + 1) [] cs
      else if c.val = 34 then
        match scanString cs with
        | .ok raw rest => .ok (.string (unquote raw)) rest
        | .more => .more
        | .bad m => .bad m
      else if c.val = 45 || isDigit c then
        match scanNumber (c :: cs) with
        | .ok lit rest => .ok (.number lit) rest
        | .more => .more
        | .bad m => .bad m
      else if c.val = 116 then
        match scanLiteral (ascii "rue") cs with
        | .ok _ rest => .ok (.bool true) rest
        | .more => .more
        | .bad m => .bad m
      else if c.val = 102 then
        match scanLiteral (ascii "alse") cs with
        | .ok _ rest => .ok (.bool false) rest
        | .more => .more
        | .bad m => .bad m
      else if c.val = 110 then
        match scanLiteral (ascii "ull") cs with
        | .ok _ rest => .ok .null rest
        | .more => .more
        | .bad m => .bad m
      else .bad (ascii "looking for beginning of value")
/-- The scanner inside an array, at the beginning of an element: the element, then
`,` and further elements or the closing `]` (`stateEndValue` in `parseArrayValue`). -/
def scanElems : Nat → Nat → List JValue → GoString → Scan JValue
  | 0, _, _, _ => .bad fuelMsg
  | fuel + 1, depth, acc, s =>
    match scanValue fuel depth s with
    | .ok v rest =>
      match skipSpace rest with
      | [] => .more
      | c :: cs =>
        if c.val = 44 then scanElems fuel depth (acc ++ [v]) cs
        else if c.val = 93 then .ok (.array (acc ++ [v])) cs
        else .bad (ascii "after array element")
    | .more => .more
    | .bad m => .bad m
/-- The scanner inside an object, at the beginning of a key (`stateBeginString`): the key,
`:`, the value, then `,` and further members or the closing `}`. -/
def scanMembers : Nat → Nat → List (GoString × JValue) → GoString → Scan JValue
  | 0, _, _, _ => .bad fuelMsg
  | fuel + 1, depth, acc, s =>
    match skipSpace s with
    | [] => .more
    | q :: s1 =>
      if q.val = 34 then
        match scanString s1 with
        | .ok raw rest =>
          match skipSpace rest with
          | [] => .more
          | colon :: s2 =>
            if colon.val = 58 then
              match scanValue fuel depth s2 with
              | .ok v rest1 =>
                match skipSpace rest1 with
                | [] => .more
                | c :: cs =>
                  if c.val = 44 then scanMembers fuel depth (acc ++ [(unquote raw, v)]) cs
                  else if c.val = 125 then .ok (.object (acc ++ [(unquote raw, v)])) cs
                  else .bad (ascii "after object key:value pair")
              | .more => .more
              | .bad m => .bad m
            else .bad (ascii "after object key")
        | .more => .more
        | .bad m => .bad m
      else .bad (ascii "looking for beginning of object key string")
end

/-- The method `Decoder.readValue` followed by the extraction of the value: the first
JSON value of the body. Bytes after the value are not examined. A literal, number or
string that ends with the data is complete only at the end of the stream. -/
def readValue (b : Body) : Except Error JValue :=
  match scanValue (2 * b.data.length + 2) 0 b.data with
  | .bad m => .error (.invalidJSON m)
  | .more =>
    match b.readErr with
    | some e => .error e
    | none => if skipSpace b.data = [] then .error .eof else .error .unexpectedEOF
  | .ok v rest =>
    match v with
    | .array _ => .ok v
    | .object _ => .ok v
    | _ =>
      if rest ≠ [] then .ok v
      else
        match b.readErr with
        | some e => .error e
        | none => .ok v

/-! ## `encoding/json`: storing a value into the package's types -/

/-- A Go `float64`, by its bit pattern; its arithmetic is not modelled. -/
structure Float64 where
  bits : Nat
  deriving DecidableEq

/-- A Go slice together with its backing array: `nonNil` is false for the nil slice,
`elems` are the elements below `len`, `spare` the elements of the backing array at and
above `len` that were written earlier. -/
structure Slice (α : Type) where
  nonNil : Bool
  elems : List α
  spare : List α
  deriving DecidableEq

/-- The nil slice. -/
def Slice.nil {α : Type} : Slice α := { nonNil := false, elems := [], spare := [] }

/-- The value of a string of decimal digits, `none` when it is empty or has another byte. -/
def parseDigits : GoString → Option Nat
  | [] => none
  | c :: cs =>
    (c :: cs).foldl (fun acc d => acc.bind (fun n => if isDigit d then some (n * 10 + (d.val - 48)) else none))
      (some 0)

/-- The call `strconv.ParseInt(s, 10, 64)`: an optional sign and decimal digits, with a
value that fits in 64 bits. Go's `int` is taken to be 64 bits wide. -/
def ParseInt (s : GoString) : Option Int :=
  let neg : Bool := match s with
    | c :: _ => c.val = 45
    | [] => false
  let signed : Bool := match s with
    | c :: _ => c.val = 45 || c.val = 43
    | [] => false
  match parseDigits (if signed then s.drop 1 else s) with
  | none => none
  | some n =>
    if neg then (if n ≤ 2 ^ 63 then some (-(n : Int)) else none)
    else (if n < 2 ^ 63 then some (n : Int) else none)

/-- Upper-casing of an ASCII letter. -/
def foldByte (c : Byte) : Byte :=
  if 97 ≤ c.val && c.val ≤ 122 then Fin.ofNat (c.val - 32) else c

/-- The function `foldName` of `encoding/json`, as far as it decides whether a key matches
an ASCII field name: ASCII letters are upper-cased, the Kelvin sign (U+212A) folds to `K`
and the long s (U+017F) to `S`. Other non-ASCII runes fold to non-ASCII runes and are kept. -/
def foldName : GoString → GoString
  | [] => []
  | [c] => [foldByte c]
  | [c, b1] =>
    if c.val = 0xC5 && b1.val = 0xBF then [(83 : Byte)] else foldByte c :: foldName [b1]
  | c :: b1 :: b2 :: rest =>
    if c.val = 0xE2 && b1.val = 0x84 && b2.val = 0xAA then (75 : Byte) :: foldName rest
    else if c.val = 0xC5 && b1.val = 0xBF then (83 : Byte) :: foldName (b2 :: rest)
    else foldByte c :: foldName (b1 :: b2 :: rest)

/-- A field of a struct `T` as `encoding/json` sees it (the reflection data of the type):
its name in the `json` tag, its Go type and how to write it. A `float64` field carries
the behaviour of `strconv.ParseFloat(s, 64)` on number literals. -/
inductive Field (T : Type) where
  | string (name : GoString) (set : T → GoString → T)
  | int (name : GoString) (set : T → Int → T)
  | float64 (name : GoString) (parseFloat : GoString → Option Float64) (set : T → Float64 → T)
  | strings (name : GoString) (get : T → Slice GoString) (set : T → Slice GoString → T)

/-- The name of a field. -/
def Field.name {T : Type} : Field T → GoString
  | .string n _ => n
  | .int n _ => n
  | .float64 n _ _ => n
  | .strings n _ _ => n

/-- The first error wins (`decodeState.saveError`). -/
def saveError (saved new : Option Error) : Option Error :=
  match saved with
  | some e => some e
  | none => new

/-- The error `&UnmarshalTypeError{Value: ...}` for a JSON value that does not fit a Go
type that is neither a struct, a slice nor a pointer. -/
def typeError (v : JValue) : Error :=
  match v with
  | .null => .unmarshalType (ascii "null")
  | .bool _ => .unmarshalType (ascii "bool")
  | .number _ => .unmarshalType (ascii "number")
  | .string _ => .unmarshalType (ascii "string")
  | .array _ => .unmarshalType (ascii "array")
  | .object _ => .unmarshalType (ascii "object")

/-- Storing the elements of a JSON array into a `[]string` (`decodeState.array` with
`literalStore` on each element): element `i` is decoded into the element the backing
array holds at `i` (`null` leaves it as it is), or into `""` beyond it. -/
def storeStringElems : List GoString → List JValue → List GoString × Option Error
  | _, [] => ([], none)
  | backing, v :: vs =>
    let cur := backing.headD []
    let r := storeStringElems backing.tail vs
    match v with
    | .string s => (s :: r.1, r.2)
    | .null => (cur :: r.1, r.2)
    | _ => (cur :: r.1, some (typeError v))

/-- Storing a JSON value into a `[]string` field. -/
def storeStrings (cur : Slice GoString) (v : JValue) : Slice GoString × Option Error :=
  match v with
  | .null => (Slice.nil, none)
  | .array elems =>
    let backing := cur.elems ++ cur.spare
    let r := storeStringElems backing elems
    if elems.length = 0 then ({ nonNil := true, elems := [], spare := [] }, none)
    else ({ nonNil := true, elems := r.1, spare := backing.drop elems.length }, r.2)
  | _ => (cur, some (typeError v))

/-- Storing a JSON value into one field of a struct (`decodeState.value` on the field):
`null` leaves strings and numbers as they are; a value of another JSON type, or a number
that the field's type cannot hold, is an `UnmarshalTypeError` and leaves the field. -/
def storeField {T : Type} (f : Field T) (t : T) (v : JValue) : T × Option Error :=
  match f with
  | .string _ set =>
    match v with
    | .null => (t, none)
    | .string s => (set t s, none)
    | _ => (t, some (typeError v))
  | .int _ set =>
    match v with
    | .null => (t, none)
    | .number lit =>
      match ParseInt lit with
      | some n => (set t n, none)
      | none => (t, some (.unmarshalType (ascii "number " ++ lit)))
    | _ => (t, some (typeError v))
  | .float64 _ parseFloat set =>
    match v with
    | .null => (t, none)
    | .number lit =>
      match parseFloat lit with
      | some x => (set t x, none)
      | none => (t, some (.unmarshalType (ascii "number " ++ lit)))
    | _ => (t, some (typeError v))
  | .strings _ get set =>
    let r := storeStrings (get t) v
    (set t r.1, r.2)

/-- The field for an object key: the field with exactly this name, otherwise the first
field whose folded name equals the folded key (`byExactName`, then `byFoldedName`). -/
def findField {T : Type} (fields : List (Field T)) (key : GoString) : Option (Field T) :=
  match fields.find? (fun f => f.name = key) with
  | some f => some f
  | none => fields.find? (fun f => foldName f.name = foldName key)

/-- The method `decodeState.object` on a struct: the members are stored in order, a
member whose key matches no field is skipped. -/
def storeObject {T : Type} (fields : List (Field T)) :
    T → List (GoString × JValue) → T × Option Error
  | t, [] => (t, none)
  | t, (key, v) :: ms =>
    match findField fields key with
    | none => storeObject fields t ms
    | some f =>
      let r := storeField f t v
      let r1 := storeObject fields r.1 ms
      (r1.1, saveError r.2 r1.2)

/-- Storing a JSON value into an element of type `*T` of a fresh slice: `null` gives the
nil pointer, an object a new struct filled from `zero`, anything else a type error. -/
def storeElem {T : Type} (zero : T) (fields : List (Field T)) (v : JValue) :
    Option T × Option Error :=
  match v with
  | .null => (none, none)
  | .object ms =>
    let r := storeObject fields zero ms
    (some r.1, r.2)
  | _ => (some zero, some (typeError v))

/-- The elements of a JSON array stored one after the other into a fresh `[]*T`. -/
def storeElems {T : Type} (zero : T) (fields : List (Field T)) :
    List JValue → List (Option T) × Option Error
  | [] => ([], none)
  | v :: vs =>
    let r := storeElem zero fields v
    let r1 := storeElems zero fields vs
    (r.1 :: r1.1, saveError r.2 r1.2)

/-- The method `decodeState.unmarshal` into a variable `var xs []*T` (nil before the call):
the slice afterwards (`none` is the nil slice) and the saved error. -/
def unmarshal {T : Type} (zero : T) (fields : List (Field T)) (v : JValue) :
    Option (List (Option T)) × Option Error :=
  match v with
  | .null => (none, none)
  | .array elems =>
    let r := storeElems zero fields elems
    (some r.1, r.2)
  | _ => (none, some (typeError v))

/-- The call `json.NewDecoder(body).Decode(&xs)` for `var xs []*T`: the slice afterwards
and the error returned. -/
def Decode {T : Type} (zero : T) (fields : List (Field T)) (body : Body) :
    Option (List (Option T)) × Option Error :=
  match readValue body with
  | .error e => (none, some e)
  | .ok v => unmarshal zero fields v

/-! ## The records of the package -/

/-- The struct `Term`: a term. -/
@[ext]
structure Term where
  ID : Int
  Name : GoString
  StartDate : GoString
  EndDate : GoString
  deriving DecidableEq

/-- The zero value of `Term`. -/
def Term.zero : Term :=
  { ID := 0, Name := [], StartDate := [], EndDate := [] }

/-- The fields of `Term` with their `json` names, in declaration order. -/
def Term.fields : List (Field Term) :=
  [ .int (ascii "id") (fun t v => { t with ID := v }),
    .string (ascii "name") (fun t v => { t with Name := v }),
    .string (ascii "start_date") (fun t v => { t with StartDate := v }),
    .string (ascii "end_date") (fun t v => { t with EndDate := v }) ]

/-- The struct `School`: a school. -/
@[ext]
structure School where
  Symbol : GoString
  Name : GoString
  deriving DecidableEq

/-- The zero value of `School`. -/
def School.zero : School :=
  { Symbol := [], Name := [] }

/-- The fields of `School` with their `json` names, in declaration order. -/
def School.fields : List (Field School) :=
  [ .string (ascii "symbol") (fun t v => { t with Symbol := v }),
    .string (ascii "name") (fun t v => { t with Name := v }) ]

/-- The struct `Subject`: a subject. -/
@[ext]
structure Subject where
  Symbol : GoString
  Name : GoString
  deriving DecidableEq

/-- The zero value of `Subject`. -/
def Subject.zero : Subject :=
  { Symbol := [], Name := [] }

/-- The fields of `Subject` with their `json` names, in declaration order. -/
def Subject.fields : List (Field Subject) :=
  [ .string (ascii "symbol") (fun t v => { t with Symbol := v }),
    .string (ascii "name") (fun t v => { t with Name := v }) ]

/-- The struct `Course`: a course. -/
@[ext]
structure Course where
  ID : Int
  Title : GoString
  Term : GoString
  Instructor : GoString
  Subject : GoString
  CatalogNum : GoString
  Section : GoString
  Room : GoString
  MeetingDays : GoString
  StartTime : GoString
  EndTime : GoString
  Seats : Int
  Topic : GoString
  Component : GoString
  ClassNum : Int
  CourseID : Int
  deriving DecidableEq

/-- The zero value of `Course`. -/
def Course.zero : Course :=
  { ID := 0, Title := [], Term := [], Instructor := [], Subject := [], CatalogNum := [], Section := [], Room := [], MeetingDays := [], StartTime := [], EndTime := [], Seats := 0, Topic := [], Component := [], ClassNum := 0, CourseID := 0 }

/-- The fields of `Course` with their `json` names, in declaration order. -/
def Course.fields : List (Field Course) :=
  [ .int (ascii "id") (fun t v => { t with ID := v }),
    .string (ascii "title") (fun t v => { t with Title := v }),
    .string (ascii "term") (fun t v => { t with Term := v }),
    .string (ascii "instructor") (fun t v => { t with Instructor := v }),
    .string (ascii "subject") (fun t v => { t with Subject := v }),
    .string (ascii "catalog_num") (fun t v => { t with CatalogNum := v }),
    .string (ascii "section") (fun t v => { t with Section := v }),
    .string (ascii "room") (fun t v => { t with Room := v }),
    .string (ascii "meeting_days") (fun t v => { t with MeetingDays := v }),
    .string (ascii "start_time") (fun t v => { t with StartTime := v }),
    .string (ascii "end_time") (fun t v => { t with EndTime := v }),
    .int (ascii "seats") (fun t v => { t with Seats := v }),
    .string (ascii "topic") (fun t v => { t with Topic := v }),
    .string (ascii "component") (fun t v => { t with Component := v }),
    .int (ascii "class_num") (fun t v => { t with ClassNum := v }),
    .int (ascii "course_id") (fun t v => { t with CourseID := v }) ]

/-- The struct `Instructor`: an instructor. -/
@[ext]
structure Instructor where
  ID : Int
  Name : GoString
  Bio : GoString
  Address : GoString
  Phone : GoString
  OfficeHours : GoString
  Subjects : Slice GoString
  deriving DecidableEq

/-- The zero value of `Instructor`. -/
def Instructor.zero : Instructor :=
  { ID := 0, Name := [], Bio := [], Address := [], Phone := [], OfficeHours := [], Subjects := Slice.nil }

/-- The fields of `Instructor` with their `json` names, in declaration order. -/
def Instructor.fields : List (Field Instructor) :=
  [ .int (ascii "id") (fun t v => { t with ID := v }),
    .string (ascii "name") (fun t v => { t with Name := v }),
    .string (ascii "bio") (fun t v => { t with Bio := v }),
    .string (ascii "address") (fun t v => { t with Address := v }),
    .string (ascii "phone") (fun t v => { t with Phone := v }),
    .string (ascii "office_hours") (fun t v => { t with OfficeHours := v }),
    .strings (ascii "subjects") (fun t => t.Subjects) (fun t v => { t with Subjects := v }) ]

/-- The struct `Building`: a building. -/
@[ext]
structure Building where
  ID : Int
  Name : GoString
  Lat : Float64
  Lon : Float64
  NUMapsLink : GoString
  deriving DecidableEq

/-- The zero value of `Building`. -/
def Building.zero : Building :=
  { ID := 0, Name := [], Lat := { bits := 0 }, Lon := { bits := 0 }, NUMapsLink := [] }

/-- The fields of `Building` with their `json` names, in declaration order; `parseFloat` is the
behaviour of `strconv.ParseFloat(s, 64)`. -/
def Building.fields (parseFloat : GoString → Option Float64) : List (Field Building) :=
  [ .int (ascii "id") (fun t v => { t with ID := v }),
    .string (ascii "name") (fun t v => { t with Name := v }),
    .float64 (ascii "lat") parseFloat (fun t v => { t with Lat := v }),
    .float64 (ascii "lon") parseFloat (fun t v => { t with Lon := v }),
    .string (ascii "nu_maps_link") (fun t v => { t with NUMapsLink := v }) ]

/-- The struct `Room`: a room. -/
@[ext]
structure Room where
  ID : Int
  BuildingID : Int
  Name : GoString
  deriving DecidableEq

/-- The zero value of `Room`. -/
def Room.zero : Room :=
  { ID := 0, BuildingID := 0, Name := [] }

/-- The fields of `Room` with their `json` names, in declaration order. -/
def Room.fields : List (Field Room) :=
  [ .int (ascii "id") (fun t v => { t with ID := v }),
    .int (ascii "building_id") (fun t v => { t with BuildingID := v }),
    .string (ascii "name") (fun t v => { t with Name := v }) ]

/-- The struct `SubjectsConfig`: a config for a Subjects request. -/
structure SubjectsConfig where
  Term : GoString
  School : GoString
  deriving DecidableEq

/-- The struct `CoursesConfig`: a config for a Courses request. -/
structure CoursesConfig where
  ID : GoString
  Term : GoString
  Subject : GoString
  Instructor : GoString
  Room : GoString
  CatalogNum : GoString
  MeetingDays : GoString
  StartTime : GoString
  EndTime : GoString
  StartDate : GoString
  EndDate : GoString
  Seats : GoString
  Component : GoString
  Section : GoString
  ClassNum : GoString
  CourseID : GoString
  deriving DecidableEq

/-- The struct `BuildingsConfig`: a config for a Buildings request. -/
structure BuildingsConfig where
  ID : GoString
  Lat : GoString
  Lon : GoString
  deriving DecidableEq

/-- The struct `RoomsConfig`: a config for a Rooms request. -/
structure RoomsConfig where
  ID : GoString
  Building : GoString
  deriving DecidableEq

/-! ## The methods of `Client` -/

/-- What a method leaves behind: the receiver `*c` after the call and the two results,
the slice (`none` is the nil slice, an element `none` a nil pointer) and the error. -/
structure Result (T : Type) where
  client : Client
  values : Option (List (Option T))
  err : Option Error

/-- The request that `Terms` builds (lines 86-92): a GET of `baseURL` plus
`terms`, whose query holds the key. -/
def Client.TermsRequest (c : Client) : Except Error Request :=
  match NewRequest (ascii "GET") (baseURL ++ ascii "terms") with
  | .error e => .error e
  | .ok req =>
    let q := req.URL.Query
    let q := q.Add (ascii "key") c.key
    .ok { req with URL := { req.URL with RawQuery := q.Encode } }

/-- The method `Client.Terms`: the receiver after the call, the slice and the error returned. -/
def Client.Terms (c : Client) : Result Term :=
  match c.TermsRequest with
  | .error e => { client := c, values := none, err := some e }
  | .ok req =>
    match c.client req with
    | .error e => { client := c, values := none, err := some e }
    | .ok resp =>
      let r := Decode Term.zero (Term.fields) resp.Body
      match r.2 with
      | some e => { client := c, values := none, err := some e }
      | none => { client := c, values := r.1, err := none }

/-- The request that `Schools` builds (lines 109-115): a GET of `baseURL` plus
`schools`, whose query holds the key. -/
def Client.SchoolsRequest (c : Client) : Except Error Request :=
  match NewRequest (ascii "GET") (baseURL ++ ascii "schools") with
  | .error e => .error e
  | .ok req =>
    let q := req.URL.Query
    let q := q.Add (ascii "key") c.key
    .ok { req with URL := { req.URL with RawQuery := q.Encode } }

/-- The method `Client.Schools`: the receiver after the call, the slice and the error returned. -/
def Client.Schools (c : Client) : Result School :=
  match c.SchoolsRequest with
  | .error e => { client := c, values := none, err := some e }
  | .ok req =>
    match c.client req with
    | .error e => { client := c, values := none, err := some e }
    | .ok resp =>
      let r := Decode School.zero (School.fields) resp.Body
      match r.2 with
      | some e => { client := c, values := none, err := some e }
      | none => { client := c, values := r.1, err := none }

/-- The request that `Subjects` builds (lines 140-152): a GET of `baseURL` plus
`subjects`, whose query holds the key and every non-empty field of the config. -/
def Client.SubjectsRequest (c : Client) (config : SubjectsConfig) : Except Error Request :=
  match NewRequest (ascii "GET") (baseURL ++ ascii "subjects") with
  | .error e => .error e
  | .ok req =>
    let q := req.URL.Query
    let q := q.Add (ascii "key") c.key
    let q := if config.Term.length > 0 then q.Add (ascii "term") config.Term else q
    let q := if config.School.length > 0 then q.Add (ascii "school") config.School else q
    .ok { req with URL := { req.URL with RawQuery := q.Encode } }

/-- The method `Client.Subjects`: the receiver after the call, the slice and the error returned. -/
def Client.Subjects (c : Client) (config : SubjectsConfig) : Result Subject :=
  match c.SubjectsRequest config with
  | .error e => { client := c, values := none, err := some e }
  | .ok req =>
    match c.client req with
    | .error e => { client := c, values := none, err := some e }
    | .ok resp =>
      let r := Decode Subject.zero (Subject.fields) resp.Body
      match r.2 with
      | some e => { client := c, values := none, err := some e }
      | none => { client := c, values := r.1, err := none }

/-- The request that `Courses` builds (lines 213-267): a GET of `baseURL` plus
`courses`, whose query holds the key and every non-empty field of the config. -/
def Client.CoursesRequest (c : Client) (config : CoursesConfig) : Except Error Request :=
  match NewRequest (ascii "GET") (baseURL ++ ascii "courses") with
  | .error e => .error e
  | .ok req =>
    let q := req.URL.Query
    let q := q.Add (ascii "key") c.key
    let q := if config.ID.length > 0 then q.Add (ascii "id") config.ID else q
    let q := if config.Term.length > 0 then q.Add (ascii "term") config.Term else q
    let q := if config.Subject.length > 0 then q.Add (ascii "subject") config.Subject else q
    let q := if config.Instructor.length > 0 then q.Add (ascii "instructor") config.Instructor else q
    let q := if config.Room.length > 0 then q.Add (ascii "room") config.Room else q
    let q := if config.CatalogNum.length > 0 then q.Add (ascii "catalog_num") config.CatalogNum else q
    let q := if config.MeetingDays.length > 0 then q.Add (ascii "meeting_days") config.MeetingDays else q
    let q := if config.StartTime.length > 0 then q.Add (ascii "start_time") config.StartTime else q
    let q := if config.EndTime.length > 0 then q.Add (ascii "end_time") config.EndTime else q
    let q := if config.StartDate.length > 0 then q.Add (ascii "start_date") config.StartDate else q
    let q := if config.EndDate.length > 0 then q.Add (ascii "end_date") config.EndDate else q
    let q := if config.Seats.length > 0 then q.Add (ascii "seats") config.Seats else q
    let q := if config.Component.length > 0 then q.Add (ascii "component") config.Component else q
    let q := if config.Section.length > 0 then q.Add (ascii "section") config.Section else q
    let q := if config.ClassNum.length > 0 then q.Add (ascii "class_num") config.ClassNum else q
    let q := if config.CourseID.length > 0 then q.Add (ascii "course_id") config.CourseID else q
    .ok { req with URL := { req.URL with RawQuery := q.Encode } }

/-- The method `Client.Courses`: the receiver after the call, the slice and the error returned. -/
def Client.Courses (c : Client) (config : CoursesConfig) : Result Course :=
  match c.CoursesRequest config with
  | .error e => { client := c, values := none, err := some e }
  | .ok req =>
    match c.client req with
    | .error e => { client := c, values := none, err := some e }
    | .ok resp =>
      let r := Decode Course.zero (Course.fields) resp.Body
      match r.2 with
      | some e => { client := c, values := none, err := some e }
      | none => { client := c, values := r.1, err := none }

/-- The request that `Instructors` builds (lines 286-293): a GET of `baseURL` plus
`instructors`, whose query holds the key and `subject`. -/
def Client.InstructorsRequest (c : Client) (subject : GoString) : Except Error Request :=
  match NewRequest (ascii "GET") (baseURL ++ ascii "instructors") with
  | .error e => .error e
  | .ok req =>
    let q := req.URL.Query
    let q := q.Add (ascii "key") c.key
    let q := q.Add (ascii "subject") subject
    .ok { req with URL := { req.URL with RawQuery := q.Encode } }

/-- The method `Client.Instructors`: the receiver after the call, the slice and the error returned. -/
def Client.Instructors (c : Client) (subject : GoString) : Result Instructor :=
  match c.InstructorsRequest subject with
  | .error e => { client := c, values := none, err := some e }
  | .ok req =>
    match c.client req with
    | .error e => { client := c, values := none, err := some e }
    | .ok resp =>
      let r := Decode Instructor.zero (Instructor.fields) resp.Body
      match r.2 with
      | some e => { client := c, values := none, err := some e }
      | none => { client := c, values := r.1, err := none }

/-- The request that `Buildings` builds (lines 320-335): a GET of `baseURL` plus
`buildings`, whose query holds the key and every non-empty field of the config. -/
def Client.BuildingsRequest (c : Client) (config : BuildingsConfig) : Except Error Request :=
  match NewRequest (ascii "GET") (baseURL ++ ascii "buildings") with
  | .error e => .error e
  | .ok req =>
    let q := req.URL.Query
    let q := q.Add (ascii "key") c.key
    let q := if config.ID.length > 0 then q.Add (ascii "id") config.ID else q
    let q := if config.Lat.length > 0 then q.Add (ascii "lat") config.Lat else q
    let q := if config.Lon.length > 0 then q.Add (ascii "lon") config.Lon else q
    .ok { req with URL := { req.URL with RawQuery := q.Encode } }

/-- The method `Client.Buildings`: the receiver after the call, the slice and the error returned
(`parseFloat` is the behaviour of `strconv.ParseFloat(s, 64)`). -/
def Client.Buildings (parseFloat : GoString → Option Float64) (c : Client) (config : BuildingsConfig) : Result Building :=
  match c.BuildingsRequest config with
  | .error e => { client := c, values := none, err := some e }
  | .ok req =>
    match c.client req with
    | .error e => { client := c, values := none, err := some e }
    | .ok resp =>
      let r := Decode Building.zero (Building.fields parseFloat) resp.Body
      match r.2 with
      | some e => { client := c, values := none, err := some e }
      | none => { client := c, values := r.1, err := none }

/-- The request that `Rooms` builds (lines 360-372): a GET of `baseURL` plus
`rooms`, whose query holds the key and every non-empty field of the config. -/
def Client.RoomsRequest (c : Client) (config : RoomsConfig) : Except Error Request :=
  match NewRequest (ascii "GET") (baseURL ++ ascii "rooms") with
  | .error e => .error e
  | .ok req =>
    let q := req.URL.Query
    let q := q.Add (ascii "key") c.key
    let q := if config.ID.length > 0 then q.Add (ascii "id") config.ID else q
    let q := if config.Building.length > 0 then q.Add (ascii "building") config.Building else q
    .ok { req with URL := { req.URL with RawQuery := q.Encode } }

/-- The method `Client.Rooms`: the receiver after the call, the slice and the error returned. -/
def Client.Rooms (c : Client) (config : RoomsConfig) : Result Room :=
  match c.RoomsRequest config with
  | .error e => { client := c, values := none, err := some e }
  | .ok req =>
    match c.client req with
    | .error e => { client := c, values := none, err := some e }
    | .ok resp =>
      let r := Decode Room.zero (Room.fields) resp.Body
      match r.2 with
      | some e => { client := c, values := none, err := some e }
      | none => { client := c, values := r.1, err := none }

/-! ## Reading a query as a list of parameters -/

/-- The text of one parameter: `QueryEscape(k)=QueryEscape(v)`. -/
def pairText (p : GoString × GoString) : GoString := encodePair (QueryEscape p.1) p.2

/-- The text of a list of parameters: the parameters joined by `&`. -/
def queryText : List (GoString × GoString) → GoString
  | [] => []
  | [p] => pairText p
  | p :: q :: rest => pairText p ++ (38 : Byte) :: queryText (q :: rest)

/-- The parameters of a map in the order in which `Encode` writes them. -/
def Values.pairs (v : Values) : List (GoString × GoString) :=
  (sortKeys v.keys).flatMap (fun k => (v.vals k).map (fun x => (k, x)))

/-- The map that `Add` builds from a list of parameters. -/
def Values.addAll (m : Values) (ps : List (GoString × GoString)) : Values :=
  ps.foldl (fun m p => m.Add p.1 p.2) m

/-- The values of parameter `name` in the query of a request, as `req.URL.Query()` gives them. -/
def Request.param (req : Request) (name : GoString) : List GoString :=
  req.URL.Query.vals name

/-! ## The parameters of each method -/

/-- The fields of `SubjectsConfig` with the name of the parameter each is sent under. -/
def SubjectsConfig.params : List (GoString × (SubjectsConfig → GoString)) :=
  [ (ascii "term", fun c => c.Term), (ascii "school", fun c => c.School) ]

/-- The fields of `CoursesConfig` with the name of the parameter each is sent under
(the name in the field's `json` tag). -/
def CoursesConfig.params : List (GoString × (CoursesConfig → GoString)) :=
  [ (ascii "id", fun c => c.ID), (ascii "term", fun c => c.Term),
    (ascii "subject", fun c => c.Subject), (ascii "instructor", fun c => c.Instructor),
    (ascii "room", fun c => c.Room), (ascii "catalog_num", fun c => c.CatalogNum),
    (ascii "meeting_days", fun c => c.MeetingDays), (ascii "start_time", fun c => c.StartTime),
    (ascii "end_time", fun c => c.EndTime), (ascii "start_date", fun c => c.StartDate),
    (ascii "end_date", fun c => c.EndDate), (ascii "seats", fun c => c.Seats),
    (ascii "component", fun c => c.Component), (ascii "section", fun c => c.Section),
    (ascii "class_num", fun c => c.ClassNum), (ascii "course_id", fun c => c.CourseID) ]

/-- The fields of `BuildingsConfig` with the name of the parameter each is sent under. -/
def BuildingsConfig.params : List (GoString × (BuildingsConfig → GoString)) :=
  [ (ascii "id", fun c => c.ID), (ascii "lat", fun c => c.Lat), (ascii "lon", fun c => c.Lon) ]

/-- The fields of `RoomsConfig` with the name of the parameter each is sent under. -/
def RoomsConfig.params : List (GoString × (RoomsConfig → GoString)) :=
  [ (ascii "id", fun c => c.ID), (ascii "building", fun c => c.Building) ]

/-- The map after the statements `if len(config.F) > 0 { q.Add(name, config.F) }` for the
fields of a table, in order. -/
def addOptional {C : Type} (config : C) (table : List (GoString × (C → GoString)))
    (q : Values) : Values :=
  table.foldl (fun q p => if (p.2 config).length > 0 then q.Add p.1 (p.2 config) else q) q

/-- A GET request for `baseURL` plus a resource name, with the query `q` encoded. -/
def apiRequest (resource : GoString) (q : Values) : Request :=
  { Method := ascii "GET",
    URL := { Scheme := ascii "http", Opaque := [], Host := ascii "api.asg.northwestern.edu",
             Path := (47 : Byte) :: resource, ForceQuery := false, RawQuery := q.Encode,
             Fragment := [] } }

/-- The range-filter suffixes of the remote API. -/
def rangeSuffixes : List GoString :=
  [ascii "__lt", ascii "__gt", ascii "__lte", ascii "__gte"]

/-- The unreserved characters of a URL (RFC 3986): letters, digits, `-`, `.`, `_`, `~`. -/
def isUnreserved (c : Byte) : Bool :=
  isAlnum c || c.val = 45 || c.val = 46 || c.val = 95 || c.val = 126

/-- A transport that answers every request with the given status and body. -/
def respondWith (status : Nat) (body : GoString) : HTTPClient :=
  fun _ => .ok { StatusCode := status, Body := { data := body, readErr := none } }

/-- A transport that fails on every request with the error `e`. -/
def failWith (e : Error) : HTTPClient := fun _ => .error e

/-- The second half of every method, from the result of `c.client.Do(req)` on: a transport
error is returned as it is, otherwise the body is decoded and either the decoding error
or the decoded slice is returned. -/
def finish {T : Type} (c : Client) (zero : T) (fields : List (Field T))
    (r : Except Error Response) : Result T :=
  match r with
  | .error e => { client := c, values := none, err := some e }
  | .ok resp =>
    match (Decode zero fields resp.Body).2 with
    | some e => { client := c, values := none, err := some e }
    | none => { client := c, values := (Decode zero fields resp.Body).1, err := none }

/-- The parameters of Courses for which the remote API accepts a range-filter suffix. -/
def coursesRangeFields : List GoString :=
  [ascii "start_time", ascii "end_time", ascii "start_date", ascii "end_date", ascii "seats"]

/-- The parameters of Buildings for which the remote API accepts a range-filter suffix. -/
def buildingsRangeFields : List GoString := [ascii "lat", ascii "lon"]

/-- The resource names of the seven methods. -/
def resources : List GoString :=
  [ascii "terms", ascii "schools", ascii "subjects", ascii "courses", ascii "instructors",
    ascii "buildings", ascii "rooms"]

/-- Arrays and `null`, the two JSON values that fit a slice. -/
def JValue.fitsSlice : JValue → Bool
  | .null => true
  | .array _ => true
  | _ => false

/-! ## What a decoded record should hold -/

/-- The value of the member `name` of a JSON object, if it has one. -/
def member (ms : List (GoString × JValue)) (name : GoString) : Option JValue :=
  (ms.find? (fun m => m.1 = name)).map Prod.snd

/-- The number written by a string of decimal digits. -/
def decimalValue (ds : GoString) : Nat :=
  ds.foldl (fun n d => n * 10 + (d.val - 48)) 0

/-- A JSON number literal that is an integer of 64 bits: an optional `-`, then digits
only (no fraction, no exponent), with a value from `-2^63` to `2^63 - 1`. -/
def isIntLiteral (lit : GoString) : Bool :=
  match lit with
  | [] => false
  | c :: cs =>
    if c.val = 45 then cs ≠ [] && cs.all isDigit && decimalValue cs ≤ 2 ^ 63
    else (c :: cs).all isDigit && decimalValue (c :: cs) < 2 ^ 63

/-- The integer an integer literal stands for. -/
def intValue (lit : GoString) : Int :=
  match lit with
  | [] => 0
  | c :: cs => if c.val = 45 then -(decimalValue cs : Int) else (decimalValue (c :: cs) : Int)

/-- The text of an element of a JSON array of strings (`null` stands for the empty text). -/
def elemString (e : JValue) : GoString :=
  match e with
  | .string s => s
  | _ => []

/-- The text under `name` in an object: the member's string, the empty string when the
member is absent or `null`. -/
def stringOf (ms : List (GoString × JValue)) (name : GoString) : GoString :=
  match member ms name with
  | some (.string s) => s
  | _ => []

/-- The integer under `name` in an object: the member's number, zero when the member is
absent or `null`. -/
def intOf (ms : List (GoString × JValue)) (name : GoString) : Int :=
  match member ms name with
  | some (.number lit) => intValue lit
  | _ => 0

/-- The `float64` under `name` in an object: what `strconv.ParseFloat` makes of the
member's number, zero when the member is absent or `null`. -/
def floatOf (parseFloat : GoString → Option Float64) (ms : List (GoString × JValue))
    (name : GoString) : Float64 :=
  match member ms name with
  | some (.number lit) => (parseFloat lit).getD { bits := 0 }
  | _ => { bits := 0 }

/-- The list of strings under `name` in an object: the member's elements in order, the
nil slice when the member is absent or `null`. -/
def stringsOf (ms : List (GoString × JValue)) (name : GoString) : Slice GoString :=
  match member ms name with
  | some (.array es) => { nonNil := true, elems := es.map elemString, spare := [] }
  | _ => Slice.nil

/-- A string or `null`. -/
def JValue.isStringOrNull : JValue → Bool
  | .string _ => true
  | .null => true
  | _ => false

/-- The JSON value has the JSON type expected for the field (or is `null`): a string for a
string field, an integer literal of 64 bits for an `int` field, a number that
`strconv.ParseFloat` takes for a `float64` field, an array of strings for a `[]string`. -/
def Field.accepts {T : Type} (f : Field T) (v : JValue) : Bool :=
  match f, v with
  | _, .null => true
  | .string _ _, .string _ => true
  | .int _ _, .number lit => isIntLiteral lit
  | .float64 _ parseFloat _, .number lit => (parseFloat lit).isSome
  | .strings _ _ _, .array es => es.all JValue.isStringOrNull
  | _, _ => false

/-- A byte of a field name of the package: a lower-case letter, a digit or `_`. -/
def isNameByte (c : Byte) : Bool :=
  (97 ≤ c.val && c.val ≤ 122) || (48 ≤ c.val && c.val ≤ 57) || c.val = 95

/-- The ways to write the character `c` of a field name when letter case is ignored: the
character itself, for a letter also its upper-case form, and for `k` and `s` also the
Kelvin sign (U+212A) and the long s (U+017F), which Unicode folds to them. -/
def spellings (c : Byte) : List GoString :=
  [c] :: ((if 97 ≤ c.val && c.val ≤ 122 then [[Fin.ofNat (c.val - 32)]] else []) ++
    ((if c.val = 107 then [[(0xE2 : Byte), 0x84, 0xAA]] else []) ++
      (if c.val = 115 then [[(0xC5 : Byte), 0xBF]] else [])))

/-- The key equals the field name `name` when letter case is ignored: it spells the
characters of the name one after the other. -/
def equalFold : GoString → GoString → Bool
  | [], key => key.isEmpty
  | c :: cs, key =>
    (spellings c).any (fun sp => sp.isPrefixOf key && equalFold cs (key.drop sp.length))

/-- A JSON object whose members have the names and the JSON types expected for a struct:
no key that is the name of a field occurs twice, a member named like a field has a value
the field accepts, and any other key differs from every field name also when letter case
is ignored. -/
def wellTyped {T : Type} (fields : List (Field T)) (ms : List (GoString × JValue)) : Bool :=
  decide ((ms.map Prod.fst).filter (fun k => fields.any (fun f => f.name = k))).Nodup &&
    ms.all (fun m =>
      match fields.find? (fun f => f.name = m.1) with
      | some f => f.accepts m.2
      | none => fields.all (fun f => !equalFold f.name m.1))

/-- The `Term` a JSON object describes: each field holds the member with the field's
`json` name, or the zero value when the object has no such member. -/
def Term.ofObject (ms : List (GoString × JValue)) : Term :=
  { ID := intOf ms (ascii "id"),
    Name := stringOf ms (ascii "name"),
    StartDate := stringOf ms (ascii "start_date"),
    EndDate := stringOf ms (ascii "end_date") }

/-- The `School` a JSON object describes: each field holds the member with the field's
`json` name, or the zero value when the object has no such member. -/
def School.ofObject (ms : List (GoString × JValue)) : School :=
  { Symbol := stringOf ms (ascii "symbol"),
    Name := stringOf ms (ascii "name") }

/-- The `Subject` a JSON object describes: each field holds the member with the field's
`json` name, or the zero value when the object has no such member. -/
def Subject.ofObject (ms : List (GoString × JValue)) : Subject :=
  { Symbol := stringOf ms (ascii "symbol"),
    Name := stringOf ms (ascii "name") }

/-- The `Course` a JSON object describes: each field holds the member with the field's
`json` name, or the zero value when the object has no such member. -/
def Course.ofObject (ms : List (GoString × JValue)) : Course :=
  { ID := intOf ms (ascii "id"),
    Title := stringOf ms (ascii "title"),
    Term := stringOf ms (ascii "term"),
    Instructor := stringOf ms (ascii "instructor"),
    Subject := stringOf ms (ascii "subject"),
    CatalogNum := stringOf ms (ascii "catalog_num"),
    Section := stringOf ms (ascii "section"),
    Room := stringOf ms (ascii "room"),
    MeetingDays := stringOf ms (ascii "meeting_days"),
    StartTime := stringOf ms (ascii "start_time"),
    EndTime := stringOf ms (ascii "end_time"),
    Seats := intOf ms (ascii "seats"),
    Topic := stringOf ms (ascii "topic"),
    Component := stringOf ms (ascii "component"),
    ClassNum := intOf ms (ascii "class_num"),
    CourseID := intOf ms (ascii "course_id") }

/-- The `Instructor` a JSON object describes: each field holds the member with the field's
`json` name, or the zero value when the object has no such member. -/
def Instructor.ofObject (ms : List (GoString × JValue)) : Instructor :=
  { ID := intOf ms (ascii "id"),
    Name := stringOf ms (ascii "name"),
    Bio := stringOf ms (ascii "bio"),
    Address := stringOf ms (ascii "address"),
    Phone := stringOf ms (ascii "phone"),
    OfficeHours := stringOf ms (ascii "office_hours"),
    Subjects := stringsOf ms (ascii "subjects") }

/-- The `Building` a JSON object describes: each field holds the member with the field's
`json` name, or the zero value when the object has no such member. -/
def Building.ofObject (parseFloat : GoString → Option Float64) (ms : List (GoString × JValue)) : Building :=
  { ID := intOf ms (ascii "id"),
    Name := stringOf ms (ascii "name"),
    Lat := floatOf parseFloat ms (ascii "lat"),
    Lon := floatOf parseFloat ms (ascii "lon"),
    NUMapsLink := stringOf ms (ascii "nu_maps_link") }

/-- The `Room` a JSON object describes: each field holds the member with the field's
`json` name, or the zero value when the object has no such member. -/
def Room.ofObject (ms : List (GoString × JValue)) : Room :=
  { ID := intOf ms (ascii "id"),
    BuildingID := intOf ms (ascii "building_id"),
    Name := stringOf ms (ascii "name") }


/-- The body `[{"symbol":"CS","name":"Computer Science"}]`. -/
def subjectsBody : GoString :=
  ascii "[\x7b\"symbol\":\"CS\",\"name\":\"Computer Science\"\x7d]"

/-- The body `{"error":"bad request"}`, an object. -/
def errorBody : GoString := ascii "\x7b\"error\":\"bad request\"\x7d"

/-- The body `[{"id":1.5}]`: an array of one object whose `id` is not an integer. -/
def fractionalBody : GoString := ascii "[\x7b\"id\":1.5\x7d]"

/-- An outcome of the scanner that is not the end of the fuel and that, when it is a
value, leaves fewer than `n` bytes. -/
def Scan.within (n : Nat) (r : Scan JValue) : Prop :=
  r ≠ .bad fuelMsg ∧ ∀ v rest, r = .ok v rest → rest.length < n

/-! ## JSON texts (RFC 8259)

The grammar of JSON, written down independently of the decoder: a document is a tree that
records every byte of its text, white space included, so that `Doc.render` gives the text
back and `Doc.denote` the value the text stands for. -/

/-- White space of JSON: space, horizontal tab, line feed, carriage return. -/
def isWs (c : Byte) : Bool :=
  c.val = 0x20 || c.val = 0x09 || c.val = 0x0A || c.val = 0x0D

/-- The digits `0` to `9`. -/
def isDecDigit (c : Byte) : Bool := 0x30 ≤ c.val && c.val ≤ 0x39

/-- A hexadecimal digit, in either case. -/
def isHexDigit (c : Byte) : Bool :=
  isDecDigit c || (0x41 ≤ c.val && c.val ≤ 0x46) || (0x61 ≤ c.val && c.val ≤ 0x66)

/-- The value of a hexadecimal digit. -/
def hexValue (c : Byte) : Nat :=
  if isDecDigit c then c.val - 0x30
  else if c.val ≤ 0x46 then c.val - 0x41 + 10
  else c.val - 0x61 + 10

/-- The four hexadecimal digits of an escape `\uXXXX`. -/
structure Hex4 where
  d1 : Byte
  d2 : Byte
  d3 : Byte
  d4 : Byte

/-- All four are hexadecimal digits. -/
def Hex4.wellFormed (h : Hex4) : Bool :=
  isHexDigit h.d1 && isHexDigit h.d2 && isHexDigit h.d3 && isHexDigit h.d4

/-- The UTF-16 code unit the four digits write. -/
def Hex4.value (h : Hex4) : Nat :=
  hexValue h.d1 * 4096 + hexValue h.d2 * 256 + hexValue h.d3 * 16 + hexValue h.d4

/-- The text `\uXXXX`. -/
def Hex4.render (h : Hex4) : GoString :=
  [(0x5C : Byte), (0x75 : Byte), h.d1, h.d2, h.d3, h.d4]

/-- A Unicode scalar value: a code point up to U+10FFFF that is not a surrogate. -/
def isScalarValue (r : Nat) : Bool := r < 0xD800 || (0xE000 ≤ r && r ≤ 0x10FFFF)

/-- A high (leading) surrogate, `D800` to `DBFF`. -/
def isHighSurrogate (r : Nat) : Bool := 0xD800 ≤ r && r ≤ 0xDBFF

/-- A low (trailing) surrogate, `DC00` to `DFFF`. -/
def isLowSurrogate (r : Nat) : Bool := 0xDC00 ≤ r && r ≤ 0xDFFF

/-- The UTF-8 encoding of a code point (RFC 3629): one to four bytes. -/
def utf8 (r : Nat) : GoString :=
  if r < 0x80 then [Fin.ofNat r]
  else if r < 0x800 then [Fin.ofNat (0xC0 + r / 0x40), Fin.ofNat (0x80 + r % 0x40)]
  else if r < 0x10000 then
    [Fin.ofNat (0xE0 + r / 0x1000), Fin.ofNat (0x80 + r / 0x40 % 0x40),
      Fin.ofNat (0x80 + r % 0x40)]
  else
    [Fin.ofNat (0xF0 + r / 0x40000), Fin.ofNat (0x80 + r / 0x1000 % 0x40),
      Fin.ofNat (0x80 + r / 0x40 % 0x40), Fin.ofNat (0x80 + r % 0x40)]

/-- The character a two-character escape stands for: `\b`, `\f`, `\n`, `\r`, `\t` are
control characters, and `\"`, `\\`, `\/` stand for their second character. -/
def escValue (c : Byte) : Byte :=
  if c.val = 0x62 then 0x08
  else if c.val = 0x66 then 0x0C
  else if c.val = 0x6E then 0x0A
  else if c.val = 0x72 then 0x0D
  else if c.val = 0x74 then 0x09
  else c

/-- The second character of a two-character escape: one of `"`, `\`, `/`, `b`, `f`, `n`,
`r`, `t`. -/
def isEscChar (c : Byte) : Bool :=
  c.val = 0x22 || c.val = 0x5C || c.val = 0x2F || c.val = 0x62 || c.val = 0x66 ||
    c.val = 0x6E || c.val = 0x72 || c.val = 0x74

/-- One piece of the text between the quotes of a JSON string. -/
inductive StrItem where
  /-- A byte written as itself. -/
  | byte (c : Byte)
  /-- A character beyond ASCII written as itself, in UTF-8. -/
  | rune (r : Nat)
  /-- A backslash and one character. -/
  | esc (c : Byte)
  /-- An escape `\uXXXX`. -/
  | unit (h : Hex4)
  /-- Two escapes `\uXXXX\uXXXX` that form a surrogate pair. -/
  | pair (hi lo : Hex4)

/-- The text of a piece of a string. -/
def StrItem.render : StrItem → GoString
  | .byte c => [c]
  | .rune r => utf8 r
  | .esc c => [(0x5C : Byte), c]
  | .unit h => h.render
  | .pair hi lo => hi.render ++ lo.render

/-- The grammar of strings at the level of bytes: an unescaped byte is neither a control
character nor `"` nor `\`, an escape is one of the eight two-character escapes or `\u`
with four hexadecimal digits. Bytes beyond ASCII are not required to form UTF-8, and a
`\u` escape may be a lone surrogate. -/
def StrItem.wellFormed : StrItem → Bool
  | .byte c => 0x20 ≤ c.val && c.val != 0x22 && c.val != 0x5C
  | .rune r => 0x80 ≤ r && isScalarValue r
  | .esc c => isEscChar c
  | .unit h => h.wellFormed
  | .pair hi lo =>
    hi.wellFormed && lo.wellFormed && isHighSurrogate hi.value && isLowSurrogate lo.value

/-- The grammar of strings at the level of characters: as `wellFormed`, and the string is a
sequence of Unicode characters, so an unescaped byte is ASCII, a character beyond ASCII is
a scalar value in UTF-8, and a `\u` escape that is a surrogate belongs to a pair. -/
def StrItem.strict : StrItem → Bool
  | .byte c => 0x20 ≤ c.val && c.val < 0x80 && c.val != 0x22 && c.val != 0x5C
  | .rune r => 0x80 ≤ r && isScalarValue r
  | .esc c => isEscChar c
  | .unit h => h.wellFormed && isScalarValue h.value
  | .pair hi lo =>
    hi.wellFormed && lo.wellFormed && isHighSurrogate hi.value && isLowSurrogate lo.value

/-- The characters a piece of a string stands for, in UTF-8. -/
def StrItem.denote : StrItem → GoString
  | .byte c => [c]
  | .rune r => utf8 r
  | .esc c => [escValue c]
  | .unit h => utf8 h.value
  | .pair hi lo => utf8 (0x10000 + (hi.value - 0xD800) * 0x400 + (lo.value - 0xDC00))

/-- The text between the quotes of a string. -/
def renderItems : List StrItem → GoString
  | [] => []
  | i :: is => i.render ++ renderItems is

/-- The text a JSON string stands for, in UTF-8. -/
def denoteItems : List StrItem → GoString
  | [] => []
  | i :: is => i.denote ++ denoteItems is

/-- The text of a JSON string: the pieces between two quotes. -/
def quoted (items : List StrItem) : GoString :=
  (0x22 : Byte) :: (renderItems items ++ [(0x22 : Byte)])

/-- A JSON number as written: an optional `-`, the integer part, and the texts of the
fraction and of the exponent, each of which may be absent (empty). -/
structure NumLit where
  negative : Bool
  int : GoString
  frac : GoString
  exp : GoString

/-- At least one digit, and digits only. -/
def isDigits (ds : GoString) : Bool := ds != [] && ds.all isDecDigit

/-- The integer part of a number: `0`, or digits that do not begin with `0`. -/
def isIntPart (ds : GoString) : Bool :=
  match ds with
  | [] => false
  | c :: cs => if c.val = 0x30 then cs == [] else isDecDigit c && cs.all isDecDigit

/-- The fraction of a number: absent, or `.` and at least one digit. -/
def isFracPart (s : GoString) : Bool :=
  match s with
  | [] => true
  | c :: ds => c.val = 0x2E && isDigits ds

/-- The exponent of a number: absent, or `e` or `E`, an optional sign, and at least one
digit. -/
def isExpPart (s : GoString) : Bool :=
  match s with
  | [] => true
  | e :: rest =>
    (e.val = 0x65 || e.val = 0x45) &&
      (match rest with
        | [] => false
        | sgn :: ds => if sgn.val = 0x2B || sgn.val = 0x2D then isDigits ds else isDigits (sgn :: ds))

/-- The number follows the grammar. -/
def NumLit.wellFormed (n : NumLit) : Bool :=
  isIntPart n.int && isFracPart n.frac && isExpPart n.exp

/-- The text of a number. -/
def NumLit.render (n : NumLit) : GoString :=
  (if n.negative then [(0x2D : Byte)] else []) ++ (n.int ++ (n.frac ++ n.exp))

mutual
/-- A JSON document: a value together with the way it is written. -/
inductive Doc where
  | null
  | bool (b : Bool)
  | number (n : NumLit)
  | string (items : List StrItem)
  /-- The text `[` white space `]`. -/
  | emptyArray (ws : GoString)
  /-- The text `[` elements. -/
  | array (elems : Elems)
  /-- An opening brace, white space, a closing brace. -/
  | emptyObject (ws : GoString)
  /-- An opening brace and members. -/
  | object (members : Members)
/-- The elements of a non-empty array, each between white space, up to the closing `]`. -/
inductive Elems where
  | last (pre : GoString) (value : Doc) (post : GoString)
  | cons (pre : GoString) (value : Doc) (post : GoString) (tail : Elems)
/-- The members of a non-empty object up to the closing brace: white space, the key,
white space, `:`, white space, the value, white space. -/
inductive Members where
  | last (pre : GoString) (key : List StrItem) (mid : GoString) (sep : GoString)
      (value : Doc) (post : GoString)
  | cons (pre : GoString) (key : List StrItem) (mid : GoString) (sep : GoString)
      (value : Doc) (post : GoString) (tail : Members)
end

mutual
/-- The text of a document. -/
def Doc.render : Doc → GoString
  | .null => ascii "null"
  | .bool true => ascii "true"
  | .bool false => ascii "false"
  | .number n => n.render
  | .string items => quoted items
  | .emptyArray ws => (0x5B : Byte) :: (ws ++ [(0x5D : Byte)])
  | .array es => (0x5B : Byte) :: es.render
  | .emptyObject ws => (0x7B : Byte) :: (ws ++ [(0x7D : Byte)])
  | .object ms => (0x7B : Byte) :: ms.render
/-- The text of the elements of an array, closing `]` included. -/
def Elems.render : Elems → GoString
  | .last pre v post => pre ++ (v.render ++ (post ++ [(0x5D : Byte)]))
  | .cons pre v post tail => pre ++ (v.render ++ (post ++ (0x2C : Byte) :: tail.render))
/-- The text of the members of an object, closing brace included. -/
def Members.render : Members → GoString
  | .last pre key mid sep v post =>
    pre ++ (quoted key ++ (mid ++ (0x3A : Byte) :: (sep ++ (v.render ++ (post ++ [(0x7D : Byte)])))))
  | .cons pre key mid sep v post tail =>
    pre ++ (quoted key ++ (mid ++ (0x3A : Byte) ::
      (sep ++ (v.render ++ (post ++ (0x2C : Byte) :: tail.render)))))
end

mutual
/-- The document follows the grammar, with `item` as the grammar of the pieces of
strings: white space is white space, numbers are numbers, strings are strings. -/
def Doc.valid (item : StrItem → Bool) : Doc → Bool
  | .null => true
  | .bool _ => true
  | .number n => n.wellFormed
  | .string items => items.all item
  | .emptyArray ws => ws.all isWs
  | .array es => es.valid item
  | .emptyObject ws => ws.all isWs
  | .object ms => ms.valid item
/-- The elements follow the grammar. -/
def Elems.valid (item : StrItem → Bool) : Elems → Bool
  | .last pre v post => pre.all isWs && v.valid item && post.all isWs
  | .cons pre v post tail => pre.all isWs && v.valid item && post.all isWs && tail.valid item
/-- The members follow the grammar. -/
def Members.valid (item : StrItem → Bool) : Members → Bool
  | .last pre key mid sep v post =>
    pre.all isWs && key.all item && mid.all isWs && sep.all isWs && v.valid item &&
      post.all isWs
  | .cons pre key mid sep v post tail =>
    pre.all isWs && key.all item && mid.all isWs && sep.all isWs && v.valid item &&
      post.all isWs && tail.valid item
end

/-- The document follows the grammar of JSON at the level of bytes. -/
def Doc.wellFormed (d : Doc) : Bool := d.valid StrItem.wellFormed

/-- The document follows the grammar of JSON, and its strings are sequences of Unicode
characters. -/
def Doc.strict (d : Doc) : Bool := d.valid StrItem.strict

mutual
/-- How deep arrays and objects are nested in a document. -/
def Doc.depth : Doc → Nat
  | .null => 0
  | .bool _ => 0
  | .number _ => 0
  | .string _ => 0
  | .emptyArray _ => 1
  | .array es => es.depth + 1
  | .emptyObject _ => 1
  | .object ms => ms.depth + 1
/-- The deepest nesting among the elements. -/
def Elems.depth : Elems → Nat
  | .last _ v _ => v.depth
  | .cons _ v _ tail => max v.depth tail.depth
/-- The deepest nesting among the values of the members. -/
def Members.depth : Members → Nat
  | .last _ _ _ _ v _ => v.depth
  | .cons _ _ _ _ v _ tail => max v.depth tail.depth
end

mutual
/-- The value of a document, with `str` giving the text of a string from its pieces: a
number is kept as its literal, arrays and objects keep the order of the text. -/
def Doc.valueWith (str : List StrItem → GoString) : Doc → JValue
  | .null => .null
  | .bool b => .bool b
  | .number n => .number n.render
  | .string items => .string (str items)
  | .emptyArray _ => .array []
  | .array es => .array (es.valuesWith str)
  | .emptyObject _ => .object []
  | .object ms => .object (ms.valuesWith str)
/-- The values of the elements of an array. -/
def Elems.valuesWith (str : List StrItem → GoString) : Elems → List JValue
  | .last _ v _ => [v.valueWith str]
  | .cons _ v _ tail => v.valueWith str :: tail.valuesWith str
/-- The keys and values of the members of an object. -/
def Members.valuesWith (str : List StrItem → GoString) : Members → List (GoString × JValue)
  | .last _ key _ _ v _ => [(str key, v.valueWith str)]
  | .cons _ key _ _ v _ tail => (str key, v.valueWith str) :: tail.valuesWith str
end

/-- The JSON value a document stands for. -/
def Doc.denote (d : Doc) : JValue := d.valueWith denoteItems

/-- The text the decoder makes of a string: `unquote` of the bytes between the quotes. -/
def readString (items : List StrItem) : GoString := unquote (renderItems items)

/-- The value the decoder makes of a document. -/
def Doc.read (d : Doc) : JValue := d.valueWith readString

/-- The document is an array. -/
def Doc.isArray : Doc → Bool
  | .emptyArray _ => true
  | .array _ => true
  | _ => false

/-- The body begins, after optional white space, with the text of a JSON array that is
nested no deeper than 10000 levels; anything may follow the array. -/
def Body.beginsWithArray (b : Body) : Prop :=
  ∃ (ws : GoString) (doc : Doc) (rest : GoString),
    b.data = ws ++ (doc.render ++ rest) ∧ ws.all isWs = true ∧ doc.wellFormed = true ∧
      doc.isArray = true ∧ doc.depth ≤ 10000

/-- The body begins, after optional white space, with the four bytes `null`. -/
def Body.beginsWithNull (b : Body) : Prop :=
  ∃ (ws rest : GoString), b.data = ws ++ (ascii "null" ++ rest) ∧ ws.all isWs = true

/-- The body begins with `null` and the stream does not fail right after it: bytes follow
the literal, or the stream ends without an error. -/
def Body.holdsNull (b : Body) : Prop :=
  ∃ (ws rest : GoString), b.data = ws ++ (ascii "null" ++ rest) ∧ ws.all isWs = true ∧
    (rest ≠ [] ∨ b.readErr = none)

/-- The body begins, after optional white space, with an empty array: `[`, optional white
space, `]`; anything may follow. -/
def Body.holdsEmptyArray (b : Body) : Prop :=
  ∃ (ws inner rest : GoString),
    b.data = ws ++ ((0x5B : Byte) :: (inner ++ (0x5D : Byte) :: rest)) ∧
      ws.all isWs = true ∧ inner.all isWs = true

/-- The body begins, after optional white space, with the text of a JSON array of the
objects `objs` (each the list of its keys and values, in order), nested no deeper than
10000 levels; anything may follow the array. -/
def Body.holdsArray (b : Body) (objs : List (List (GoString × JValue))) : Prop :=
  ∃ (ws : GoString) (doc : Doc) (rest : GoString),
    b.data = ws ++ (doc.render ++ rest) ∧ ws.all isWs = true ∧ doc.strict = true ∧
      doc.depth ≤ 10000 ∧ doc.denote = .array (objs.map JValue.object)

/-- The byte after a number does not continue it: it is not a digit, `.`, `e` or `E`. -/
def stopsNumber (rest : GoString) : Bool :=
  match rest with
  | [] => true
  | c :: _ => !(isDecDigit c || c.val = 0x2E || c.val = 0x65 || c.val = 0x45)

/-- The document is a number. -/
def Doc.isNumber : Doc → Bool
  | .number _ => true
  | _ => false

/-- Bytes put in front of the raw bytes of a scan. -/
def Scan.prepend (bs : GoString) (r : Scan GoString) : Scan GoString :=
  bs.foldr Scan.cons r

/-! ## Sample bodies -/

/-- The pieces of a string that is written without escapes. -/
def plain (s : String) : List StrItem := (ascii s).map StrItem.byte

/-- The document of `subjectsBody`: an array of one object with two members, written
without white space. -/
def subjectsDoc : Doc :=
  .array (.last [] (.object
    (.cons [] (plain "symbol") [] [] (.string (plain "CS")) []
      (.last [] (plain "name") [] [] (.string (plain "Computer Science")) []))) [])

/-- The body ` [ {"symbol" : "C\u0053", "name":"Caf\u00e9\n"} ] tail`: an array of
one object, written with white space and escapes and followed by other bytes. -/
def escapedBody : GoString :=
  ascii " [ \x7b\"symbol\" : \"C\\u0053\", \"name\":\"Caf\\u00e9\\n\"\x7d ] tail"

/-- The document with which `escapedBody` begins. -/
def escapedDoc : Doc :=
  .array (.last (ascii " ") (.object
    (.cons [] (plain "symbol") (ascii " ") (ascii " ")
      (.string [.byte 0x43, .unit ⟨0x30, 0x30, 0x35, 0x33⟩]) []
      (.last (ascii " ") (plain "name") [] []
        (.string (plain "Caf" ++ [.unit ⟨0x30, 0x30, 0x65, 0x39⟩, .esc 0x6E])) []))) (ascii " "))

/-- The document of `fractionalBody`: an array of one object whose member `id` is the
number `1.5`. -/
def fractionalDoc : Doc :=
  .array (.last [] (.object
    (.last [] (plain "id") [] []
      (.number { negative := false, int := ascii "1", frac := ascii ".5", exp := [] }) [])) [])

/-- The body `[{"ID":7}]`: the key differs from the field name `id` in letter case. -/
def upperKeyBody : GoString := ascii "[\x7b\"ID\":7\x7d]"

/-- The document of `upperKeyBody`. -/
def upperKeyDoc : Doc :=
  .array (.last [] (.object
    (.last [] (plain "ID") [] []
      (.number { negative := false, int := ascii "7", frac := [], exp := [] }) [])) [])

/-- The body `[{"id":1,"id":2}]`: the key `id` occurs twice. -/
def repeatedKeyBody : GoString := ascii "[\x7b\"id\":1,\"id\":2\x7d]"

/-- The document of `repeatedKeyBody`. -/
def repeatedKeyDoc : Doc :=
  .array (.last [] (.object
    (.cons [] (plain "id") [] []
      (.number { negative := false, int := ascii "1", frac := [], exp := [] }) []
      (.last [] (plain "id") [] []
        (.number { negative := false, int := ascii "2", frac := [], exp := [] }) []))) [])

/-- The body `[{"id":1}` without the closing `]`: a truncated array. -/
def truncatedBody : GoString := ascii "[\x7b\"id\":1\x7d"

/-- The body `[1,]`: a comma without an element behind it. -/
def malformedBody : GoString := ascii "[1,]"

/-! # Theorems -/

/-! ## Escaping round trip -/

theorem unescaped_byte (c : Byte) (h : shouldEscape c = false) : c.val ≠ 37 ∧ c.val ≠ 43 := by
  revert c; decide

theorem hex_roundtrip (c : Byte) :
    ishex (upperhex (c.val / 16)) = true ∧ ishex (upperhex (c.val % 16)) = true ∧
      (Fin.ofNat (unhex (upperhex (c.val / 16)) * 16 + unhex (upperhex (c.val % 16))) : Byte) = c := by
  revert c; decide

theorem QueryUnescape_plus (cs : GoString) :
    QueryUnescape ((43 : Byte) :: cs) = (QueryUnescape cs).map (fun r => (32 : Byte) :: r) := by
  rcases cs with _ | ⟨h, _ | ⟨l, rest⟩⟩ <;> rfl

theorem QueryUnescape_percent (h l : Byte) (rest : GoString) :
    QueryUnescape ((37 : Byte) :: h :: l :: rest) =
      if ishex h && ishex l then
        (QueryUnescape rest).map (fun r => Fin.ofNat (unhex h * 16 + unhex l) :: r)
      else none := rfl

theorem QueryUnescape_plain (c : Byte) (cs : GoString) (h1 : c.val ≠ 37) (h2 : c.val ≠ 43) :
    QueryUnescape (c :: cs) = (QueryUnescape cs).map (fun r => c :: r) := by
  rcases cs with _ | ⟨h, _ | ⟨l, rest⟩⟩ <;> simp [QueryUnescape, h1, h2]

theorem QueryUnescape_QueryEscape (s : GoString) : QueryUnescape (QueryEscape s) = some s := by
  induction s with
  | nil => rfl
  | cons c cs ih =>
    unfold QueryEscape
    by_cases hs : shouldEscape c = true
    · by_cases h32 : c.val = 32
      · have hc : c = (32 : Byte) := Fin.ext h32
        rw [if_pos hs, if_pos h32, QueryUnescape_plus, ih, hc]; rfl
      · obtain ⟨h1, h2, h3⟩ := hex_roundtrip c
        rw [if_pos hs, if_neg h32, QueryUnescape_percent, h1, h2, ih, h3]; rfl
    · have hs' : shouldEscape c = false := by simpa using hs
      obtain ⟨h1, h2⟩ := unescaped_byte c hs'
      rw [if_neg hs, QueryUnescape_plain c _ h1 h2, ih]; rfl

theorem escaped_byte (c : Byte) (h : shouldEscape c = false) :
    c.val ≠ 38 ∧ c.val ≠ 61 ∧ c.val ≠ 59 := by
  revert c; decide

theorem upperhex_ne (n : Nat) (h : n < 16) :
    (upperhex n).val ≠ 38 ∧ (upperhex n).val ≠ 61 ∧ (upperhex n).val ≠ 59 := by
  revert n; decide

/-- No `&`, `=` or `;` survives escaping. -/
theorem QueryEscape_clean (s : GoString) (b : Byte) (hb : b ∈ QueryEscape s) :
    b.val ≠ 38 ∧ b.val ≠ 61 ∧ b.val ≠ 59 := by
  induction s with
  | nil => simp [QueryEscape] at hb
  | cons c cs ih =>
    unfold QueryEscape at hb
    by_cases hs : shouldEscape c = true
    · by_cases h32 : c.val = 32
      · rw [if_pos hs, if_pos h32] at hb
        rcases List.mem_cons.1 hb with h | h
        · subst h; decide
        · exact ih h
      · rw [if_pos hs, if_neg h32] at hb
        rcases List.mem_cons.1 hb with h | h
        · subst h; decide
        rcases List.mem_cons.1 h with h | h
        · subst h; exact upperhex_ne _ (by omega)
        rcases List.mem_cons.1 h with h | h
        · subst h; exact upperhex_ne _ (by omega)
        · exact ih h
    · have hs' : shouldEscape c = false := by simpa using hs
      rw [if_neg hs] at hb
      rcases List.mem_cons.1 hb with h | h
      · subst h; exact escaped_byte _ hs'
      · exact ih h

/-! ## `strings.Cut` -/

theorem cut_append (sep : Byte) (a b : GoString) (h : sep ∉ a) :
    cut sep (a ++ sep :: b) = (a, b, true) := by
  induction a with
  | nil => simp [cut]
  | cons c cs ih =>
    have hc : c ≠ sep := fun e => h (by simp [e])
    have hcs : sep ∉ cs := fun e => h (by simp [e])
    simp [cut, hc, ih hcs]

theorem cut_none (sep : Byte) (a : GoString) (h : sep ∉ a) : cut sep a = (a, [], false) := by
  induction a with
  | nil => simp [cut]
  | cons c cs ih =>
    have hc : c ≠ sep := fun e => h (by simp [e])
    have hcs : sep ∉ cs := fun e => h (by simp [e])
    simp [cut, hc, ih hcs]

/-! ## `Values` -/

theorem vals_Add (m : Values) (k v n : GoString) :
    (m.Add k v).vals n = if k = n then m.vals n ++ [v] else m.vals n := by
  induction m with
  | nil =>
    by_cases h : k = n <;> simp [Values.Add, Values.vals, h]
  | cons p rest ih =>
    obtain ⟨k0, vs⟩ := p
    by_cases h0 : k0 = k
    · subst h0
      by_cases h : k0 = n <;> simp [Values.Add, Values.vals, h]
    · by_cases h : k = n
      · subst h
        simp [Values.Add, Values.vals, h0, ih]
      · by_cases h1 : k0 = n
        · subst h1
          simp [Values.Add, Values.vals, h0, h]
        · simp [Values.Add, Values.vals, h0, h, h1, ih]

theorem keys_Add (m : Values) (k v : GoString) :
    (m.Add k v).keys = if k ∈ m.keys then m.keys else m.keys ++ [k] := by
  induction m with
  | nil => simp [Values.Add, Values.keys]
  | cons p rest ih =>
    obtain ⟨k0, vs⟩ := p
    by_cases h0 : k0 = k
    · subst h0; simp [Values.Add, Values.keys]
    · have h0' : ¬ k = k0 := fun e => h0 e.symm
      simp only [Values.keys] at ih
      by_cases hm : k ∈ List.map Prod.fst rest
      · simp [Values.Add, Values.keys, h0, h0', hm, ih]
      · simp [Values.Add, Values.keys, h0, h0', hm, ih]

theorem nodup_keys_Add (m : Values) (k v : GoString) (h : m.keys.Nodup) :
    (m.Add k v).keys.Nodup := by
  rw [keys_Add]
  by_cases hm : k ∈ m.keys
  · simpa [hm] using h
  · simp only [hm, if_false]
    exact List.Nodup.append h (List.nodup_singleton k) (by simpa using hm)

theorem vals_of_not_mem (m : Values) (n : GoString) (h : n ∉ m.keys) : m.vals n = [] := by
  induction m with
  | nil => rfl
  | cons p rest ih =>
    obtain ⟨k0, vs⟩ := p
    simp only [Values.keys, List.map_cons, List.mem_cons, not_or] at h
    have h0 : ¬ k0 = n := fun e => h.1 e.symm
    simp only [Values.vals, h0, if_false]
    exact ih h.2

/-! ## Sorting the keys -/

theorem insertKey_perm (k : GoString) (ks : List GoString) : (insertKey k ks).Perm (k :: ks) := by
  induction ks with
  | nil => simp [insertKey]
  | cons x xs ih =>
    unfold insertKey
    split
    · exact List.Perm.refl _
    · exact (List.Perm.cons x ih).trans (List.Perm.swap k x xs)

theorem sortKeys_perm (ks : List GoString) : (sortKeys ks).Perm ks := by
  induction ks with
  | nil => simp [sortKeys]
  | cons k ks ih =>
    unfold sortKeys
    exact (insertKey_perm k _).trans (List.Perm.cons k ih)

/-! ## `Encode` writes the parameters joined by `&` -/

theorem pairText_length_pos (p : GoString × GoString) : 0 < (pairText p).length := by
  simp [pairText, encodePair]

theorem pairText_ne_nil (p : GoString × GoString) : pairText p ≠ [] := by
  simp [pairText, encodePair]

/-- Appending parameters to a buffer, as the loops of `Encode` do. -/
theorem foldl_pairText (ps : List (GoString × GoString)) (buf : GoString) :
    ps.foldl (fun buf p => (if buf.length > 0 then buf ++ [(38 : Byte)] else buf) ++ pairText p) buf =
      if ps = [] then buf else if buf = [] then queryText ps else buf ++ (38 : Byte) :: queryText ps := by
  induction ps generalizing buf with
  | nil => simp
  | cons p rest ih =>
    rw [List.foldl_cons, ih]
    have hne : (if buf.length > 0 then buf ++ [(38 : Byte)] else buf) ++ pairText p ≠ [] := by
      simp [pairText_ne_nil]
    rcases rest with _ | ⟨q, rest⟩
    · by_cases hb : buf = []
      · subst hb; simp [queryText]
      · have : 0 < buf.length := List.length_pos.2 hb
        simp [queryText, hb, this]
    · by_cases hb : buf = []
      · subst hb; simp [queryText, pairText_ne_nil]
      · have : 0 < buf.length := List.length_pos.2 hb
        simp [queryText, hb, this, pairText_ne_nil]

theorem encodeVals_eq (buf k : GoString) (vs : List GoString) :
    encodeVals buf (QueryEscape k) vs =
      (vs.map (fun x => (k, x))).foldl
        (fun buf p => (if buf.length > 0 then buf ++ [(38 : Byte)] else buf) ++ pairText p) buf := by
  induction vs generalizing buf with
  | nil => rfl
  | cons v vs ih => simp [encodeVals, ih, pairText]

theorem encodeKeys_eq (v : Values) (buf : GoString) (ks : List GoString) :
    encodeKeys v buf ks =
      (ks.flatMap (fun k => (v.vals k).map (fun x => (k, x)))).foldl
        (fun buf p => (if buf.length > 0 then buf ++ [(38 : Byte)] else buf) ++ pairText p) buf := by
  induction ks generalizing buf with
  | nil => rfl
  | cons k ks ih =>
    simp only [encodeKeys, ih, encodeVals_eq, List.flatMap_cons, List.foldl_append]

theorem Encode_eq (v : Values) : v.Encode = queryText v.pairs := by
  unfold Values.Encode
  by_cases h : List.length v = 0
  · have hv : v = [] := List.length_eq_zero.1 h
    subst hv
    simp [Values.pairs, Values.keys, sortKeys, queryText]
  · rw [if_neg h, encodeKeys_eq, foldl_pairText]
    by_cases hp : v.pairs = []
    · simp only [Values.pairs] at hp
      simp [Values.pairs, hp, queryText]
    · simp only [Values.pairs] at hp
      simp [Values.pairs, hp]

/-! ## `ParseQuery` reads back what `Encode` wrote -/

theorem not_mem_QueryEscape (s : GoString) :
    (38 : Byte) ∉ QueryEscape s ∧ (61 : Byte) ∉ QueryEscape s ∧ (59 : Byte) ∉ QueryEscape s := by
  refine ⟨fun h => ?_, fun h => ?_, fun h => ?_⟩
  · exact (QueryEscape_clean s _ h).1 rfl
  · exact (QueryEscape_clean s _ h).2.1 rfl
  · exact (QueryEscape_clean s _ h).2.2 rfl

theorem amp_not_mem_pairText (p : GoString × GoString) : (38 : Byte) ∉ pairText p := by
  have h1 := (not_mem_QueryEscape p.1).1
  have h2 := (not_mem_QueryEscape p.2).1
  simp only [pairText, encodePair, List.mem_append, List.mem_cons, not_or]
  exact ⟨h1, by decide, h2⟩

theorem semicolon_not_mem_pairText (p : GoString × GoString) : (59 : Byte) ∉ pairText p := by
  have h1 := (not_mem_QueryEscape p.1).2.2
  have h2 := (not_mem_QueryEscape p.2).2.2
  simp only [pairText, encodePair, List.mem_append, List.mem_cons, not_or]
  exact ⟨h1, by decide, h2⟩

theorem cut_pairText (p : GoString × GoString) :
    cut 61 (pairText p) = (QueryEscape p.1, QueryEscape p.2, true) :=
  cut_append 61 _ _ (not_mem_QueryEscape p.1).2.1

/-- One turn of the loop of `parseQuery` on a segment that `Encode` wrote. -/
theorem parseQuery_step (fuel : Nat) (m : Values) (err : Bool) (query rest : GoString) (b : Bool)
    (p : GoString × GoString) (hq : query ≠ []) (hc : cut 38 query = (pairText p, rest, b)) :
    parseQuery (fuel + 1) m err query = parseQuery fuel (m.Add p.1 p.2) err rest := by
  have h59 : (pairText p).contains (59 : Byte) = false := by
    simpa using semicolon_not_mem_pairText p
  simp only [parseQuery, if_neg hq, hc, h59, if_neg (pairText_ne_nil p), cut_pairText,
    QueryUnescape_QueryEscape, Bool.false_eq_true, if_false]

theorem parseQuery_nil (fuel : Nat) (m : Values) (err : Bool) :
    parseQuery fuel m err [] = (m, err) := by
  cases fuel <;> simp [parseQuery]

theorem parseQuery_queryText (ps : List (GoString × GoString)) (fuel : Nat) (m : Values)
    (err : Bool) (h : ps.length ≤ fuel) :
    parseQuery fuel m err (queryText ps) = (m.addAll ps, err) := by
  induction ps generalizing fuel m with
  | nil => simpa [queryText, Values.addAll] using parseQuery_nil fuel m err
  | cons p rest ih =>
    obtain ⟨f, rfl⟩ : ∃ f, fuel = f + 1 := ⟨fuel - 1, by simp at h; omega⟩
    have hlen : rest.length ≤ f := by simpa using h
    rcases rest with _ | ⟨q, rest⟩
    · rw [parseQuery_step f m err (queryText [p]) [] false p (by simp [queryText, pairText_ne_nil])
        (by simpa [queryText] using cut_none 38 _ (amp_not_mem_pairText p))]
      simpa [Values.addAll] using parseQuery_nil f _ err
    · rw [parseQuery_step f m err (queryText (p :: q :: rest)) (queryText (q :: rest)) true p
        (by simp [queryText, pairText_ne_nil])
        (by simpa [queryText] using cut_append 38 _ _ (amp_not_mem_pairText p))]
      rw [ih f _ hlen]
      simp [Values.addAll]

theorem length_le_queryText (ps : List (GoString × GoString)) : ps.length ≤ (queryText ps).length := by
  induction ps with
  | nil => simp
  | cons p rest ih =>
    rcases rest with _ | ⟨q, rest⟩
    · have := pairText_length_pos p
      simp [queryText]; omega
    · have := pairText_length_pos p
      simp only [queryText, List.length_append, List.length_cons] at ih ⊢
      omega

/-- Parsing the text that `Encode` wrote gives back its parameters, in order, without error. -/
theorem ParseQuery_Encode (v : Values) : ParseQuery v.Encode = (Values.empty.addAll v.pairs, false) := by
  rw [Encode_eq]
  unfold ParseQuery
  exact parseQuery_queryText _ _ _ _ (by have := length_le_queryText v.pairs; omega)

theorem vals_addAll (ps : List (GoString × GoString)) (m : Values) (n : GoString) :
    (m.addAll ps).vals n = m.vals n ++ (ps.filter (fun p => p.1 = n)).map Prod.snd := by
  induction ps generalizing m with
  | nil => simp [Values.addAll]
  | cons p rest ih =>
    have : m.addAll (p :: rest) = (m.Add p.1 p.2).addAll rest := rfl
    rw [this, ih, vals_Add]
    by_cases h : p.1 = n <;> simp [h]

theorem filter_flatMap_key (v : Values) (n : GoString) (ks : List GoString) (hk : ks.Nodup) :
    ((ks.flatMap (fun k => (v.vals k).map (fun x => (k, x)))).filter (fun p => p.1 = n)).map Prod.snd =
      if n ∈ ks then v.vals n else [] := by
  induction ks with
  | nil => simp
  | cons k ks ih =>
    have hk' := List.nodup_cons.1 hk
    rw [List.flatMap_cons, List.filter_append, List.map_append, ih hk'.2]
    by_cases h : k = n
    · subst h
      have : List.filter (fun p => decide (p.1 = k)) (List.map (fun x => (k, x)) (v.vals k))
          = List.map (fun x => (k, x)) (v.vals k) := by
        apply List.filter_eq_self.2
        intro a ha
        obtain ⟨x, _, rfl⟩ := List.mem_map.1 ha
        simp
      simp [this, hk'.1, Function.comp_def]
    · have : List.filter (fun p => decide (p.1 = n)) (List.map (fun x => (k, x)) (v.vals k)) = [] := by
        apply List.filter_eq_nil_iff.2
        intro a ha
        obtain ⟨x, _, rfl⟩ := List.mem_map.1 ha
        simpa using h
      have hn : ¬ n = k := fun e => h e.symm
      simp [this, hn]

/-- The query of a URL whose `RawQuery` was written by `Encode` holds, under every
name, the values the map held. -/
theorem vals_ParseQuery_Encode (v : Values) (hv : v.keys.Nodup) (n : GoString) :
    (ParseQuery v.Encode).1.vals n = v.vals n := by
  rw [ParseQuery_Encode, vals_addAll]
  have hperm := sortKeys_perm v.keys
  have hnd : (sortKeys v.keys).Nodup := hperm.nodup_iff.2 hv
  simp only [Values.pairs]
  rw [filter_flatMap_key v n _ hnd]
  by_cases hm : n ∈ v.keys
  · simp [Values.empty, Values.vals, hperm.mem_iff.2 hm]
  · have : n ∉ sortKeys v.keys := fun h => hm (hperm.mem_iff.1 h)
    simp [Values.empty, Values.vals, this, vals_of_not_mem v n hm]

/-! ## The request each method builds -/

theorem TermsRequest_eq (c : Client) :
    c.TermsRequest = .ok (apiRequest (ascii "terms") (Values.empty.Add (ascii "key") c.key)) := rfl

theorem SchoolsRequest_eq (c : Client) :
    c.SchoolsRequest = .ok (apiRequest (ascii "schools") (Values.empty.Add (ascii "key") c.key)) := rfl

theorem SubjectsRequest_eq (c : Client) (config : SubjectsConfig) :
    c.SubjectsRequest config = .ok (apiRequest (ascii "subjects")
      (addOptional config SubjectsConfig.params (Values.empty.Add (ascii "key") c.key))) := rfl

theorem CoursesRequest_eq (c : Client) (config : CoursesConfig) :
    c.CoursesRequest config = .ok (apiRequest (ascii "courses")
      (addOptional config CoursesConfig.params (Values.empty.Add (ascii "key") c.key))) := rfl

theorem InstructorsRequest_eq (c : Client) (subject : GoString) :
    c.InstructorsRequest subject = .ok (apiRequest (ascii "instructors")
      ((Values.empty.Add (ascii "key") c.key).Add (ascii "subject") subject)) := rfl

theorem BuildingsRequest_eq (c : Client) (config : BuildingsConfig) :
    c.BuildingsRequest config = .ok (apiRequest (ascii "buildings")
      (addOptional config BuildingsConfig.params (Values.empty.Add (ascii "key") c.key))) := rfl

theorem RoomsRequest_eq (c : Client) (config : RoomsConfig) :
    c.RoomsRequest config = .ok (apiRequest (ascii "rooms")
      (addOptional config RoomsConfig.params (Values.empty.Add (ascii "key") c.key))) := rfl

/-! ## The parameters of a built request -/

theorem nodup_keys_addOptional {C : Type} (config : C) (table : List (GoString × (C → GoString)))
    (q : Values) (h : q.keys.Nodup) : (addOptional config table q).keys.Nodup := by
  induction table generalizing q with
  | nil => exact h
  | cons p rest ih =>
    simp only [addOptional, List.foldl_cons]
    split
    · exact ih _ (nodup_keys_Add q _ _ h)
    · exact ih _ h

theorem vals_addOptional {C : Type} (config : C) (table : List (GoString × (C → GoString)))
    (q : Values) (n : GoString) :
    (addOptional config table q).vals n =
      q.vals n ++ ((table.filter (fun p => p.1 = n ∧ p.2 config ≠ [])).map (fun p => p.2 config)) := by
  induction table generalizing q with
  | nil => simp [addOptional]
  | cons p rest ih =>
    have hstep : addOptional config (p :: rest) q =
        addOptional config rest (if (p.2 config).length > 0 then q.Add p.1 (p.2 config) else q) := rfl
    rw [hstep, ih]
    by_cases hv : p.2 config = []
    · simp [hv]
    · have hl : (p.2 config).length > 0 := List.length_pos.2 hv
      by_cases hn : p.1 = n
      · simp [hl, hv, hn, vals_Add]
      · simp [hl, hv, hn, vals_Add]

theorem nodup_keys_key (k : GoString) : (Values.empty.Add (ascii "key") k).keys.Nodup := by
  simp [Values.empty, Values.Add, Values.keys]

theorem vals_key (k n : GoString) :
    (Values.empty.Add (ascii "key") k).vals n = if ascii "key" = n then [k] else [] := by
  simp [Values.empty, Values.Add, Values.vals]

theorem param_apiRequest (resource : GoString) (q : Values) (h : q.keys.Nodup) (n : GoString) :
    (apiRequest resource q).param n = q.vals n :=
  vals_ParseQuery_Encode q h n

/-- The parameters of a request with the key and the optional fields of a table. -/
theorem param_optional {C : Type} (resource k : GoString) (config : C)
    (table : List (GoString × (C → GoString))) (n : GoString) :
    (apiRequest resource (addOptional config table (Values.empty.Add (ascii "key") k))).param n =
      (if ascii "key" = n then [k] else []) ++
        ((table.filter (fun p => p.1 = n ∧ p.2 config ≠ [])).map (fun p => p.2 config)) := by
  rw [param_apiRequest _ _ (nodup_keys_addOptional _ _ _ (nodup_keys_key k)), vals_addOptional, vals_key]

/-- In a table whose names differ from each other and from `key`, an empty field is not
sent and a non-empty field is sent once, as it is. -/
theorem param_of_mem {C : Type} (resource k : GoString) (config : C)
    (table : List (GoString × (C → GoString)))
    (hnd : (table.map Prod.fst).Nodup) (hkey : ascii "key" ∉ table.map Prod.fst)
    (p : GoString × (C → GoString)) (hp : p ∈ table) :
    (apiRequest resource (addOptional config table (Values.empty.Add (ascii "key") k))).param p.1 =
      if p.2 config = [] then [] else [p.2 config] := by
  rw [param_optional]
  have hk : ¬ ascii "key" = p.1 := fun e => hkey (e ▸ List.mem_map_of_mem Prod.fst hp)
  rw [if_neg hk, List.nil_append]
  have hfilter : ∀ (t : List (GoString × (C → GoString))), (t.map Prod.fst).Nodup → p ∈ t →
      t.filter (fun q => q.1 = p.1 ∧ q.2 config ≠ []) = if p.2 config = [] then [] else [p] := by
    intro t
    induction t with
    | nil => intro _ h; simp at h
    | cons q rest ih =>
      intro hnd hmem
      have hnd' : q.1 ∉ rest.map Prod.fst ∧ (rest.map Prod.fst).Nodup :=
        List.nodup_cons.1 (by rw [List.map_cons] at hnd; exact hnd)
      rcases List.mem_cons.1 hmem with h | h
      · subst h
        have hrest : rest.filter (fun q => q.1 = p.1 ∧ q.2 config ≠ []) = [] := by
          apply List.filter_eq_nil_iff.2
          intro a ha hcond
          have ha1 : a.1 = p.1 := by simpa using (of_decide_eq_true hcond).1
          exact hnd'.1 (ha1 ▸ List.mem_map_of_mem Prod.fst ha)
        rw [List.filter_cons, hrest]
        by_cases hv : p.2 config = []
        · simp [hv]
        · simp [hv]
      · have hq : ¬ q.1 = p.1 := fun e => hnd'.1 (e ▸ List.mem_map_of_mem Prod.fst h)
        rw [List.filter_cons]
        simp only [hq, false_and, decide_False, Bool.false_eq_true, if_false]
        exact ih hnd'.2 h
  rw [hfilter table hnd hp]
  by_cases hv : p.2 config = [] <;> simp [hv]

/-- A name that is neither `key` nor in the table is not a parameter of the request. -/
theorem param_of_not_mem {C : Type} (resource k : GoString) (config : C)
    (table : List (GoString × (C → GoString))) (n : GoString)
    (hkey : ascii "key" ≠ n) (hn : n ∉ table.map Prod.fst) :
    (apiRequest resource (addOptional config table (Values.empty.Add (ascii "key") k))).param n = [] := by
  rw [param_optional, if_neg hkey, List.nil_append]
  have : table.filter (fun p => p.1 = n ∧ p.2 config ≠ []) = [] := by
    apply List.filter_eq_nil_iff.2
    intro a ha hcond
    have ha1 : a.1 = n := by simpa using (of_decide_eq_true hcond).1
    exact hn (ha1 ▸ List.mem_map_of_mem Prod.fst ha)
  rw [this]; rfl

theorem param_key {C : Type} (resource k : GoString) (config : C)
    (table : List (GoString × (C → GoString))) (hkey : ascii "key" ∉ table.map Prod.fst) :
    (apiRequest resource (addOptional config table (Values.empty.Add (ascii "key") k))).param
      (ascii "key") = [k] := by
  rw [param_optional, if_pos rfl]
  have : table.filter (fun p => p.1 = ascii "key" ∧ p.2 config ≠ []) = [] := by
    apply List.filter_eq_nil_iff.2
    intro a ha hcond
    have ha1 : a.1 = ascii "key" := by simpa using (of_decide_eq_true hcond).1
    exact hkey (ha1 ▸ List.mem_map_of_mem Prod.fst ha)
  rw [this]; rfl

theorem tables_ok :
    ((SubjectsConfig.params.map Prod.fst).Nodup ∧ ascii "key" ∉ SubjectsConfig.params.map Prod.fst) ∧
    ((CoursesConfig.params.map Prod.fst).Nodup ∧ ascii "key" ∉ CoursesConfig.params.map Prod.fst) ∧
    ((BuildingsConfig.params.map Prod.fst).Nodup ∧ ascii "key" ∉ BuildingsConfig.params.map Prod.fst) ∧
    ((RoomsConfig.params.map Prod.fst).Nodup ∧ ascii "key" ∉ RoomsConfig.params.map Prod.fst) := by
  decide

/-! ## Claims about the query of the request -/

theorem query_key_only (resource k : GoString) :
    (apiRequest resource (Values.empty.Add (ascii "key") k)).URL.Query.keys = [ascii "key"] ∧
      (apiRequest resource (Values.empty.Add (ascii "key") k)).param (ascii "key") = [k] := by
  have h : (apiRequest resource (Values.empty.Add (ascii "key") k)).URL.Query =
      Values.empty.Add (ascii "key") k := by
    simp only [URL.Query, apiRequest]
    rw [ParseQuery_Encode]
    simp [Values.pairs, Values.empty, Values.Add, Values.keys, sortKeys, insertKey, Values.vals,
      Values.addAll]
  unfold Request.param
  rw [h]
  simp [Values.empty, Values.Add, Values.keys, Values.vals]

/-- C1. For Subjects, Courses, Buildings and Rooms, every client and every configuration:
the request is built, and a configuration field that is the empty string has no parameter
under its name in the query of the request. Rooms with the all-empty configuration, Terms
and Schools build a query whose only parameter name is `key`. -/
theorem empty_field_omitted (c : Client) :
    (∀ config : SubjectsConfig, ∃ req, c.SubjectsRequest config = .ok req ∧
      ∀ p ∈ SubjectsConfig.params, p.2 config = [] → req.param p.1 = []) ∧
    (∀ config : CoursesConfig, ∃ req, c.CoursesRequest config = .ok req ∧
      ∀ p ∈ CoursesConfig.params, p.2 config = [] → req.param p.1 = []) ∧
    (∀ config : BuildingsConfig, ∃ req, c.BuildingsRequest config = .ok req ∧
      ∀ p ∈ BuildingsConfig.params, p.2 config = [] → req.param p.1 = []) ∧
    (∀ config : RoomsConfig, ∃ req, c.RoomsRequest config = .ok req ∧
      ∀ p ∈ RoomsConfig.params, p.2 config = [] → req.param p.1 = []) ∧
    (∃ req, c.RoomsRequest { ID := [], Building := [] } = .ok req ∧
      req.URL.Query.keys = [ascii "key"] ∧ req.param (ascii "key") = [c.key]) ∧
    (∃ req, c.TermsRequest = .ok req ∧
      req.URL.Query.keys = [ascii "key"] ∧ req.param (ascii "key") = [c.key]) ∧
    (∃ req, c.SchoolsRequest = .ok req ∧
      req.URL.Query.keys = [ascii "key"] ∧ req.param (ascii "key") = [c.key]) := by
  obtain ⟨hs, hc, hb, hr⟩ := tables_ok
  refine ⟨fun config => ⟨_, SubjectsRequest_eq c config, fun p hp he => ?_⟩,
    fun config => ⟨_, CoursesRequest_eq c config, fun p hp he => ?_⟩,
    fun config => ⟨_, BuildingsRequest_eq c config, fun p hp he => ?_⟩,
    fun config => ⟨_, RoomsRequest_eq c config, fun p hp he => ?_⟩,
    ⟨_, RoomsRequest_eq c _, query_key_only _ _⟩,
    ⟨_, TermsRequest_eq c, query_key_only _ _⟩,
    ⟨_, SchoolsRequest_eq c, query_key_only _ _⟩⟩
  · rw [param_of_mem _ _ _ _ hs.1 hs.2 p hp, if_pos he]
  · rw [param_of_mem _ _ _ _ hc.1 hc.2 p hp, if_pos he]
  · rw [param_of_mem _ _ _ _ hb.1 hb.2 p hp, if_pos he]
  · rw [param_of_mem _ _ _ _ hr.1 hr.2 p hp, if_pos he]

/-- Witness of C1: Subjects with term `4720` and no school sends no `school` parameter. -/
theorem empty_field_omitted_witness :
    ∃ req, (NewClient (respondWith 200 []) (ascii "k")).SubjectsRequest
        { Term := ascii "4720", School := [] } = .ok req ∧ req.param (ascii "school") = [] := by
  obtain ⟨req, h, hp⟩ :=
    (empty_field_omitted (NewClient (respondWith 200 []) (ascii "k"))).1
      { Term := ascii "4720", School := [] }
  exact ⟨req, h, hp (ascii "school", fun c => c.School) (by simp [SubjectsConfig.params]) rfl⟩

/-- C2. For Subjects, Courses, Buildings and Rooms, every client and every configuration:
a configuration field set to a non-empty string `v` has exactly one parameter under its
wire name in the query of the request, and the value of that parameter, read back with
the URL escaping undone, is `v`. The subject argument of Instructors is sent in the
same way. -/
theorem nonempty_field_sent (c : Client) :
    (∀ config : SubjectsConfig, ∃ req, c.SubjectsRequest config = .ok req ∧
      ∀ p ∈ SubjectsConfig.params, p.2 config ≠ [] → req.param p.1 = [p.2 config]) ∧
    (∀ config : CoursesConfig, ∃ req, c.CoursesRequest config = .ok req ∧
      ∀ p ∈ CoursesConfig.params, p.2 config ≠ [] → req.param p.1 = [p.2 config]) ∧
    (∀ config : BuildingsConfig, ∃ req, c.BuildingsRequest config = .ok req ∧
      ∀ p ∈ BuildingsConfig.params, p.2 config ≠ [] → req.param p.1 = [p.2 config]) ∧
    (∀ config : RoomsConfig, ∃ req, c.RoomsRequest config = .ok req ∧
      ∀ p ∈ RoomsConfig.params, p.2 config ≠ [] → req.param p.1 = [p.2 config]) ∧
    (∀ subject : GoString, ∃ req, c.InstructorsRequest subject = .ok req ∧
      req.param (ascii "subject") = [subject]) := by
  obtain ⟨hs, hc, hb, hr⟩ := tables_ok
  refine ⟨fun config => ⟨_, SubjectsRequest_eq c config, fun p hp he => ?_⟩,
    fun config => ⟨_, CoursesRequest_eq c config, fun p hp he => ?_⟩,
    fun config => ⟨_, BuildingsRequest_eq c config, fun p hp he => ?_⟩,
    fun config => ⟨_, RoomsRequest_eq c config, fun p hp he => ?_⟩,
    fun subject => ⟨_, InstructorsRequest_eq c subject, ?_⟩⟩
  · rw [param_of_mem _ _ _ _ hs.1 hs.2 p hp, if_neg he]
  · rw [param_of_mem _ _ _ _ hc.1 hc.2 p hp, if_neg he]
  · rw [param_of_mem _ _ _ _ hb.1 hb.2 p hp, if_neg he]
  · rw [param_of_mem _ _ _ _ hr.1 hr.2 p hp, if_neg he]
  · rw [param_apiRequest _ _ (nodup_keys_Add _ _ _ (nodup_keys_key c.key)), vals_Add, vals_key]
    simp only [if_true]
    have : ¬ ascii "key" = ascii "subject" := by decide
    simp [this]

/-- Witness of C2: Courses with `CatalogNum` set to `101-0 A&B` sends one parameter
`catalog_num` whose value is that text. -/
theorem nonempty_field_sent_witness :
    ∃ req, (NewClient (respondWith 200 []) (ascii "k")).CoursesRequest
        { ID := [], Term := ascii "4720", Subject := ascii "EECS", Instructor := [], Room := [],
          CatalogNum := ascii "101-0 A&B", MeetingDays := [], StartTime := [], EndTime := [],
          StartDate := [], EndDate := [], Seats := [], Component := [], Section := [],
          ClassNum := [], CourseID := [] } = .ok req ∧
      req.param (ascii "catalog_num") = [ascii "101-0 A&B"] := by
  obtain ⟨req, h, hp⟩ :=
    (nonempty_field_sent (NewClient (respondWith 200 []) (ascii "k"))).2.1
      { ID := [], Term := ascii "4720", Subject := ascii "EECS", Instructor := [], Room := [],
        CatalogNum := ascii "101-0 A&B", MeetingDays := [], StartTime := [], EndTime := [],
        StartDate := [], EndDate := [], Seats := [], Component := [], Section := [],
        ClassNum := [], CourseID := [] }
  exact ⟨req, h, hp (ascii "catalog_num", fun c => c.CatalogNum)
    (by simp [CoursesConfig.params]) (by decide)⟩

theorem Terms_eq (c : Client) :
    c.Terms = finish c Term.zero Term.fields
      (c.client (apiRequest (ascii "terms") (Values.empty.Add (ascii "key") c.key))) := rfl

theorem Schools_eq (c : Client) :
    c.Schools = finish c School.zero School.fields
      (c.client (apiRequest (ascii "schools") (Values.empty.Add (ascii "key") c.key))) := rfl

theorem Subjects_eq (c : Client) (config : SubjectsConfig) :
    c.Subjects config = finish c Subject.zero Subject.fields
      (c.client (apiRequest (ascii "subjects")
        (addOptional config SubjectsConfig.params (Values.empty.Add (ascii "key") c.key)))) := rfl

theorem Courses_eq (c : Client) (config : CoursesConfig) :
    c.Courses config = finish c Course.zero Course.fields
      (c.client (apiRequest (ascii "courses")
        (addOptional config CoursesConfig.params (Values.empty.Add (ascii "key") c.key)))) := rfl

theorem Instructors_eq (c : Client) (subject : GoString) :
    c.Instructors subject = finish c Instructor.zero Instructor.fields
      (c.client (apiRequest (ascii "instructors")
        ((Values.empty.Add (ascii "key") c.key).Add (ascii "subject") subject))) := rfl

theorem Buildings_eq (parseFloat : GoString → Option Float64) (c : Client)
    (config : BuildingsConfig) :
    c.Buildings parseFloat config = finish c Building.zero (Building.fields parseFloat)
      (c.client (apiRequest (ascii "buildings")
        (addOptional config BuildingsConfig.params (Values.empty.Add (ascii "key") c.key)))) := rfl

theorem Rooms_eq (c : Client) (config : RoomsConfig) :
    c.Rooms config = finish c Room.zero Room.fields
      (c.client (apiRequest (ascii "rooms")
        (addOptional config RoomsConfig.params (Values.empty.Add (ascii "key") c.key)))) := rfl

theorem finish_client {T : Type} (c : Client) (zero : T) (fields : List (Field T))
    (r : Except Error Response) : (finish c zero fields r).client = c := by
  unfold finish
  split
  · rfl
  · split <;> rfl

/-- C3. For every key `k`, the client made by `NewClient` with `k` puts exactly one
parameter named `key`, with value `k`, in the query of the request of each of the seven
methods, for every configuration; and after each method the client's key is still `k`. -/
theorem key_always_sent (http : HTTPClient) (k : GoString)
    (parseFloat : GoString → Option Float64) :
    (∃ req, (NewClient http k).TermsRequest = .ok req ∧ req.param (ascii "key") = [k]) ∧
    (∃ req, (NewClient http k).SchoolsRequest = .ok req ∧ req.param (ascii "key") = [k]) ∧
    (∀ config, ∃ req, (NewClient http k).SubjectsRequest config = .ok req ∧
      req.param (ascii "key") = [k]) ∧
    (∀ config, ∃ req, (NewClient http k).CoursesRequest config = .ok req ∧
      req.param (ascii "key") = [k]) ∧
    (∀ subject, ∃ req, (NewClient http k).InstructorsRequest subject = .ok req ∧
      req.param (ascii "key") = [k]) ∧
    (∀ config, ∃ req, (NewClient http k).BuildingsRequest config = .ok req ∧
      req.param (ascii "key") = [k]) ∧
    (∀ config, ∃ req, (NewClient http k).RoomsRequest config = .ok req ∧
      req.param (ascii "key") = [k]) ∧
    ((NewClient http k).Terms.client.key = k ∧ (NewClient http k).Schools.client.key = k ∧
      (∀ config, ((NewClient http k).Subjects config).client.key = k) ∧
      (∀ config, ((NewClient http k).Courses config).client.key = k) ∧
      (∀ subject, ((NewClient http k).Instructors subject).client.key = k) ∧
      (∀ config, ((NewClient http k).Buildings parseFloat config).client.key = k) ∧
      (∀ config, ((NewClient http k).Rooms config).client.key = k)) := by
  obtain ⟨hs, hc, hb, hr⟩ := tables_ok
  have hinstr : ∀ subject, (apiRequest (ascii "instructors")
      ((Values.empty.Add (ascii "key") (NewClient http k).key).Add (ascii "subject") subject)).param
        (ascii "key") = [k] := by
    intro subject
    rw [param_apiRequest _ _ (nodup_keys_Add _ _ _ (nodup_keys_key _)), vals_Add, vals_key]
    have : ¬ ascii "subject" = ascii "key" := by decide
    simp [this, NewClient]
  refine ⟨⟨_, TermsRequest_eq _, (query_key_only _ _).2⟩,
    ⟨_, SchoolsRequest_eq _, (query_key_only _ _).2⟩,
    fun config => ⟨_, SubjectsRequest_eq _ config, param_key _ _ _ _ hs.2⟩,
    fun config => ⟨_, CoursesRequest_eq _ config, param_key _ _ _ _ hc.2⟩,
    fun subject => ⟨_, InstructorsRequest_eq _ subject, hinstr subject⟩,
    fun config => ⟨_, BuildingsRequest_eq _ config, param_key _ _ _ _ hb.2⟩,
    fun config => ⟨_, RoomsRequest_eq _ config, param_key _ _ _ _ hr.2⟩,
    ?_, ?_, fun _ => ?_, fun _ => ?_, fun _ => ?_, fun _ => ?_, fun _ => ?_⟩
  · rw [Terms_eq, finish_client]; rfl
  · rw [Schools_eq, finish_client]; rfl
  · rw [Subjects_eq, finish_client]; rfl
  · rw [Courses_eq, finish_client]; rfl
  · rw [Instructors_eq, finish_client]; rfl
  · rw [Buildings_eq, finish_client]; rfl
  · rw [Rooms_eq, finish_client]; rfl

/-! ## Range suffixes and repeated ids -/

theorem suffixed_names_fresh :
    (∀ f ∈ coursesRangeFields, ∀ s ∈ rangeSuffixes,
      ascii "key" ≠ f ++ s ∧ f ++ s ∉ CoursesConfig.params.map Prod.fst) ∧
    (∀ f ∈ buildingsRangeFields, ∀ s ∈ rangeSuffixes,
      ascii "key" ≠ f ++ s ∧ f ++ s ∉ BuildingsConfig.params.map Prod.fst) := by
  decide

/-- C8. Courses and Buildings never send a parameter whose name carries a range-filter
suffix: for every client and configuration, the query of the request has no parameter
named `start_time`, `end_time`, `start_date`, `end_date` or `seats` (for Buildings `lat`
or `lon`) followed by `__lt`, `__gt`, `__lte` or `__gte`. -/
theorem range_suffix_never_sent (c : Client) :
    (∀ config : CoursesConfig, ∃ req, c.CoursesRequest config = .ok req ∧
      ∀ f ∈ coursesRangeFields, ∀ s ∈ rangeSuffixes, req.param (f ++ s) = []) ∧
    (∀ config : BuildingsConfig, ∃ req, c.BuildingsRequest config = .ok req ∧
      ∀ f ∈ buildingsRangeFields, ∀ s ∈ rangeSuffixes, req.param (f ++ s) = []) := by
  obtain ⟨hc, hb⟩ := suffixed_names_fresh
  exact ⟨fun config => ⟨_, CoursesRequest_eq c config, fun f hf s hs =>
      param_of_not_mem _ _ _ _ _ (hc f hf s hs).1 (hc f hf s hs).2⟩,
    fun config => ⟨_, BuildingsRequest_eq c config, fun f hf s hs =>
      param_of_not_mem _ _ _ _ _ (hb f hf s hs).1 (hb f hf s hs).2⟩⟩

/-- Witness of C8: a Courses configuration whose `Seats` is `10` sends `seats=10`
and no `seats__gte`. -/
theorem range_suffix_never_sent_witness :
    ∃ req, (NewClient (respondWith 200 []) (ascii "k")).CoursesRequest
        { ID := [], Term := ascii "4720", Subject := ascii "EECS", Instructor := [], Room := [],
          CatalogNum := [], MeetingDays := [], StartTime := [], EndTime := [],
          StartDate := [], EndDate := [], Seats := ascii "10", Component := [], Section := [],
          ClassNum := [], CourseID := [] } = .ok req ∧
      req.param (ascii "seats" ++ ascii "__gte") = [] := by
  obtain ⟨req, h, hp⟩ :=
    (range_suffix_never_sent (NewClient (respondWith 200 []) (ascii "k"))).1
      { ID := [], Term := ascii "4720", Subject := ascii "EECS", Instructor := [], Room := [],
        CatalogNum := [], MeetingDays := [], StartTime := [], EndTime := [],
        StartDate := [], EndDate := [], Seats := ascii "10", Component := [], Section := [],
        ClassNum := [], CourseID := [] }
  exact ⟨req, h, hp (ascii "seats") (by decide) (ascii "__gte") (by decide)⟩

theorem length_ite_le_one (v : GoString) : (if v = [] then [] else [v]).length ≤ 1 := by
  split <;> simp

/-- C9. Courses, Buildings and Rooms send at most one parameter named `id`: for every
client and configuration the query of the request holds no `id` when the field `ID` is
empty and exactly the one value `ID` otherwise. -/
theorem at_most_one_id (c : Client) :
    (∀ config : CoursesConfig, ∃ req, c.CoursesRequest config = .ok req ∧
      req.param (ascii "id") = (if config.ID = [] then [] else [config.ID]) ∧
      (req.param (ascii "id")).length ≤ 1) ∧
    (∀ config : BuildingsConfig, ∃ req, c.BuildingsRequest config = .ok req ∧
      req.param (ascii "id") = (if config.ID = [] then [] else [config.ID]) ∧
      (req.param (ascii "id")).length ≤ 1) ∧
    (∀ config : RoomsConfig, ∃ req, c.RoomsRequest config = .ok req ∧
      req.param (ascii "id") = (if config.ID = [] then [] else [config.ID]) ∧
      (req.param (ascii "id")).length ≤ 1) := by
  obtain ⟨_, hc, hb, hr⟩ := tables_ok
  refine ⟨fun config => ⟨_, CoursesRequest_eq c config, ?_⟩,
    fun config => ⟨_, BuildingsRequest_eq c config, ?_⟩,
    fun config => ⟨_, RoomsRequest_eq c config, ?_⟩⟩
  · have h := param_of_mem (ascii "courses") c.key config CoursesConfig.params hc.1 hc.2
      (ascii "id", fun c => c.ID) (by simp [CoursesConfig.params])
    exact ⟨h, h ▸ length_ite_le_one _⟩
  · have h := param_of_mem (ascii "buildings") c.key config BuildingsConfig.params hb.1 hb.2
      (ascii "id", fun c => c.ID) (by simp [BuildingsConfig.params])
    exact ⟨h, h ▸ length_ite_le_one _⟩
  · have h := param_of_mem (ascii "rooms") c.key config RoomsConfig.params hr.1 hr.2
      (ascii "id", fun c => c.ID) (by simp [RoomsConfig.params])
    exact ⟨h, h ▸ length_ite_le_one _⟩

/-- Rooms asked for the ids `1` and `2` in the only way `RoomsConfig` allows, as one
text, sends a single `id` parameter whose value is that text. -/
theorem two_ids_one_parameter :
    ∃ req, (NewClient (respondWith 200 []) (ascii "k")).RoomsRequest
        { ID := ascii "1&id=2", Building := [] } = .ok req ∧
      req.URL.RawQuery = ascii "id=1%26id%3D2&key=k" ∧
      req.param (ascii "id") = [ascii "1&id=2"] := by
  obtain ⟨req, h, hp, _⟩ :=
    (at_most_one_id (NewClient (respondWith 200 []) (ascii "k"))).2.2
      { ID := ascii "1&id=2", Building := [] }
  refine ⟨req, h, ?_, hp⟩
  have h2 : (NewClient (respondWith 200 []) (ascii "k")).RoomsRequest
      { ID := ascii "1&id=2", Building := [] } = .ok (apiRequest (ascii "rooms")
        (addOptional ({ ID := ascii "1&id=2", Building := [] } : RoomsConfig) RoomsConfig.params
          (Values.empty.Add (ascii "key") (ascii "k")))) := rfl
  rw [h2] at h
  injection h with h
  subst h
  decide

/-! ## The omit-if-empty rule -/

/-- A parameter of a request built from the key and a table of optional fields is the
key or a field of the table that the caller set to a non-empty value. -/
theorem mem_of_param_ne_nil {C : Type} (resource k : GoString) (config : C)
    (table : List (GoString × (C → GoString))) (n : GoString) (hkey : n ≠ ascii "key")
    (h : (apiRequest resource (addOptional config table (Values.empty.Add (ascii "key") k))).param n
      ≠ []) :
    ∃ p ∈ table, p.1 = n ∧ p.2 config ≠ [] := by
  rw [param_optional, if_neg (fun e => hkey e.symm), List.nil_append] at h
  have hne : table.filter (fun p => p.1 = n ∧ p.2 config ≠ []) ≠ [] := by
    intro e; rw [e] at h; exact h rfl
  obtain ⟨p, hp⟩ := List.exists_mem_of_ne_nil _ hne
  have := List.mem_filter.1 hp
  exact ⟨p, this.1, of_decide_eq_true this.2⟩

/-- Counterexample to C10: Instructors called with the empty string builds the query
`key=k&subject=`, which has a `subject` parameter (with the empty value). -/
theorem instructors_sends_empty_subject :
    ∃ req, (NewClient (respondWith 200 []) (ascii "k")).InstructorsRequest [] = .ok req ∧
      req.URL.RawQuery = ascii "key=k&subject=" ∧
      req.param (ascii "subject") = [[]] ∧ req.param (ascii "subject") ≠ [] :=
  ⟨_, rfl, by decide, by decide, by decide⟩

/-- C10, amended. For Subjects, Courses, Buildings and Rooms a parameter other than `key`
is in the query of the request only if it is the name of a configuration field that the
caller set to a non-empty value; Terms and Schools send no parameter other than `key`.
Instructors sends no parameter other than `key` and `subject`, and sends `subject` once
with the caller's value whatever that value is, the empty string included. -/
theorem omit_if_empty (c : Client) :
    (∀ config : SubjectsConfig, ∃ req, c.SubjectsRequest config = .ok req ∧
      ∀ n, n ≠ ascii "key" → req.param n ≠ [] →
        ∃ p ∈ SubjectsConfig.params, p.1 = n ∧ p.2 config ≠ []) ∧
    (∀ config : CoursesConfig, ∃ req, c.CoursesRequest config = .ok req ∧
      ∀ n, n ≠ ascii "key" → req.param n ≠ [] →
        ∃ p ∈ CoursesConfig.params, p.1 = n ∧ p.2 config ≠ []) ∧
    (∀ config : BuildingsConfig, ∃ req, c.BuildingsRequest config = .ok req ∧
      ∀ n, n ≠ ascii "key" → req.param n ≠ [] →
        ∃ p ∈ BuildingsConfig.params, p.1 = n ∧ p.2 config ≠ []) ∧
    (∀ config : RoomsConfig, ∃ req, c.RoomsRequest config = .ok req ∧
      ∀ n, n ≠ ascii "key" → req.param n ≠ [] →
        ∃ p ∈ RoomsConfig.params, p.1 = n ∧ p.2 config ≠ []) ∧
    (∃ req, c.TermsRequest = .ok req ∧ ∀ n, n ≠ ascii "key" → req.param n = []) ∧
    (∃ req, c.SchoolsRequest = .ok req ∧ ∀ n, n ≠ ascii "key" → req.param n = []) ∧
    (∀ subject : GoString, ∃ req, c.InstructorsRequest subject = .ok req ∧
      req.param (ascii "subject") = [subject] ∧
      ∀ n, n ≠ ascii "key" → n ≠ ascii "subject" → req.param n = []) := by
  have honly : ∀ resource : GoString, ∀ n, n ≠ ascii "key" →
      (apiRequest resource (Values.empty.Add (ascii "key") c.key)).param n = [] := by
    intro resource n hn
    rw [param_apiRequest _ _ (nodup_keys_key _), vals_key, if_neg (fun e => hn e.symm)]
  refine ⟨fun config => ⟨_, SubjectsRequest_eq c config, fun n hn h =>
      mem_of_param_ne_nil _ _ _ _ n hn h⟩,
    fun config => ⟨_, CoursesRequest_eq c config, fun n hn h =>
      mem_of_param_ne_nil _ _ _ _ n hn h⟩,
    fun config => ⟨_, BuildingsRequest_eq c config, fun n hn h =>
      mem_of_param_ne_nil _ _ _ _ n hn h⟩,
    fun config => ⟨_, RoomsRequest_eq c config, fun n hn h =>
      mem_of_param_ne_nil _ _ _ _ n hn h⟩,
    ⟨_, TermsRequest_eq c, honly _⟩, ⟨_, SchoolsRequest_eq c, honly _⟩,
    fun subject => ⟨_, InstructorsRequest_eq c subject, ?_, fun n hn hs => ?_⟩⟩
  · rw [param_apiRequest _ _ (nodup_keys_Add _ _ _ (nodup_keys_key c.key)), vals_Add, vals_key]
    have : ¬ ascii "key" = ascii "subject" := by decide
    simp [this]
  · rw [param_apiRequest _ _ (nodup_keys_Add _ _ _ (nodup_keys_key c.key)), vals_Add, vals_key,
      if_neg (fun e => hs e.symm), if_neg (fun e => hn e.symm)]

/-- Witness of C10 as amended: Subjects with only `Term` set sends no `school`, and
Instructors with the empty subject sends `subject` with the empty value. -/
theorem omit_if_empty_witness :
    (∃ req, (NewClient (respondWith 200 []) (ascii "k")).SubjectsRequest
        { Term := ascii "4720", School := [] } = .ok req ∧ req.param (ascii "school") = []) ∧
    (∃ req, (NewClient (respondWith 200 []) (ascii "k")).InstructorsRequest [] = .ok req ∧
      req.param (ascii "subject") = [[]]) := by
  constructor
  · obtain ⟨req, h, hp⟩ :=
      (omit_if_empty (NewClient (respondWith 200 []) (ascii "k"))).1
        { Term := ascii "4720", School := [] }
    refine ⟨req, h, ?_⟩
    by_contra hne
    obtain ⟨p, hmem, hname, hval⟩ := hp (ascii "school") (by decide) hne
    simp only [SubjectsConfig.params, List.mem_cons, List.mem_singleton, List.not_mem_nil,
      or_false] at hmem
    rcases hmem with rfl | rfl
    · exact absurd hname (by decide)
    · exact hval rfl
  · obtain ⟨req, h, hp, _⟩ :=
      (omit_if_empty (NewClient (respondWith 200 []) (ascii "k"))).2.2.2.2.2.2 []
    exact ⟨req, h, hp⟩

/-! ## The URL of the request -/

theorem QueryEscape_unreserved (k : GoString) (h : ∀ b ∈ k, isUnreserved b = true) :
    QueryEscape k = k := by
  induction k with
  | nil => rfl
  | cons c cs ih =>
    have hc : shouldEscape c = false := by
      have := h c (List.mem_cons_self _ _)
      revert this
      simp only [isUnreserved, shouldEscape]
      by_cases ha : isAlnum c = true
      · simp [ha]
      · simp only [ha]
        intro h1
        simp only [Bool.false_or, Bool.or_eq_true, decide_eq_true_eq] at h1
        have : (decide (c.val = 45) || decide (c.val = 95) || decide (c.val = 46) ||
            decide (c.val = 126)) = true := by
          simp only [Bool.or_eq_true, decide_eq_true_eq]; tauto
        simp [this]
    unfold QueryEscape
    rw [hc, ih (fun b hb => h b (List.mem_cons_of_mem _ hb))]
    simp

theorem String_apiRequest (resource : GoString) (hres : resource ∈ resources) (q : Values)
    (hq : q.Encode ≠ []) :
    (apiRequest resource q).URL.String = baseURL ++ resource ++ ascii "?" ++ q.Encode := by
  obtain ⟨b, bs, hb⟩ : ∃ b bs, q.Encode = b :: bs := by
    cases h : q.Encode with
    | nil => exact absurd h hq
    | cons b bs => exact ⟨b, bs, rfl⟩
  simp only [apiRequest, hb]
  simp only [resources, List.mem_cons, List.mem_singleton, List.not_mem_nil, or_false] at hres
  rcases hres with rfl | rfl | rfl | rfl | rfl | rfl | rfl <;> rfl

theorem Encode_ne_nil_of_vals (q : Values) (hq : q.keys.Nodup) (n : GoString)
    (h : q.vals n ≠ []) : q.Encode ≠ [] := by
  intro e
  have := vals_ParseQuery_Encode q hq n
  rw [e] at this
  exact h (this ▸ rfl)

theorem Encode_subjects_term (k : GoString) :
    (addOptional ({ Term := ascii "4720", School := [] } : SubjectsConfig) SubjectsConfig.params
      (Values.empty.Add (ascii "key") k)).Encode =
      ascii "key=" ++ QueryEscape k ++ ascii "&term=4720" := by
  rw [Encode_eq]
  have hp : (addOptional ({ Term := ascii "4720", School := [] } : SubjectsConfig)
      SubjectsConfig.params (Values.empty.Add (ascii "key") k)).pairs =
      [(ascii "key", k), (ascii "term", ascii "4720")] := rfl
  rw [hp]
  simp only [queryText, pairText, encodePair]
  have h1 : QueryEscape (ascii "key") = ascii "key" := by decide
  have h2 : QueryEscape (ascii "term") = ascii "term" := by decide
  have h3 : QueryEscape (ascii "4720") = ascii "4720" := by decide
  rw [h1, h2, h3]
  have h4 : ascii "key=" = ascii "key" ++ [(61 : Byte)] := by decide
  have h5 : ascii "&term=4720" = (38 : Byte) :: (ascii "term" ++ (61 : Byte) :: ascii "4720") := by
    decide
  rw [h4, h5]
  simp

theorem finish_values {T : Type} (c c1 : Client) (zero : T) (fields : List (Field T))
    (r : Except Error Response) :
    (finish c1 zero fields r).values = (finish c zero fields r).values ∧
      (finish c1 zero fields r).err = (finish c zero fields r).err := by
  unfold finish
  split
  · exact ⟨rfl, rfl⟩
  · split <;> exact ⟨rfl, rfl⟩

theorem Encode_ne_nil_optional {C : Type} (k : GoString) (config : C)
    (table : List (GoString × (C → GoString))) :
    (addOptional config table (Values.empty.Add (ascii "key") k)).Encode ≠ [] := by
  apply Encode_ne_nil_of_vals _ (nodup_keys_addOptional _ _ _ (nodup_keys_key k)) (ascii "key")
  rw [vals_addOptional, vals_key]
  simp

theorem Encode_ne_nil_key (k : GoString) : (Values.empty.Add (ascii "key") k).Encode ≠ [] := by
  apply Encode_ne_nil_of_vals _ (nodup_keys_key k) (ascii "key")
  rw [vals_key]; simp

theorem Encode_ne_nil_subject (k subject : GoString) :
    ((Values.empty.Add (ascii "key") k).Add (ascii "subject") subject).Encode ≠ [] := by
  apply Encode_ne_nil_of_vals _ (nodup_keys_Add _ _ _ (nodup_keys_key k)) (ascii "key")
  rw [vals_Add, vals_key]
  have : ¬ ascii "subject" = ascii "key" := by decide
  simp [this]

/-- C7. Each method builds a GET request whose URL is `baseURL`, the method's resource name,
`?` and the encoded query, and hands that request to the HTTP client: the results depend
on the HTTP client only through its answer to that request. For a key made of unreserved
characters, Subjects with `Term` `4720` and no school builds exactly
`http://api.asg.northwestern.edu/subjects?key=<k>&term=4720`. -/
theorem request_url (c : Client) (parseFloat : GoString → Option Float64) :
    (∃ req, c.TermsRequest = .ok req ∧ req.Method = ascii "GET" ∧
      req.URL.String = baseURL ++ ascii "terms" ++ ascii "?" ++ req.URL.RawQuery ∧
      ∀ t : HTTPClient, t req = c.client req →
        ({ key := c.key, client := t } : Client).Terms.values = c.Terms.values ∧
        ({ key := c.key, client := t } : Client).Terms.err = c.Terms.err) ∧
    (∃ req, c.SchoolsRequest = .ok req ∧ req.Method = ascii "GET" ∧
      req.URL.String = baseURL ++ ascii "schools" ++ ascii "?" ++ req.URL.RawQuery ∧
      ∀ t : HTTPClient, t req = c.client req →
        ({ key := c.key, client := t } : Client).Schools.values = c.Schools.values ∧
        ({ key := c.key, client := t } : Client).Schools.err = c.Schools.err) ∧
    (∀ config, ∃ req, c.SubjectsRequest config = .ok req ∧ req.Method = ascii "GET" ∧
      req.URL.String = baseURL ++ ascii "subjects" ++ ascii "?" ++ req.URL.RawQuery ∧
      ∀ t : HTTPClient, t req = c.client req →
        (({ key := c.key, client := t } : Client).Subjects config).values =
          (c.Subjects config).values ∧
        (({ key := c.key, client := t } : Client).Subjects config).err =
          (c.Subjects config).err) ∧
    (∀ config, ∃ req, c.CoursesRequest config = .ok req ∧ req.Method = ascii "GET" ∧
      req.URL.String = baseURL ++ ascii "courses" ++ ascii "?" ++ req.URL.RawQuery ∧
      ∀ t : HTTPClient, t req = c.client req →
        (({ key := c.key, client := t } : Client).Courses config).values =
          (c.Courses config).values ∧
        (({ key := c.key, client := t } : Client).Courses config).err =
          (c.Courses config).err) ∧
    (∀ subject, ∃ req, c.InstructorsRequest subject = .ok req ∧ req.Method = ascii "GET" ∧
      req.URL.String = baseURL ++ ascii "instructors" ++ ascii "?" ++ req.URL.RawQuery ∧
      ∀ t : HTTPClient, t req = c.client req →
        (({ key := c.key, client := t } : Client).Instructors subject).values =
          (c.Instructors subject).values ∧
        (({ key := c.key, client := t } : Client).Instructors subject).err =
          (c.Instructors subject).err) ∧
    (∀ config, ∃ req, c.BuildingsRequest config = .ok req ∧ req.Method = ascii "GET" ∧
      req.URL.String = baseURL ++ ascii "buildings" ++ ascii "?" ++ req.URL.RawQuery ∧
      ∀ t : HTTPClient, t req = c.client req →
        (({ key := c.key, client := t } : Client).Buildings parseFloat config).values =
          (c.Buildings parseFloat config).values ∧
        (({ key := c.key, client := t } : Client).Buildings parseFloat config).err =
          (c.Buildings parseFloat config).err) ∧
    (∀ config, ∃ req, c.RoomsRequest config = .ok req ∧ req.Method = ascii "GET" ∧
      req.URL.String = baseURL ++ ascii "rooms" ++ ascii "?" ++ req.URL.RawQuery ∧
      ∀ t : HTTPClient, t req = c.client req →
        (({ key := c.key, client := t } : Client).Rooms config).values =
          (c.Rooms config).values ∧
        (({ key := c.key, client := t } : Client).Rooms config).err = (c.Rooms config).err) ∧
    ((∀ b ∈ c.key, isUnreserved b = true) →
      ∃ req, c.SubjectsRequest { Term := ascii "4720", School := [] } = .ok req ∧
        req.URL.String =
          ascii "http://api.asg.northwestern.edu/subjects?key=" ++ c.key ++ ascii "&term=4720") := by
  refine ⟨⟨_, TermsRequest_eq c, rfl,
      String_apiRequest _ (by decide) _ (Encode_ne_nil_key _), fun t ht => ?_⟩,
    ⟨_, SchoolsRequest_eq c, rfl,
      String_apiRequest _ (by decide) _ (Encode_ne_nil_key _), fun t ht => ?_⟩,
    fun config => ⟨_, SubjectsRequest_eq c config, rfl,
      String_apiRequest _ (by decide) _ (Encode_ne_nil_optional _ _ _), fun t ht => ?_⟩,
    fun config => ⟨_, CoursesRequest_eq c config, rfl,
      String_apiRequest _ (by decide) _ (Encode_ne_nil_optional _ _ _), fun t ht => ?_⟩,
    fun subject => ⟨_, InstructorsRequest_eq c subject, rfl,
      String_apiRequest _ (by decide) _ (Encode_ne_nil_subject _ _), fun t ht => ?_⟩,
    fun config => ⟨_, BuildingsRequest_eq c config, rfl,
      String_apiRequest _ (by decide) _ (Encode_ne_nil_optional _ _ _), fun t ht => ?_⟩,
    fun config => ⟨_, RoomsRequest_eq c config, rfl,
      String_apiRequest _ (by decide) _ (Encode_ne_nil_optional _ _ _), fun t ht => ?_⟩,
    fun hk => ⟨_, SubjectsRequest_eq c _, ?_⟩⟩
  · rw [Terms_eq, Terms_eq]; dsimp only; rw [ht]; exact finish_values _ _ _ _ _
  · rw [Schools_eq, Schools_eq]; dsimp only; rw [ht]; exact finish_values _ _ _ _ _
  · rw [Subjects_eq, Subjects_eq]; dsimp only; rw [ht]; exact finish_values _ _ _ _ _
  · rw [Courses_eq, Courses_eq]; dsimp only; rw [ht]; exact finish_values _ _ _ _ _
  · rw [Instructors_eq, Instructors_eq]; dsimp only; rw [ht]; exact finish_values _ _ _ _ _
  · rw [Buildings_eq, Buildings_eq]; dsimp only; rw [ht]; exact finish_values _ _ _ _ _
  · rw [Rooms_eq, Rooms_eq]; dsimp only; rw [ht]; exact finish_values _ _ _ _ _
  · rw [String_apiRequest _ (by decide) _ (Encode_ne_nil_optional _ _ _), Encode_subjects_term,
      QueryEscape_unreserved _ hk]
    have : baseURL ++ ascii "subjects" ++ ascii "?" ++ (ascii "key=" ++ c.key ++ ascii "&term=4720")
        = (baseURL ++ ascii "subjects" ++ ascii "?" ++ ascii "key=") ++ c.key ++ ascii "&term=4720" := by
      simp only [List.append_assoc]
    rw [this]
    have h2 : baseURL ++ ascii "subjects" ++ ascii "?" ++ ascii "key=" =
        ascii "http://api.asg.northwestern.edu/subjects?key=" := by decide
    rw [h2]

/-- Witness of C7: with the key `K-1_a.b~9`, Subjects with `Term` `4720` builds the URL
`http://api.asg.northwestern.edu/subjects?key=K-1_a.b~9&term=4720`. -/
theorem request_url_witness :
    ∃ req, (NewClient (respondWith 200 []) (ascii "K-1_a.b~9")).SubjectsRequest
        { Term := ascii "4720", School := [] } = .ok req ∧
      req.URL.String =
        ascii "http://api.asg.northwestern.edu/subjects?key=K-1_a.b~9&term=4720" := by
  obtain ⟨req, h, hs⟩ :=
    (request_url (NewClient (respondWith 200 []) (ascii "K-1_a.b~9")) (fun _ => none)).2.2.2.2.2.2.2
      (by decide)
  exact ⟨req, h, by rw [hs]; decide⟩

/-! ## Errors of the transport and partial results -/

theorem finish_error {T : Type} (c : Client) (zero : T) (fields : List (Field T)) (e : Error) :
    (finish c zero fields (.error e)).values = none ∧
      (finish c zero fields (.error e)).err = some e := ⟨rfl, rfl⟩

theorem finish_not_both {T : Type} (c : Client) (zero : T) (fields : List (Field T))
    (r : Except Error Response) :
    ¬ ((finish c zero fields r).values ≠ none ∧ (finish c zero fields r).err ≠ none) := by
  unfold finish
  split
  · exact fun h => h.1 rfl
  · split
    · exact fun h => h.1 rfl
    · exact fun h => h.2 rfl

/-- C6. For each of the seven methods: when the HTTP client fails on the request with an
error `e`, the method returns the nil slice and exactly `e`; and whatever the HTTP client
answers, the method never returns both a non-nil slice and a non-nil error. -/
theorem no_partial_results (c : Client) (parseFloat : GoString → Option Float64) :
    ((∀ req e, c.TermsRequest = .ok req → c.client req = .error e →
        c.Terms.values = none ∧ c.Terms.err = some e) ∧
      (∀ req e, c.SchoolsRequest = .ok req → c.client req = .error e →
        c.Schools.values = none ∧ c.Schools.err = some e) ∧
      (∀ config req e, c.SubjectsRequest config = .ok req → c.client req = .error e →
        (c.Subjects config).values = none ∧ (c.Subjects config).err = some e) ∧
      (∀ config req e, c.CoursesRequest config = .ok req → c.client req = .error e →
        (c.Courses config).values = none ∧ (c.Courses config).err = some e) ∧
      (∀ subject req e, c.InstructorsRequest subject = .ok req → c.client req = .error e →
        (c.Instructors subject).values = none ∧ (c.Instructors subject).err = some e) ∧
      (∀ config req e, c.BuildingsRequest config = .ok req → c.client req = .error e →
        (c.Buildings parseFloat config).values = none ∧
          (c.Buildings parseFloat config).err = some e) ∧
      (∀ config req e, c.RoomsRequest config = .ok req → c.client req = .error e →
        (c.Rooms config).values = none ∧ (c.Rooms config).err = some e)) ∧
    (¬ (c.Terms.values ≠ none ∧ c.Terms.err ≠ none) ∧
      ¬ (c.Schools.values ≠ none ∧ c.Schools.err ≠ none) ∧
      (∀ config, ¬ ((c.Subjects config).values ≠ none ∧ (c.Subjects config).err ≠ none)) ∧
      (∀ config, ¬ ((c.Courses config).values ≠ none ∧ (c.Courses config).err ≠ none)) ∧
      (∀ subject, ¬ ((c.Instructors subject).values ≠ none ∧
        (c.Instructors subject).err ≠ none)) ∧
      (∀ config, ¬ ((c.Buildings parseFloat config).values ≠ none ∧
        (c.Buildings parseFloat config).err ≠ none)) ∧
      (∀ config, ¬ ((c.Rooms config).values ≠ none ∧ (c.Rooms config).err ≠ none))) := by
  refine ⟨⟨fun req e hr he => ?_, fun req e hr he => ?_, fun config req e hr he => ?_,
      fun config req e hr he => ?_, fun subject req e hr he => ?_,
      fun config req e hr he => ?_, fun config req e hr he => ?_⟩,
    ?_, ?_, fun config => ?_, fun config => ?_, fun subject => ?_, fun config => ?_,
    fun config => ?_⟩
  · rw [TermsRequest_eq] at hr; injection hr with hr; subst hr
    rw [Terms_eq, he]; exact finish_error _ _ _ _
  · rw [SchoolsRequest_eq] at hr; injection hr with hr; subst hr
    rw [Schools_eq, he]; exact finish_error _ _ _ _
  · rw [SubjectsRequest_eq] at hr; injection hr with hr; subst hr
    rw [Subjects_eq, he]; exact finish_error _ _ _ _
  · rw [CoursesRequest_eq] at hr; injection hr with hr; subst hr
    rw [Courses_eq, he]; exact finish_error _ _ _ _
  · rw [InstructorsRequest_eq] at hr; injection hr with hr; subst hr
    rw [Instructors_eq, he]; exact finish_error _ _ _ _
  · rw [BuildingsRequest_eq] at hr; injection hr with hr; subst hr
    rw [Buildings_eq, he]; exact finish_error _ _ _ _
  · rw [RoomsRequest_eq] at hr; injection hr with hr; subst hr
    rw [Rooms_eq, he]; exact finish_error _ _ _ _
  · rw [Terms_eq]; exact finish_not_both _ _ _ _
  · rw [Schools_eq]; exact finish_not_both _ _ _ _
  · rw [Subjects_eq]; exact finish_not_both _ _ _ _
  · rw [Courses_eq]; exact finish_not_both _ _ _ _
  · rw [Instructors_eq]; exact finish_not_both _ _ _ _
  · rw [Buildings_eq]; exact finish_not_both _ _ _ _
  · rw [Rooms_eq]; exact finish_not_both _ _ _ _

/-- Witness of C6: with an HTTP client that fails with transport error 7, Subjects
returns the nil slice and that error. -/
theorem no_partial_results_witness :
    ((NewClient (failWith (.transport 7)) (ascii "k")).Subjects
        { Term := ascii "4720", School := [] }).values = none ∧
      ((NewClient (failWith (.transport 7)) (ascii "k")).Subjects
        { Term := ascii "4720", School := [] }).err = some (.transport 7) :=
  (no_partial_results (NewClient (failWith (.transport 7)) (ascii "k")) (fun _ => none)).1.2.2.1
    { Term := ascii "4720", School := [] } _ (.transport 7) rfl rfl

/-! ## The scanner never runs out of fuel -/

theorem skipSpace_length_le (s : GoString) : (skipSpace s).length ≤ s.length := by
  induction s with
  | nil => simp [skipSpace]
  | cons c cs ih =>
    unfold skipSpace
    split
    · simp only [List.length_cons]; omega
    · exact Nat.le_refl _

/-- The scanner of literals never reports the end of the fuel, and what it leaves is no
longer than what it got. -/
theorem scanLiteral_spec (l s : GoString) :
    (∀ m, scanLiteral l s = .bad m → m ≠ fuelMsg) ∧
      (∀ u rest, scanLiteral l s = .ok u rest → rest.length ≤ s.length) := by
  induction l generalizing s with
  | nil =>
    constructor
    · intro m h; simp [scanLiteral] at h
    · intro u rest h
      simp only [scanLiteral] at h
      cases h; exact Nat.le_refl _
  | cons x xs ih =>
    cases s with
    | nil =>
      constructor
      · intro m h; simp [scanLiteral] at h
      · intro u rest h; simp [scanLiteral] at h
    | cons c cs =>
      unfold scanLiteral
      split
      · constructor
        · exact (ih cs).1
        · intro u rest h
          have := (ih cs).2 u rest h
          simp only [List.length_cons]; omega
      · constructor
        · intro m h; cases h; decide
        · intro u rest h; cases h

theorem Scan.cons_bad (c : Byte) (r : Scan GoString) (m : GoString) (h : Scan.cons c r = .bad m) :
    r = .bad m := by
  cases r <;> simp_all [Scan.cons]

theorem Scan.cons_ok (c : Byte) (r : Scan GoString) (raw rest : GoString)
    (h : Scan.cons c r = .ok raw rest) : ∃ raw1, r = .ok raw1 rest ∧ raw = c :: raw1 := by
  cases r <;> simp_all [Scan.cons]

theorem scanStringFrom_spec (s : GoString) : ∀ st : StringState,
    (∀ m, scanStringFrom st s = .bad m → m ≠ fuelMsg) ∧
      (∀ raw rest, scanStringFrom st s = .ok raw rest → rest.length < s.length) := by
  induction s with
  | nil => intro st; constructor <;> intros <;> simp [scanStringFrom] at *
  | cons c cs ih =>
    intro st
    constructor
    · intro m h
      cases st <;> rw [scanStringFrom] at h <;> repeat' split at h
      all_goals first
        | (cases h; decide)
        | cases h
        | exact (ih _).1 m (Scan.cons_bad _ _ _ h)
    · intro raw rest h
      cases st <;> rw [scanStringFrom] at h <;> repeat' split at h
      all_goals first
        | (cases h; simp)
        | cases h
        | (obtain ⟨raw1, h1, _⟩ := Scan.cons_ok _ _ _ _ h
           have := (ih _).2 _ _ h1
           simp only [List.length_cons]; omega)

theorem scanString_spec (s : GoString) :
    (∀ m, scanString s = .bad m → m ≠ fuelMsg) ∧
      (∀ raw rest, scanString s = .ok raw rest → rest.length < s.length) :=
  scanStringFrom_spec s .inString

theorem scanNumberFrom_spec (s : GoString) : ∀ st : NumberState,
    (∀ m, scanNumberFrom st s = .bad m → m ≠ fuelMsg) ∧
      (∀ lit rest, scanNumberFrom st s = .ok lit rest → rest.length ≤ s.length) := by
  induction s with
  | nil => intro st; cases st <;> constructor <;> intros <;> simp [scanNumberFrom] at * <;> simp [*]
  | cons c cs ih =>
    intro st
    constructor
    · intro m h
      cases st <;> rw [scanNumberFrom] at h <;> repeat' split at h
      all_goals first
        | (cases h; decide)
        | cases h
        | exact (ih _).1 m (Scan.cons_bad _ _ _ h)
    · intro lit rest h
      cases st <;> rw [scanNumberFrom] at h <;> repeat' split at h
      all_goals first
        | (cases h; simp)
        | cases h
        | (obtain ⟨raw1, h1, _⟩ := Scan.cons_ok _ _ _ _ h
           have := (ih _).2 _ _ h1
           simp only [List.length_cons]; omega)

theorem scanNumber_spec (s : GoString) :
    (∀ m, scanNumber s = .bad m → m ≠ fuelMsg) ∧
      (∀ lit rest, scanNumber s = .ok lit rest → rest.length < s.length) := by
  cases s with
  | nil => constructor <;> intros <;> simp [scanNumber] at *
  | cons c cs =>
    constructor
    · intro m h
      rw [scanNumber] at h
      repeat' split at h
      all_goals exact (scanNumberFrom_spec _ _).1 m (Scan.cons_bad _ _ _ h)
    · intro lit rest h
      rw [scanNumber] at h
      repeat' split at h
      all_goals
        obtain ⟨raw1, h1, _⟩ := Scan.cons_ok _ _ _ _ h
        have := (scanNumberFrom_spec _ _).2 _ _ h1
        simp only [List.length_cons]; omega

theorem within_more (n : Nat) : Scan.within n .more :=
  ⟨fun h => (by cases h), fun _ _ h => (by cases h)⟩

theorem within_bad (n : Nat) (m : GoString) (h : m ≠ fuelMsg) : Scan.within n (.bad m) :=
  ⟨fun e => (by cases e; exact h rfl), fun _ _ e => (by cases e)⟩

theorem within_ok (n : Nat) (v : JValue) (rest : GoString) (h : rest.length < n) :
    Scan.within n (.ok v rest) :=
  ⟨fun e => (by cases e), fun _ _ e => (by cases e; exact h)⟩

theorem within_mono {n k : Nat} {r : Scan JValue} (h : Scan.within n r) (hk : n ≤ k) :
    Scan.within k r :=
  ⟨h.1, fun v rest e => Nat.lt_of_lt_of_le (h.2 v rest e) hk⟩

theorem skipSpace_cons_length (s cs : GoString) (c : Byte) (h : skipSpace s = c :: cs) :
    cs.length + 1 ≤ s.length := by
  have := skipSpace_length_le s
  rw [h] at this
  simpa using this

/-- With fuel above twice the length of the input, the scanner does not run out of fuel,
and a value it reads takes at least one byte. -/
theorem scan_within (f : Nat) :
    (∀ d s, 2 * s.length + 1 ≤ f → Scan.within s.length (scanValue f d s)) ∧
    (∀ d acc s, 2 * s.length + 2 ≤ f → Scan.within s.length (scanElems f d acc s)) ∧
    (∀ d acc s, 2 * s.length + 2 ≤ f → Scan.within s.length (scanMembers f d acc s)) := by
  induction f with
  | zero =>
    refine ⟨fun d s h => ?_, fun d acc s h => ?_, fun d acc s h => ?_⟩ <;> omega
  | succ f ih =>
    obtain ⟨ihV, ihE, ihM⟩ := ih
    refine ⟨fun d s hf => ?_, fun d acc s hf => ?_, fun d acc s hf => ?_⟩
    · rw [scanValue.eq_2]
      cases hsk : skipSpace s with
      | nil => exact within_more _
      | cons c cs =>
        have hcs := skipSpace_cons_length s cs c hsk
        dsimp only
        split
        · split
          · exact within_bad _ _ (by decide)
          · cases hsk2 : skipSpace cs with
            | nil => exact within_more _
            | cons d1 ds =>
              have hds := skipSpace_cons_length cs ds d1 hsk2
              dsimp only
              split
              · exact within_ok _ _ _ (by omega)
              · exact within_mono (ihM _ _ cs (by omega)) (by omega)
        · split
          · split
            · exact within_bad _ _ (by decide)
            · cases hsk2 : skipSpace cs with
              | nil => exact within_more _
              | cons d1 ds =>
                have hds := skipSpace_cons_length cs ds d1 hsk2
                dsimp only
                split
                · exact within_ok _ _ _ (by omega)
                · exact within_mono (ihE _ _ cs (by omega)) (by omega)
          · split
            · cases hstr : scanString cs with
              | ok raw rest =>
                have := (scanString_spec cs).2 _ _ hstr
                exact within_ok _ _ _ (by omega)
              | more => exact within_more _
              | bad m => exact within_bad _ _ ((scanString_spec cs).1 _ hstr)
            · split
              · cases hnum : scanNumber (c :: cs) with
                | ok lit rest =>
                  have := (scanNumber_spec (c :: cs)).2 _ _ hnum
                  simp only [List.length_cons] at this
                  exact within_ok _ _ _ (by omega)
                | more => exact within_more _
                | bad m => exact within_bad _ _ ((scanNumber_spec _).1 _ hnum)
              · split
                · cases hlit : scanLiteral (ascii "rue") cs with
                  | ok u rest =>
                    have := (scanLiteral_spec _ cs).2 _ _ hlit
                    exact within_ok _ _ _ (by omega)
                  | more => exact within_more _
                  | bad m => exact within_bad _ _ ((scanLiteral_spec _ cs).1 _ hlit)
                · split
                  · cases hlit : scanLiteral (ascii "alse") cs with
                    | ok u rest =>
                      have := (scanLiteral_spec _ cs).2 _ _ hlit
                      exact within_ok _ _ _ (by omega)
                    | more => exact within_more _
                    | bad m => exact within_bad _ _ ((scanLiteral_spec _ cs).1 _ hlit)
                  · split
                    · cases hlit : scanLiteral (ascii "ull") cs with
                      | ok u rest =>
                        have := (scanLiteral_spec _ cs).2 _ _ hlit
                        exact within_ok _ _ _ (by omega)
                      | more => exact within_more _
                      | bad m => exact within_bad _ _ ((scanLiteral_spec _ cs).1 _ hlit)
                    · exact within_bad _ _ (by decide)
    · rw [scanElems.eq_2]
      have hv := ihV d s (by omega)
      cases hval : scanValue f d s with
      | more => exact within_more _
      | bad m => exact within_bad _ _ (fun e => hv.1 (e ▸ hval))
      | ok v rest =>
        have hrest := hv.2 v rest hval
        dsimp only
        cases hsk : skipSpace rest with
        | nil => exact within_more _
        | cons c cs =>
          have hcs := skipSpace_cons_length rest cs c hsk
          dsimp only
          split
          · exact within_mono (ihE _ _ cs (by omega)) (by omega)
          · split
            · exact within_ok _ _ _ (by omega)
            · exact within_bad _ _ (by decide)
    · rw [scanMembers.eq_2]
      cases hsk : skipSpace s with
      | nil => exact within_more _
      | cons q s1 =>
        have hs1 := skipSpace_cons_length s s1 q hsk
        dsimp only
        split
        · cases hstr : scanString s1 with
          | more => exact within_more _
          | bad m => exact within_bad _ _ ((scanString_spec s1).1 _ hstr)
          | ok raw rest =>
            have hrest := (scanString_spec s1).2 _ _ hstr
            dsimp only
            cases hsk2 : skipSpace rest with
            | nil => exact within_more _
            | cons colon s2 =>
              have hs2 := skipSpace_cons_length rest s2 colon hsk2
              dsimp only
              split
              · have hv := ihV d s2 (by omega)
                cases hval : scanValue f d s2 with
                | more => exact within_more _
                | bad m => exact within_bad _ _ (fun e => hv.1 (e ▸ hval))
                | ok v rest1 =>
                  have hrest1 := hv.2 v rest1 hval
                  dsimp only
                  cases hsk3 : skipSpace rest1 with
                  | nil => exact within_more _
                  | cons c cs =>
                    have hcs := skipSpace_cons_length rest1 cs c hsk3
                    dsimp only
                    split
                    · exact within_mono (ihM _ _ cs (by omega)) (by omega)
                    · split
                      · exact within_ok _ _ _ (by omega)
                      · exact within_bad _ _ (by decide)
              · exact within_bad _ _ (by decide)
        · exact within_bad _ _ (by decide)

/-- The fuel that `readValue` gives to the scanner is never used up. -/
theorem readValue_fuel (b : Body) : scanValue (2 * b.data.length + 2) 0 b.data ≠ .bad fuelMsg :=
  ((scan_within _).1 0 b.data (by omega)).1

/-- More fuel does not change an outcome of the scanner that is not the end of the fuel. -/
theorem scan_fuel_succ (f : Nat) :
    (∀ d s r, scanValue f d s = r → r ≠ .bad fuelMsg → scanValue (f + 1) d s = r) ∧
    (∀ d acc s r, scanElems f d acc s = r → r ≠ .bad fuelMsg → scanElems (f + 1) d acc s = r) ∧
    (∀ d acc s r, scanMembers f d acc s = r → r ≠ .bad fuelMsg →
      scanMembers (f + 1) d acc s = r) := by
  induction f with
  | zero =>
    refine ⟨fun d s r h hr => ?_, fun d acc s r h hr => ?_, fun d acc s r h hr => ?_⟩
    · rw [scanValue.eq_1] at h; exact absurd h.symm hr
    · rw [scanElems.eq_1] at h; exact absurd h.symm hr
    · rw [scanMembers.eq_1] at h; exact absurd h.symm hr
  | succ f ih =>
    obtain ⟨ihV, ihE, ihM⟩ := ih
    refine ⟨fun d s r h hr => ?_, fun d acc s r h hr => ?_, fun d acc s r h hr => ?_⟩
    · rw [scanValue.eq_2] at h ⊢
      cases hsk : skipSpace s with
      | nil => rw [hsk] at h; exact h
      | cons c cs =>
        rw [hsk] at h
        dsimp only at h ⊢
        by_cases h1 : c.val = 123
        · rw [if_pos h1] at h ⊢
          by_cases h2 : d + 1 > maxNestingDepth
          · rw [if_pos h2] at h ⊢; exact h
          · rw [if_neg h2] at h ⊢
            cases hsk2 : skipSpace cs with
            | nil => rw [hsk2] at h; exact h
            | cons d1 ds =>
              rw [hsk2] at h
              dsimp only at h ⊢
              by_cases h3 : d1.val = 125
              · rw [if_pos h3] at h ⊢; exact h
              · rw [if_neg h3] at h ⊢; exact ihM _ _ _ _ h hr
        · rw [if_neg h1] at h ⊢
          by_cases h1b : c.val = 91
          · rw [if_pos h1b] at h ⊢
            by_cases h2 : d + 1 > maxNestingDepth
            · rw [if_pos h2] at h ⊢; exact h
            · rw [if_neg h2] at h ⊢
              cases hsk2 : skipSpace cs with
              | nil => rw [hsk2] at h; exact h
              | cons d1 ds =>
                rw [hsk2] at h
                dsimp only at h ⊢
                by_cases h3 : d1.val = 93
                · rw [if_pos h3] at h ⊢; exact h
                · rw [if_neg h3] at h ⊢; exact ihE _ _ _ _ h hr
          · rw [if_neg h1b] at h ⊢; exact h
    · rw [scanElems.eq_2] at h ⊢
      cases hval : scanValue f d s with
      | more => rw [hval] at h; rw [ihV d s _ hval (fun e => by cases e)]; exact h
      | bad m =>
        rw [hval] at h
        have hm : Scan.bad m ≠ (Scan.bad fuelMsg : Scan JValue) := fun e => hr (h ▸ e)
        rw [ihV d s _ hval hm]; exact h
      | ok v rest =>
        rw [hval] at h
        rw [ihV d s _ hval (fun e => by cases e)]
        dsimp only at h ⊢
        cases hsk : skipSpace rest with
        | nil => rw [hsk] at h; exact h
        | cons c cs =>
          rw [hsk] at h
          dsimp only at h ⊢
          by_cases h1 : c.val = 44
          · rw [if_pos h1] at h ⊢; exact ihE _ _ _ _ h hr
          · rw [if_neg h1] at h ⊢; exact h
    · rw [scanMembers.eq_2] at h ⊢
      cases hsk : skipSpace s with
      | nil => rw [hsk] at h; exact h
      | cons q s1 =>
        rw [hsk] at h
        dsimp only at h ⊢
        by_cases h1 : q.val = 34
        · rw [if_pos h1] at h ⊢
          cases hstr : scanString s1 with
          | more => rw [hstr] at h; exact h
          | bad m => rw [hstr] at h; exact h
          | ok raw rest =>
            rw [hstr] at h
            dsimp only at h ⊢
            cases hsk2 : skipSpace rest with
            | nil => rw [hsk2] at h; exact h
            | cons colon s2 =>
              rw [hsk2] at h
              dsimp only at h ⊢
              by_cases h2 : colon.val = 58
              · rw [if_pos h2] at h ⊢
                cases hval : scanValue f d s2 with
                | more => rw [hval] at h; rw [ihV d s2 _ hval (fun e => by cases e)]; exact h
                | bad m =>
                  rw [hval] at h
                  have hm : Scan.bad m ≠ (Scan.bad fuelMsg : Scan JValue) := fun e => hr (h ▸ e)
                  rw [ihV d s2 _ hval hm]; exact h
                | ok v rest1 =>
                  rw [hval] at h
                  rw [ihV d s2 _ hval (fun e => by cases e)]
                  dsimp only at h ⊢
                  cases hsk3 : skipSpace rest1 with
                  | nil => rw [hsk3] at h; exact h
                  | cons c cs =>
                    rw [hsk3] at h
                    dsimp only at h ⊢
                    by_cases h3 : c.val = 44
                    · rw [if_pos h3] at h ⊢; exact ihM _ _ _ _ h hr
                    · rw [if_neg h3] at h ⊢; exact h
              · rw [if_neg h2] at h ⊢; exact h
        · rw [if_neg h1] at h ⊢; exact h

/-- An outcome of the scanner that is not the end of the fuel stays the same with any
larger amount of fuel. -/
theorem scanValue_fuel_le (f g d : Nat) (s : GoString) (r : Scan JValue) (hfg : f ≤ g)
    (h : scanValue f d s = r) (hr : r ≠ .bad fuelMsg) : scanValue g d s = r := by
  induction g with
  | zero =>
    have : f = 0 := by omega
    subst this; exact h
  | succ g ih =>
    by_cases hf : f = g + 1
    · subst hf; exact h
    · exact (scan_fuel_succ g).1 d s r (ih (by omega)) hr

/-! ## The scanner and the grammar of JSON: white space, literals, strings -/

theorem isSpace_eq_isWs : ∀ c : Byte, isSpace c = isWs c := by decide

theorem isDigit_eq_isDecDigit : ∀ c : Byte, isDigit c = isDecDigit c := by decide

theorem ishex_eq_isHexDigit : ∀ c : Byte, ishex c = isHexDigit c := by decide

theorem unhex_eq_hexValue : ∀ c : Byte, isHexDigit c = true → unhex c = hexValue c := by decide

theorem ofNat_val (a : Nat) : ((Fin.ofNat a : Byte) : Nat) = a % 256 := rfl

theorem skipSpace_cons (c : Byte) (cs : GoString) (h : isSpace c = false) :
    skipSpace (c :: cs) = c :: cs := by
  simp [skipSpace, h]

/-- White space in front of a text is skipped. -/
theorem skipSpace_ws (ws s : GoString) (h : ws.all isWs = true) :
    skipSpace (ws ++ s) = skipSpace s := by
  induction ws with
  | nil => rfl
  | cons c cs ih =>
    simp only [List.all_cons, Bool.and_eq_true] at h
    show skipSpace (c :: (cs ++ s)) = _
    rw [skipSpace, if_pos (by rw [isSpace_eq_isWs]; exact h.1)]
    exact ih h.2

/-- What `skipSpace` skips is white space. -/
theorem skipSpace_split (s : GoString) :
    ∃ ws, ws.all isWs = true ∧ s = ws ++ skipSpace s := by
  induction s with
  | nil => exact ⟨[], rfl, rfl⟩
  | cons c cs ih =>
    by_cases hc : isSpace c = true
    · obtain ⟨ws, hws, he⟩ := ih
      refine ⟨c :: ws, ?_, ?_⟩
      · simp only [List.all_cons, Bool.and_eq_true]
        exact ⟨by rw [← isSpace_eq_isWs]; exact hc, hws⟩
      · rw [skipSpace, if_pos hc]
        show c :: cs = c :: (ws ++ skipSpace cs)
        rw [← he]
    · refine ⟨[], rfl, ?_⟩
      rw [skipSpace, if_neg hc]
      rfl

/-- After white space in front of a byte that is not white space, that byte is next. -/
theorem skipSpace_ws_cons (ws : GoString) (c : Byte) (s : GoString) (h : ws.all isWs = true)
    (hc : isWs c = false) : skipSpace (ws ++ c :: s) = c :: s := by
  rw [skipSpace_ws ws _ h, skipSpace_cons c s (by rw [isSpace_eq_isWs]; exact hc)]

theorem scanLiteral_append (l rest : GoString) : scanLiteral l (l ++ rest) = .ok () rest := by
  induction l with
  | nil => cases rest <;> rfl
  | cons x xs ih =>
    show scanLiteral (x :: xs) (x :: (xs ++ rest)) = _
    rw [scanLiteral, if_pos rfl, ih]

theorem scanLiteral_ok (l s : GoString) (u : Unit) (rest : GoString)
    (h : scanLiteral l s = .ok u rest) : s = l ++ rest := by
  induction l generalizing s with
  | nil =>
    cases s <;> simp only [scanLiteral] at h <;> cases h <;> rfl
  | cons x xs ih =>
    cases s with
    | nil => simp [scanLiteral] at h
    | cons c cs =>
      rw [scanLiteral] at h
      split at h
      · rename_i hc
        rw [hc, ih cs h]
        rfl
      · cases h

theorem Scan.prepend_nil (r : Scan GoString) : Scan.prepend [] r = r := rfl

theorem Scan.prepend_cons (c : Byte) (bs : GoString) (r : Scan GoString) :
    Scan.prepend (c :: bs) r = Scan.cons c (Scan.prepend bs r) := rfl

theorem Scan.prepend_append (a b : GoString) (r : Scan GoString) :
    Scan.prepend (a ++ b) r = Scan.prepend a (Scan.prepend b r) := by
  induction a with
  | nil => rfl
  | cons c cs ih =>
    show Scan.prepend (c :: (cs ++ b)) r = _
    rw [Scan.prepend_cons, ih, Scan.prepend_cons]

/-- Bytes put in front of a finished scan stand in front of what was scanned. -/
theorem Scan.prepend_ok (bs raw rest : GoString) :
    Scan.prepend bs (.ok raw rest) = .ok (bs ++ raw) rest := by
  induction bs with
  | nil => rfl
  | cons c cs ih =>
    rw [Scan.prepend_cons, ih]
    rfl

theorem string_byte_step (c : Byte) (s : GoString)
    (h : (0x20 ≤ c.val && c.val != 0x22 && c.val != 0x5C) = true) :
    scanStringFrom .inString (c :: s) = Scan.cons c (scanStringFrom .inString s) := by
  have key : ∀ c : Byte, (0x20 ≤ c.val && c.val != 0x22 && c.val != 0x5C) = true →
      c.val ≠ 34 ∧ c.val ≠ 92 ∧ ¬ c.val < 32 := by decide
  obtain ⟨h1, h2, h3⟩ := key c h
  rw [scanStringFrom, if_neg h1, if_neg h2, if_neg h3]

/-- Inside a string, bytes that are neither control characters nor `"` nor `\` are taken
as they are. -/
theorem scanString_bytes (bs s : GoString)
    (h : ∀ b ∈ bs, (0x20 ≤ b.val && b.val != 0x22 && b.val != 0x5C) = true) :
    scanStringFrom .inString (bs ++ s) = Scan.prepend bs (scanStringFrom .inString s) := by
  induction bs with
  | nil => rfl
  | cons c cs ih =>
    show scanStringFrom .inString (c :: (cs ++ s)) = _
    rw [string_byte_step c _ (h c (List.mem_cons_self _ _)),
      ih (fun b hb => h b (List.mem_cons_of_mem _ hb)), Scan.prepend_cons]

/-- The bytes of the UTF-8 encoding of a character beyond ASCII are all beyond ASCII. -/
theorem utf8_high (r : Nat) (h : 0x80 ≤ r) (hr : r ≤ 0x10FFFF) : ∀ b ∈ utf8 r, 0x80 ≤ b.val := by
  intro b hb
  unfold utf8 at hb
  have h0 : ¬ r < 0x80 := by omega
  rw [if_neg h0] at hb
  by_cases h1 : r < 0x800
  · rw [if_pos h1] at hb
    simp only [List.mem_cons, List.mem_singleton, List.not_mem_nil, or_false] at hb
    rcases hb with rfl | rfl <;> rw [ofNat_val] <;> omega
  · rw [if_neg h1] at hb
    by_cases h2 : r < 0x10000
    · rw [if_pos h2] at hb
      simp only [List.mem_cons, List.mem_singleton, List.not_mem_nil, or_false] at hb
      rcases hb with rfl | rfl | rfl <;> rw [ofNat_val] <;> omega
    · rw [if_neg h2] at hb
      simp only [List.mem_cons, List.mem_singleton, List.not_mem_nil, or_false] at hb
      rcases hb with rfl | rfl | rfl | rfl <;> rw [ofNat_val] <;> omega

theorem scalar_le (r : Nat) (h : isScalarValue r = true) : r ≤ 0x10FFFF := by
  unfold isScalarValue at h
  simp only [Bool.or_eq_true, Bool.and_eq_true, decide_eq_true_eq] at h
  omega

theorem high_byte_plain : ∀ b : Byte, 0x80 ≤ b.val →
    (0x20 ≤ b.val && b.val != 0x22 && b.val != 0x5C) = true := by decide

theorem string_esc_step (c : Byte) (s : GoString) (h : isEscChar c = true) :
    scanStringFrom .inString ((0x5C : Byte) :: c :: s) =
      Scan.cons 0x5C (Scan.cons c (scanStringFrom .inString s)) := by
  have key : ∀ c : Byte, isEscChar c = true →
      (decide (c.val = 98) || decide (c.val = 102) || decide (c.val = 110) ||
        decide (c.val = 114) || decide (c.val = 116) || decide (c.val = 92) ||
        decide (c.val = 47) || decide (c.val = 34)) = true := by decide
  have h92 : ((0x5C : Byte) : Nat) = 92 := rfl
  rw [scanStringFrom, if_neg (by decide), if_pos h92, scanStringFrom, if_pos (key c h)]

theorem string_hex_step (left : Nat) (c : Byte) (s : GoString) (h : isHexDigit c = true) :
    scanStringFrom (.inStringEscU left) (c :: s) =
      Scan.cons c (scanStringFrom (if left ≤ 1 then .inString else .inStringEscU (left - 1)) s) := by
  rw [scanStringFrom, if_pos (by rw [ishex_eq_isHexDigit]; exact h)]

theorem string_unit_step (h : Hex4) (s : GoString) (hh : h.wellFormed = true) :
    scanStringFrom .inString (h.render ++ s) =
      Scan.prepend h.render (scanStringFrom .inString s) := by
  unfold Hex4.wellFormed at hh
  simp only [Bool.and_eq_true] at hh
  obtain ⟨⟨⟨h1, h2⟩, h3⟩, h4⟩ := hh
  have h92 : ((0x5C : Byte) : Nat) = 92 := rfl
  have h117 : ((0x75 : Byte) : Nat) = 117 := rfl
  show scanStringFrom .inString ((0x5C : Byte) :: (0x75 : Byte) :: h.d1 :: h.d2 :: h.d3 :: h.d4 :: s) = _
  rw [scanStringFrom, if_neg (by decide), if_pos h92, scanStringFrom, if_neg (by decide),
    if_pos h117, string_hex_step 4 _ _ h1]
  simp only [show ¬ (4 ≤ 1) from by decide, if_false, Nat.add_one_sub_one]
  rw [string_hex_step _ _ _ h2]
  simp only [show ¬ (4 - 1 ≤ 1) from by decide, if_false]
  rw [string_hex_step _ _ _ h3]
  simp only [show ¬ (4 - 1 - 1 ≤ 1) from by decide, if_false]
  rw [string_hex_step _ _ _ h4]
  simp only [show (4 - 1 - 1 - 1 ≤ 1) from by decide, if_true]
  rfl

/-- Inside a string, the scanner takes one piece of the grammar and goes on behind it. -/
theorem scanString_item (i : StrItem) (s : GoString) (h : i.wellFormed = true) :
    scanStringFrom .inString (i.render ++ s) =
      Scan.prepend i.render (scanStringFrom .inString s) := by
  cases i with
  | byte c => exact string_byte_step c s h
  | rune r =>
    simp only [StrItem.wellFormed, Bool.and_eq_true, decide_eq_true_eq] at h
    exact scanString_bytes _ _
      (fun b hb => high_byte_plain b (utf8_high r h.1 (scalar_le r h.2) b hb))
  | esc c => exact string_esc_step c s h
  | unit u => exact string_unit_step u s h
  | pair hi lo =>
    simp only [StrItem.wellFormed, Bool.and_eq_true] at h
    show scanStringFrom .inString ((hi.render ++ lo.render) ++ s) = _
    rw [List.append_assoc, string_unit_step hi _ h.1.1.1, string_unit_step lo _ h.1.1.2]
    show _ = Scan.prepend (hi.render ++ lo.render) _
    rw [Scan.prepend_append]

/-- The scanner reads the pieces of a string up to the closing quote. -/
theorem scanString_items (items : List StrItem) (rest : GoString)
    (h : items.all StrItem.wellFormed = true) :
    scanString (renderItems items ++ (0x22 : Byte) :: rest) = .ok (renderItems items) rest := by
  unfold scanString
  induction items with
  | nil =>
    show scanStringFrom .inString ((0x22 : Byte) :: rest) = _
    rw [scanStringFrom]
    exact if_pos rfl
  | cons i is ih =>
    simp only [List.all_cons, Bool.and_eq_true] at h
    show scanStringFrom .inString ((i.render ++ renderItems is) ++ (0x22 : Byte) :: rest) = _
    rw [List.append_assoc, scanString_item i _ h.1, ih h.2, Scan.prepend_ok]
    rfl

/-! ## What `unquote` makes of a string of the grammar -/

theorem encodeRune_eq_utf8 (r : Nat) (h : isScalarValue r = true) : encodeRune r = utf8 r := by
  unfold isScalarValue at h
  simp only [Bool.or_eq_true, Bool.and_eq_true, decide_eq_true_eq] at h
  unfold encodeRune utf8
  by_cases h1 : r ≤ 0x7F
  · rw [if_pos h1, if_pos (show r < 0x80 from by omega)]
  · rw [if_neg h1, if_neg (show ¬ r < 0x80 from by omega)]
    by_cases h2 : r ≤ 0x7FF
    · rw [if_pos h2, if_pos (show r < 0x800 from by omega)]
    · rw [if_neg h2, if_neg (show ¬ r < 0x800 from by omega)]
      have h3 : ¬ ((decide (r > 0x10FFFF) || (decide (0xD800 ≤ r) && decide (r ≤ 0xDFFF))) = true) := by
        simp only [Bool.or_eq_true, Bool.and_eq_true, decide_eq_true_eq]
        omega
      rw [if_neg h3]
      by_cases h4 : r ≤ 0xFFFF
      · rw [if_pos h4, if_pos (show r < 0x10000 from by omega)]
      · rw [if_neg h4, if_neg (show ¬ r < 0x10000 from by omega)]

theorem utf8_ne_nil (r : Nat) : utf8 r ≠ [] := by
  unfold utf8
  repeat' split
  all_goals simp

theorem firstInfo_two (p0 : Nat) (h1 : 0xC2 ≤ p0) (h2 : p0 ≤ 0xDF) :
    firstInfo p0 = some (2, 0x80, 0xBF) := by
  unfold firstInfo
  rw [if_pos (by simp only [Bool.and_eq_true, decide_eq_true_eq]; omega)]

theorem firstInfo_three (p0 : Nat) (h1 : 0xE0 ≤ p0) (h2 : p0 ≤ 0xEF) :
    firstInfo p0 =
      some (3, if p0 = 0xE0 then 0xA0 else 0x80, if p0 = 0xED then 0x9F else 0xBF) := by
  unfold firstInfo
  rw [if_neg (by simp only [Bool.and_eq_true, decide_eq_true_eq]; omega)]
  by_cases a : p0 = 0xE0
  · rw [if_pos a, if_pos a, if_neg (by omega)]
  · rw [if_neg a, if_neg a]
    by_cases b : p0 = 0xED
    · rw [if_pos b, if_pos b]
    · rw [if_neg b, if_neg b,
        if_pos (by simp only [Bool.and_eq_true, decide_eq_true_eq]; omega)]

theorem firstInfo_four (p0 : Nat) (h1 : 0xF0 ≤ p0) (h2 : p0 ≤ 0xF4) :
    firstInfo p0 =
      some (4, if p0 = 0xF0 then 0x90 else 0x80, if p0 = 0xF4 then 0x8F else 0xBF) := by
  unfold firstInfo
  rw [if_neg (by simp only [Bool.and_eq_true, decide_eq_true_eq]; omega),
    if_neg (by omega), if_neg (by omega),
    if_neg (by simp only [Bool.and_eq_true, decide_eq_true_eq]; omega)]
  by_cases a : p0 = 0xF0
  · rw [if_pos a, if_pos a, if_neg (by omega)]
  · rw [if_neg a, if_neg a]
    by_cases b : p0 = 0xF4
    · rw [if_pos b, if_pos b,
        if_neg (by simp only [Bool.and_eq_true, decide_eq_true_eq]; omega)]
    · rw [if_neg b, if_neg b,
        if_pos (by simp only [Bool.and_eq_true, decide_eq_true_eq]; omega)]

/-- The decoder of UTF-8 reads back a character beyond ASCII from its encoding. -/
theorem decodeRune_utf8 (r : Nat) (h80 : 0x80 ≤ r) (hs : isScalarValue r = true)
    (more : GoString) : decodeRune (utf8 r ++ more) = (r, (utf8 r).length) := by
  unfold isScalarValue at hs
  simp only [Bool.or_eq_true, Bool.and_eq_true, decide_eq_true_eq] at hs
  unfold utf8
  rw [if_neg (show ¬ r < 0x80 from by omega)]
  by_cases h1 : r < 0x800
  · rw [if_pos h1]
    have e0 : ((Fin.ofNat (0xC0 + r / 0x40) : Byte) : Nat) = 0xC0 + r / 0x40 := by
      rw [ofNat_val]; omega
    have e1 : ((Fin.ofNat (0x80 + r % 0x40) : Byte) : Nat) = 0x80 + r % 0x40 := by
      rw [ofNat_val]; omega
    simp only [List.cons_append, List.nil_append, decodeRune, e0, e1,
      firstInfo_two (0xC0 + r / 0x40) (by omega) (by omega), List.length_cons]
    rw [if_neg (by omega), if_neg (by simp only [Bool.or_eq_true, decide_eq_true_eq]; omega),
      if_pos (by omega)]
    simp only [List.length_nil, Prod.mk.injEq, and_true]
    omega
  · rw [if_neg h1]
    by_cases h2 : r < 0x10000
    · rw [if_pos h2]
      have e0 : ((Fin.ofNat (0xE0 + r / 0x1000) : Byte) : Nat) = 0xE0 + r / 0x1000 := by
        rw [ofNat_val]; omega
      have e1 : ((Fin.ofNat (0x80 + r / 0x40 % 0x40) : Byte) : Nat) = 0x80 + r / 0x40 % 0x40 := by
        rw [ofNat_val]; omega
      have e2 : ((Fin.ofNat (0x80 + r % 0x40) : Byte) : Nat) = 0x80 + r % 0x40 := by
        rw [ofNat_val]; omega
      simp only [List.cons_append, List.nil_append, decodeRune, e0, e1, e2,
        firstInfo_three (0xE0 + r / 0x1000) (by omega) (by omega), List.length_cons, isCont]
      rw [if_neg (by omega)]
      have hb1 : ¬ ((decide (0x80 + r / 0x40 % 0x40 < if 0xE0 + r / 0x1000 = 0xE0 then 0xA0 else 0x80) ||
          decide ((if 0xE0 + r / 0x1000 = 0xED then 0x9F else 0xBF) < 0x80 + r / 0x40 % 0x40)) = true) := by
        simp only [Bool.or_eq_true, decide_eq_true_eq]
        split <;> split <;> omega
      rw [if_neg hb1, if_neg (by omega)]
      rw [if_neg (by simp only [Bool.not_eq_true', Bool.and_eq_false_imp, decide_eq_true_eq,
        decide_eq_false_iff_not]; omega), if_pos (by omega)]
      simp only [List.length_nil, Prod.mk.injEq, and_true]
      omega
    · rw [if_neg h2]
      have e0 : ((Fin.ofNat (0xF0 + r / 0x40000) : Byte) : Nat) = 0xF0 + r / 0x40000 := by
        rw [ofNat_val]; omega
      have e1 : ((Fin.ofNat (0x80 + r / 0x1000 % 0x40) : Byte) : Nat) =
          0x80 + r / 0x1000 % 0x40 := by
        rw [ofNat_val]; omega
      have e2 : ((Fin.ofNat (0x80 + r / 0x40 % 0x40) : Byte) : Nat) = 0x80 + r / 0x40 % 0x40 := by
        rw [ofNat_val]; omega
      have e3 : ((Fin.ofNat (0x80 + r % 0x40) : Byte) : Nat) = 0x80 + r % 0x40 := by
        rw [ofNat_val]; omega
      simp only [List.cons_append, List.nil_append, decodeRune, e0, e1, e2, e3,
        firstInfo_four (0xF0 + r / 0x40000) (by omega) (by omega), List.length_cons, isCont]
      rw [if_neg (by omega)]
      have hb1 : ¬ ((decide (0x80 + r / 0x1000 % 0x40 <
            if 0xF0 + r / 0x40000 = 0xF0 then 0x90 else 0x80) ||
          decide ((if 0xF0 + r / 0x40000 = 0xF4 then 0x8F else 0xBF) <
            0x80 + r / 0x1000 % 0x40)) = true) := by
        simp only [Bool.or_eq_true, decide_eq_true_eq]
        split <;> split <;> omega
      rw [if_neg hb1, if_neg (by omega)]
      rw [if_neg (by simp only [Bool.not_eq_true', Bool.and_eq_false_imp, decide_eq_true_eq,
        decide_eq_false_iff_not]; omega), if_neg (by omega)]
      rw [if_neg (by simp only [Bool.not_eq_true', Bool.and_eq_false_imp, decide_eq_true_eq,
        decide_eq_false_iff_not]; omega)]
      simp only [List.length_nil, Prod.mk.injEq, and_true]
      omega

theorem unquote_byte_step (c : Byte) (s : GoString) (fuel : Nat)
    (h : (0x20 ≤ c.val && c.val < 0x80 && c.val != 0x22 && c.val != 0x5C) = true) :
    unquoteLoop (fuel + 1) (c :: s) = c :: unquoteLoop fuel s := by
  have key : ∀ c : Byte, (0x20 ≤ c.val && c.val < 0x80 && c.val != 0x22 && c.val != 0x5C) = true →
      c.val ≠ 92 ∧ ¬ ((decide (c.val = 34) || decide (c.val < 32)) = true) ∧ c.val < 128 := by
    decide
  obtain ⟨h1, h2, h3⟩ := key c h
  rw [unquoteLoop.eq_def]
  simp only [if_neg h1, if_neg h2, if_pos h3]

theorem unquote_rune_step (r : Nat) (s : GoString) (fuel : Nat) (h80 : 0x80 ≤ r)
    (hs : isScalarValue r = true) :
    unquoteLoop (fuel + 1) (utf8 r ++ s) = utf8 r ++ unquoteLoop fuel s := by
  have key : ∀ c : Byte, 0x80 ≤ c.val →
      c.val ≠ 92 ∧ ¬ ((decide (c.val = 34) || decide (c.val < 32)) = true) ∧ ¬ c.val < 128 := by
    decide
  have hdec := decodeRune_utf8 r h80 hs s
  cases hu : utf8 r with
  | nil => exact absurd hu (utf8_ne_nil r)
  | cons c tl =>
    obtain ⟨h1, h2, h3⟩ := key c (utf8_high r h80 (scalar_le r hs) c (hu ▸ List.mem_cons_self _ _))
    rw [hu] at hdec
    show unquoteLoop (fuel + 1) (c :: (tl ++ s)) = _
    rw [unquoteLoop.eq_def]
    simp only [if_neg h1, if_neg h2, if_neg h3]
    have hd : decodeRune (c :: (tl ++ s)) = (r, (c :: tl).length) := hdec
    simp only [hd, encodeRune_eq_utf8 r hs, hu]
    have : List.drop (c :: tl).length (c :: (tl ++ s)) = s :=
      List.drop_left (c :: tl) s
    rw [this]

theorem unquote_esc_step (c : Byte) (s : GoString) (fuel : Nat) (h : isEscChar c = true) :
    unquoteLoop (fuel + 1) ((0x5C : Byte) :: c :: s) = escValue c :: unquoteLoop fuel s := by
  have key : ∀ c : Byte, isEscChar c = true →
      c = 0x22 ∨ c = 0x5C ∨ c = 0x2F ∨ c = 0x62 ∨ c = 0x66 ∨ c = 0x6E ∨ c = 0x72 ∨ c = 0x74 := by
    decide
  rcases key c h with rfl | rfl | rfl | rfl | rfl | rfl | rfl | rfl <;> rfl

theorem getu4_render (h : Hex4) (s : GoString) (hh : h.wellFormed = true) :
    getu4 (h.render ++ s) = some h.value := by
  unfold Hex4.wellFormed at hh
  simp only [Bool.and_eq_true] at hh
  obtain ⟨⟨⟨h1, h2⟩, h3⟩, h4⟩ := hh
  show getu4 ((0x5C : Byte) :: (0x75 : Byte) :: h.d1 :: h.d2 :: h.d3 :: h.d4 :: s) = _
  unfold getu4
  simp only [ishex_eq_isHexDigit, h1, h2, h3, h4, unhex_eq_hexValue _ h1, unhex_eq_hexValue _ h2,
    unhex_eq_hexValue _ h3, unhex_eq_hexValue _ h4, Hex4.value]
  have h92 : ((0x5C : Byte) : Nat) = 92 := rfl
  have h117 : ((0x75 : Byte) : Nat) = 117 := rfl
  simp only [h92, h117, decide_True, Bool.and_self, if_true, Option.some.injEq]
  omega

theorem unquote_unit_step (h : Hex4) (s : GoString) (fuel : Nat) (hh : h.wellFormed = true)
    (hs : isScalarValue h.value = true) :
    unquoteLoop (fuel + 1) (h.render ++ s) = utf8 h.value ++ unquoteLoop fuel s := by
  have hg := getu4_render h s hh
  have hs2 := hs
  unfold isScalarValue at hs2
  simp only [Bool.or_eq_true, Bool.and_eq_true, decide_eq_true_eq] at hs2
  have hv : h.value < 0x10000 := by
    have bound : ∀ c : Byte, hexValue c ≤ 15 ∨ isHexDigit c = false := by decide
    unfold Hex4.wellFormed at hh
    simp only [Bool.and_eq_true] at hh
    obtain ⟨⟨⟨h1, h2⟩, h3⟩, h4⟩ := hh
    have b1 := (bound h.d1).resolve_right (by simp [h1])
    have b2 := (bound h.d2).resolve_right (by simp [h2])
    have b3 := (bound h.d3).resolve_right (by simp [h3])
    have b4 := (bound h.d4).resolve_right (by simp [h4])
    unfold Hex4.value
    omega
  have hsur : ¬ ((decide (0xD800 ≤ h.value) && decide (h.value < 0xE000)) = true) := by
    simp only [Bool.and_eq_true, decide_eq_true_eq]
    omega
  have h92 : ((0x5C : Byte) : Nat) = 92 := rfl
  have h117 : ((0x75 : Byte) : Nat) = 117 := rfl
  have hg2 : getu4 ((0x5C : Byte) :: (0x75 : Byte) :: h.d1 :: h.d2 :: h.d3 :: h.d4 :: s) =
      some h.value := hg
  show unquoteLoop (fuel + 1)
    ((0x5C : Byte) :: (0x75 : Byte) :: h.d1 :: h.d2 :: h.d3 :: h.d4 :: s) = _
  rw [unquoteLoop, if_pos h92]
  simp only [h117, hg2, List.drop_succ_cons, List.drop_zero]
  rw [if_pos trivial, if_neg hsur, encodeRune_eq_utf8 _ hs]
  rw [if_neg (by decide), if_neg (by decide), if_neg (by decide), if_neg (by decide),
    if_neg (by decide), if_neg (by decide)]

theorem unquote_pair_step (hi lo : Hex4) (s : GoString) (fuel : Nat)
    (hhi : hi.wellFormed = true) (hlo : lo.wellFormed = true)
    (h1 : isHighSurrogate hi.value = true) (h2 : isLowSurrogate lo.value = true) :
    unquoteLoop (fuel + 1) ((hi.render ++ lo.render) ++ s) =
      utf8 (0x10000 + (hi.value - 0xD800) * 0x400 + (lo.value - 0xDC00)) ++
        unquoteLoop fuel s := by
  unfold isHighSurrogate at h1
  unfold isLowSurrogate at h2
  simp only [Bool.and_eq_true, decide_eq_true_eq] at h1 h2
  have hg1 : getu4 ((0x5C : Byte) :: (0x75 : Byte) :: hi.d1 :: hi.d2 :: hi.d3 :: hi.d4 ::
      (lo.render ++ s)) = some hi.value := getu4_render hi (lo.render ++ s) hhi
  have hg2 : getu4 (lo.render ++ s) = some lo.value := getu4_render lo s hlo
  have hsur : (decide (0xD800 ≤ hi.value) && decide (hi.value < 0xE000)) = true := by
    simp only [Bool.and_eq_true, decide_eq_true_eq]
    omega
  have hdec : utf16DecodeRune hi.value (some lo.value) =
      0x10000 + (hi.value - 0xD800) * 0x400 + (lo.value - 0xDC00) := by
    unfold utf16DecodeRune
    simp only
    rw [if_pos (by simp only [Bool.and_eq_true, decide_eq_true_eq]; omega)]
    omega
  have hne : utf16DecodeRune hi.value (some lo.value) ≠ 0xFFFD := by
    rw [hdec]; omega
  have hsc : isScalarValue (0x10000 + (hi.value - 0xD800) * 0x400 + (lo.value - 0xDC00)) = true := by
    unfold isScalarValue
    simp only [Bool.or_eq_true, Bool.and_eq_true, decide_eq_true_eq]
    omega
  have h92 : ((0x5C : Byte) : Nat) = 92 := rfl
  have h117 : ((0x75 : Byte) : Nat) = 117 := rfl
  have hdrop : List.drop 6 (lo.render ++ s) = s := List.drop_left lo.render s
  show unquoteLoop (fuel + 1)
    ((0x5C : Byte) :: (0x75 : Byte) :: hi.d1 :: hi.d2 :: hi.d3 :: hi.d4 :: (lo.render ++ s)) = _
  rw [unquoteLoop, if_pos h92]
  simp only [h117, hg1, List.drop_succ_cons, List.drop_zero]
  rw [if_pos trivial, if_pos hsur, hg2, if_pos hne, hdec, hdrop, encodeRune_eq_utf8 _ hsc]
  rw [if_neg (by decide), if_neg (by decide), if_neg (by decide), if_neg (by decide),
    if_neg (by decide), if_neg (by decide)]

/-- One step of `unquote` on a piece of a string of Unicode characters gives the
characters the piece stands for. -/
theorem unquote_item_step (i : StrItem) (s : GoString) (fuel : Nat) (h : i.strict = true) :
    unquoteLoop (fuel + 1) (i.render ++ s) = i.denote ++ unquoteLoop fuel s := by
  cases i with
  | byte c => exact unquote_byte_step c s fuel h
  | rune r =>
    simp only [StrItem.strict, Bool.and_eq_true, decide_eq_true_eq] at h
    exact unquote_rune_step r s fuel h.1 h.2
  | esc c => exact unquote_esc_step c s fuel h
  | unit u =>
    simp only [StrItem.strict, Bool.and_eq_true] at h
    exact unquote_unit_step u s fuel h.1 h.2
  | pair hi lo =>
    simp only [StrItem.strict, Bool.and_eq_true] at h
    exact unquote_pair_step hi lo s fuel h.1.1.1 h.1.1.2 h.1.2 h.2

theorem item_render_ne_nil (i : StrItem) : i.render ≠ [] := by
  cases i with
  | byte c => simp [StrItem.render]
  | rune r => exact utf8_ne_nil r
  | esc c => simp [StrItem.render]
  | unit u => simp [StrItem.render, Hex4.render]
  | pair hi lo => simp [StrItem.render, Hex4.render]

theorem unquoteLoop_items (items : List StrItem) (h : items.all StrItem.strict = true) :
    ∀ fuel, (renderItems items).length < fuel →
      unquoteLoop fuel (renderItems items) = denoteItems items := by
  induction items with
  | nil =>
    intro fuel hf
    cases fuel with
    | zero => rfl
    | succ f => rfl
  | cons i is ih =>
    intro fuel hf
    simp only [List.all_cons, Bool.and_eq_true] at h
    obtain ⟨f, rfl⟩ : ∃ f, fuel = f + 1 := ⟨fuel - 1, by omega⟩
    have hlen : 0 < i.render.length := List.length_pos.2 (item_render_ne_nil i)
    simp only [renderItems, List.length_append] at hf
    show unquoteLoop (f + 1) (i.render ++ renderItems is) = i.denote ++ denoteItems is
    rw [unquote_item_step i _ f h.1, ih h.2 f (by omega)]

/-- For a string of Unicode characters `unquote` gives the text the string stands for. -/
theorem unquote_items (items : List StrItem) (h : items.all StrItem.strict = true) :
    unquote (renderItems items) = denoteItems items :=
  unquoteLoop_items items h _ (Nat.lt_succ_self _)

/-! ## What the scanner takes for a string is a string of the grammar -/

theorem string_hex_sound (left : Nat) (t raw rest : GoString)
    (h : scanStringFrom (.inStringEscU left) t = .ok raw rest) :
    ∃ d t1 raw1, t = d :: t1 ∧ isHexDigit d = true ∧ raw = d :: raw1 ∧
      scanStringFrom (if left ≤ 1 then .inString else .inStringEscU (left - 1)) t1 =
        .ok raw1 rest := by
  cases t with
  | nil => rw [scanStringFrom] at h; cases h
  | cons d t1 =>
    rw [scanStringFrom] at h
    split at h
    · rename_i hd
      obtain ⟨raw1, h1, h2⟩ := Scan.cons_ok _ _ _ _ h
      exact ⟨d, t1, raw1, rfl, by rw [← ishex_eq_isHexDigit]; exact hd, h2, h1⟩
    · cases h

theorem string_unit_sound (t raw rest : GoString)
    (h : scanStringFrom (.inStringEscU 4) t = .ok raw rest) :
    ∃ (u : Hex4) (t1 raw1 : GoString), u.wellFormed = true ∧
      t = u.d1 :: u.d2 :: u.d3 :: u.d4 :: t1 ∧ raw = u.d1 :: u.d2 :: u.d3 :: u.d4 :: raw1 ∧
      scanStringFrom .inString t1 = .ok raw1 rest := by
  obtain ⟨d1, t1, r1, e1, x1, f1, h1⟩ := string_hex_sound 4 t raw rest h
  simp only [show ¬ (4 ≤ 1) from by decide, if_false, Nat.add_one_sub_one] at h1
  obtain ⟨d2, t2, r2, e2, x2, f2, h2⟩ := string_hex_sound _ t1 r1 rest h1
  simp only [show ¬ (4 - 1 ≤ 1) from by decide, if_false] at h2
  obtain ⟨d3, t3, r3, e3, x3, f3, h3⟩ := string_hex_sound _ t2 r2 rest h2
  simp only [show ¬ (4 - 1 - 1 ≤ 1) from by decide, if_false] at h3
  obtain ⟨d4, t4, r4, e4, x4, f4, h4⟩ := string_hex_sound _ t3 r3 rest h3
  simp only [show (4 - 1 - 1 - 1 ≤ 1) from by decide, if_true] at h4
  refine ⟨⟨d1, d2, d3, d4⟩, t4, r4, ?_, ?_, ?_, h4⟩
  · simp [Hex4.wellFormed, x1, x2, x3, x4]
  · rw [e1, e2, e3, e4]
  · rw [f1, f2, f3, f4]

theorem esc_char_of_scan : ∀ c : Byte,
    (decide (c.val = 98) || decide (c.val = 102) || decide (c.val = 110) ||
      decide (c.val = 114) || decide (c.val = 116) || decide (c.val = 92) ||
      decide (c.val = 47) || decide (c.val = 34)) = true → isEscChar c = true := by
  decide

theorem plain_of_scan : ∀ c : Byte, c.val ≠ 34 → c.val ≠ 92 → ¬ c.val < 32 →
    (0x20 ≤ c.val && c.val != 0x22 && c.val != 0x5C) = true := by
  decide

/-- Whatever the scanner takes for the inside of a string is a sequence of pieces of the
grammar, followed by the closing quote. -/
theorem scanString_sound_aux : ∀ (n : Nat) (s raw rest : GoString), s.length ≤ n →
    scanStringFrom .inString s = .ok raw rest →
    ∃ items, items.all StrItem.wellFormed = true ∧ raw = renderItems items ∧
      s = raw ++ (0x22 : Byte) :: rest := by
  intro n
  induction n with
  | zero =>
    intro s raw rest hn h
    have : s = [] := List.length_eq_zero.1 (Nat.le_zero.1 hn)
    subst this
    rw [scanStringFrom] at h
    cases h
  | succ n ih =>
    intro s raw rest hn h
    cases s with
    | nil => rw [scanStringFrom] at h; cases h
    | cons c cs =>
      simp only [List.length_cons] at hn
      rw [scanStringFrom] at h
      by_cases h34 : c.val = 34
      · rw [if_pos h34] at h
        cases h
        have hc : c = (0x22 : Byte) := Fin.ext h34
        exact ⟨[], rfl, rfl, by rw [hc]; rfl⟩
      · rw [if_neg h34] at h
        by_cases h92 : c.val = 92
        · rw [if_pos h92] at h
          have hc : c = (0x5C : Byte) := Fin.ext h92
          obtain ⟨raw1, hs1, hr1⟩ := Scan.cons_ok _ _ _ _ h
          cases cs with
          | nil => rw [scanStringFrom] at hs1; cases hs1
          | cons e cs1 =>
            simp only [List.length_cons] at hn
            rw [scanStringFrom] at hs1
            split at hs1
            · rename_i hesc
              obtain ⟨raw2, hs2, hr2⟩ := Scan.cons_ok _ _ _ _ hs1
              obtain ⟨items, hv, hraw, hs⟩ := ih cs1 raw2 rest (by omega) hs2
              refine ⟨.esc e :: items, ?_, ?_, ?_⟩
              · simp only [List.all_cons, Bool.and_eq_true]
                exact ⟨esc_char_of_scan e hesc, hv⟩
              · rw [hr1, hr2, hraw, hc]; rfl
              · rw [hr1, hr2, hc, hs]; rfl
            · split at hs1
              · rename_i hu
                have he : e = (0x75 : Byte) := Fin.ext hu
                obtain ⟨raw2, hs2, hr2⟩ := Scan.cons_ok _ _ _ _ hs1
                obtain ⟨u, t1, raw3, hu1, ht, hr3, hs3⟩ := string_unit_sound cs1 raw2 rest hs2
                have hlen : t1.length ≤ n := by
                  rw [ht] at hn
                  simp only [List.length_cons] at hn
                  omega
                obtain ⟨items, hv, hraw, hs⟩ := ih t1 raw3 rest hlen hs3
                refine ⟨.unit u :: items, ?_, ?_, ?_⟩
                · simp only [List.all_cons, Bool.and_eq_true]
                  exact ⟨hu1, hv⟩
                · rw [hr1, hr2, hr3, hraw, hc, he]; rfl
                · rw [hr1, hr2, hr3, hc, he, ht, hs]; rfl
              · cases hs1
        · rw [if_neg h92] at h
          by_cases h32 : c.val < 32
          · rw [if_pos h32] at h; cases h
          · rw [if_neg h32] at h
            obtain ⟨raw1, hs1, hr1⟩ := Scan.cons_ok _ _ _ _ h
            obtain ⟨items, hv, hraw, hs⟩ := ih cs raw1 rest (by omega) hs1
            refine ⟨.byte c :: items, ?_, ?_, ?_⟩
            · simp only [List.all_cons, Bool.and_eq_true]
              exact ⟨plain_of_scan c h34 h92 h32, hv⟩
            · rw [hr1, hraw]; rfl
            · rw [hr1, hs]; rfl

theorem scanString_sound (s raw rest : GoString) (h : scanString s = .ok raw rest) :
    ∃ items, items.all StrItem.wellFormed = true ∧ raw = renderItems items ∧
      s = raw ++ (0x22 : Byte) :: rest :=
  scanString_sound_aux s.length s raw rest (Nat.le_refl _) h

/-! ## The scanner and the grammar of numbers -/

theorem dec_digit_facts : ∀ c : Byte, isDecDigit c = true →
    isDigit c = true ∧ c.val ≠ 46 ∧ c.val ≠ 45 ∧
      ¬ ((decide (c.val = 101) || decide (c.val = 69)) = true) ∧
      ¬ ((decide (c.val = 43) || decide (c.val = 45)) = true) := by
  decide

theorem exp_letter_facts : ∀ c : Byte, (decide (c.val = 0x65) || decide (c.val = 0x45)) = true →
    ¬ (isDigit c = true) ∧ c.val ≠ 46 ∧ (decide (c.val = 101) || decide (c.val = 69)) = true := by
  decide

theorem stop_facts : ∀ c : Byte,
    (!(isDecDigit c || decide (c.val = 0x2E) || decide (c.val = 0x65) || decide (c.val = 0x45))) = true →
    ¬ (isDigit c = true) ∧ c.val ≠ 46 ∧
      ¬ ((decide (c.val = 101) || decide (c.val = 69)) = true) := by
  decide

/-- A number is complete where a byte follows that does not continue it, and at the end
of the data. -/
theorem number_stop (rest : GoString) (h : stopsNumber rest = true) :
    scanNumberFrom .zero rest = .ok [] rest ∧ scanNumberFrom .digits rest = .ok [] rest ∧
      scanNumberFrom .dot0 rest = .ok [] rest ∧ scanNumberFrom .e0 rest = .ok [] rest := by
  cases rest with
  | nil => exact ⟨rfl, rfl, rfl, rfl⟩
  | cons c cs =>
    obtain ⟨h1, h2, h3⟩ := stop_facts c h
    refine ⟨?_, ?_, ?_, ?_⟩
    · rw [scanNumberFrom, if_neg h2, if_neg h3]
    · rw [scanNumberFrom, if_neg h1, if_neg h2, if_neg h3]
    · rw [scanNumberFrom, if_neg h1, if_neg h3]
    · rw [scanNumberFrom, if_neg h1]

theorem run_e0 (ds rest : GoString) (hd : ds.all isDecDigit = true)
    (hs : stopsNumber rest = true) : scanNumberFrom .e0 (ds ++ rest) = .ok ds rest := by
  induction ds with
  | nil => exact (number_stop rest hs).2.2.2
  | cons c cs ih =>
    simp only [List.all_cons, Bool.and_eq_true] at hd
    show scanNumberFrom .e0 (c :: (cs ++ rest)) = _
    rw [scanNumberFrom, if_pos (dec_digit_facts c hd.1).1, ih hd.2]
    rfl

theorem run_exp_digits (ds rest : GoString) (hd : isDigits ds = true)
    (hs : stopsNumber rest = true) :
    scanNumberFrom .e (ds ++ rest) = .ok ds rest ∧
      scanNumberFrom .eSign (ds ++ rest) = .ok ds rest := by
  cases ds with
  | nil => simp [isDigits] at hd
  | cons c cs =>
    simp only [isDigits, List.all_cons, Bool.and_eq_true] at hd
    obtain ⟨f1, _, _, _, f5⟩ := dec_digit_facts c hd.2.1
    constructor
    · show scanNumberFrom .e (c :: (cs ++ rest)) = _
      rw [scanNumberFrom, if_neg f5, if_pos f1, run_e0 cs rest hd.2.2 hs]
      rfl
    · show scanNumberFrom .eSign (c :: (cs ++ rest)) = _
      rw [scanNumberFrom, if_pos f1, run_e0 cs rest hd.2.2 hs]
      rfl

theorem run_exp_body (l rest : GoString) (e : Byte) (hx : isExpPart (e :: l) = true)
    (hs : stopsNumber rest = true) : scanNumberFrom .e (l ++ rest) = .ok l rest := by
  cases l with
  | nil => simp [isExpPart] at hx
  | cons sgn ds =>
    simp only [isExpPart, Bool.and_eq_true] at hx
    by_cases hsg : (decide (sgn.val = 0x2B) || decide (sgn.val = 0x2D)) = true
    · rw [if_pos hsg] at hx
      show scanNumberFrom .e (sgn :: (ds ++ rest)) = _
      rw [scanNumberFrom, if_pos hsg, (run_exp_digits ds rest hx.2 hs).2]
      rfl
    · rw [if_neg hsg] at hx
      exact (run_exp_digits (sgn :: ds) rest hx.2 hs).1

/-- After the integer part, after a fraction, the scanner takes an exponent of the
grammar, or none. -/
theorem run_exp (x rest : GoString) (hx : isExpPart x = true) (hs : stopsNumber rest = true) :
    scanNumberFrom .zero (x ++ rest) = .ok x rest ∧
      scanNumberFrom .digits (x ++ rest) = .ok x rest ∧
      scanNumberFrom .dot0 (x ++ rest) = .ok x rest := by
  cases x with
  | nil =>
    obtain ⟨a, b, c, _⟩ := number_stop rest hs
    exact ⟨a, b, c⟩
  | cons e l =>
    have hx2 := hx
    simp only [isExpPart, Bool.and_eq_true] at hx2
    obtain ⟨f1, f2, f3⟩ := exp_letter_facts e hx2.1
    have hbody := run_exp_body l rest e hx hs
    refine ⟨?_, ?_, ?_⟩
    · show scanNumberFrom .zero (e :: (l ++ rest)) = _
      rw [scanNumberFrom, if_neg f2, if_pos f3, hbody]
      rfl
    · show scanNumberFrom .digits (e :: (l ++ rest)) = _
      rw [scanNumberFrom, if_neg f1, if_neg f2, if_pos f3, hbody]
      rfl
    · show scanNumberFrom .dot0 (e :: (l ++ rest)) = _
      rw [scanNumberFrom, if_neg f1, if_pos f3, hbody]
      rfl

theorem run_dot0 (ds x rest : GoString) (hd : ds.all isDecDigit = true)
    (hx : isExpPart x = true) (hs : stopsNumber rest = true) :
    scanNumberFrom .dot0 (ds ++ (x ++ rest)) = .ok (ds ++ x) rest := by
  induction ds with
  | nil => exact (run_exp x rest hx hs).2.2
  | cons c cs ih =>
    simp only [List.all_cons, Bool.and_eq_true] at hd
    show scanNumberFrom .dot0 (c :: (cs ++ (x ++ rest))) = _
    rw [scanNumberFrom, if_pos (dec_digit_facts c hd.1).1, ih hd.2]
    rfl

theorem run_frac (f x rest : GoString) (hf : isFracPart f = true) (hx : isExpPart x = true)
    (hs : stopsNumber rest = true) :
    scanNumberFrom .zero (f ++ (x ++ rest)) = .ok (f ++ x) rest ∧
      scanNumberFrom .digits (f ++ (x ++ rest)) = .ok (f ++ x) rest := by
  cases f with
  | nil =>
    obtain ⟨a, b, _⟩ := run_exp x rest hx hs
    exact ⟨a, b⟩
  | cons p ds =>
    simp only [isFracPart, Bool.and_eq_true, decide_eq_true_eq] at hf
    obtain ⟨hp, hds⟩ := hf
    have hp46 : p.val = 46 := hp
    have hpd : ¬ (isDigit p = true) := by
      have : ∀ c : Byte, c.val = 46 → ¬ (isDigit c = true) := by decide
      exact this p hp46
    cases ds with
    | nil => simp [isDigits] at hds
    | cons c cs =>
      simp only [isDigits, List.all_cons, Bool.and_eq_true] at hds
      have hdot : scanNumberFrom .dot (c :: (cs ++ (x ++ rest))) = .ok (c :: (cs ++ x)) rest := by
        rw [scanNumberFrom, if_pos (dec_digit_facts c hds.2.1).1, run_dot0 cs x rest hds.2.2 hx hs]
        rfl
      constructor
      · show scanNumberFrom .zero (p :: c :: (cs ++ (x ++ rest))) = _
        rw [scanNumberFrom, if_pos hp46, hdot]
        rfl
      · show scanNumberFrom .digits (p :: c :: (cs ++ (x ++ rest))) = _
        rw [scanNumberFrom, if_neg hpd, if_pos hp46, hdot]
        rfl

theorem run_digits (ds f x rest : GoString) (hd : ds.all isDecDigit = true)
    (hf : isFracPart f = true) (hx : isExpPart x = true) (hs : stopsNumber rest = true) :
    scanNumberFrom .digits (ds ++ (f ++ (x ++ rest))) = .ok (ds ++ (f ++ x)) rest := by
  induction ds with
  | nil => exact (run_frac f x rest hf hx hs).2
  | cons c cs ih =>
    simp only [List.all_cons, Bool.and_eq_true] at hd
    show scanNumberFrom .digits (c :: (cs ++ (f ++ (x ++ rest)))) = _
    rw [scanNumberFrom, if_pos (dec_digit_facts c hd.1).1, ih hd.2]
    rfl

theorem int_part_cases (i : GoString) (h : isIntPart i = true) :
    (∃ c, i = [c] ∧ c.val = 48) ∨
      (∃ c cs, i = c :: cs ∧ c.val ≠ 48 ∧ isDecDigit c = true ∧ cs.all isDecDigit = true) := by
  cases i with
  | nil => simp [isIntPart] at h
  | cons c cs =>
    simp only [isIntPart] at h
    by_cases hc : c.val = 0x30
    · rw [if_pos hc] at h
      left
      exact ⟨c, by simp at h; rw [h], hc⟩
    · rw [if_neg hc] at h
      simp only [Bool.and_eq_true] at h
      right
      exact ⟨c, cs, rfl, hc, h.1, h.2⟩

/-- The scanner takes a number of the grammar, whole, wherever the text goes on with a
byte that does not continue a number. -/
theorem scanNumber_render (n : NumLit) (rest : GoString) (h : n.wellFormed = true)
    (hs : stopsNumber rest = true) : scanNumber (n.render ++ rest) = .ok n.render rest := by
  unfold NumLit.wellFormed at h
  simp only [Bool.and_eq_true] at h
  obtain ⟨⟨hi, hf⟩, hx⟩ := h
  have h45 : ((0x2D : Byte) : Nat) = 45 := rfl
  have nonzero : ∀ c : Byte, isDecDigit c = true → c.val ≠ 48 →
      (decide (49 ≤ c.val) && decide (c.val ≤ 57)) = true := by decide
  have hint : scanNumberFrom .neg (n.int ++ (n.frac ++ (n.exp ++ rest))) =
        .ok (n.int ++ (n.frac ++ n.exp)) rest ∧
      scanNumber (n.int ++ (n.frac ++ (n.exp ++ rest))) =
        .ok (n.int ++ (n.frac ++ n.exp)) rest := by
    rcases int_part_cases n.int hi with ⟨c, hc, h48⟩ | ⟨c, cs, hc, h48, hd, hds⟩
    · rw [hc]
      have hz := (run_frac n.frac n.exp rest hf hx hs).1
      constructor
      · show scanNumberFrom .neg (c :: (n.frac ++ (n.exp ++ rest))) = _
        rw [scanNumberFrom, if_pos h48, hz]
        rfl
      · show scanNumber (c :: (n.frac ++ (n.exp ++ rest))) = _
        rw [scanNumber, if_neg (by omega), if_pos h48, hz]
        rfl
    · rw [hc]
      have hz := run_digits cs n.frac n.exp rest hds hf hx hs
      constructor
      · show scanNumberFrom .neg (c :: (cs ++ (n.frac ++ (n.exp ++ rest)))) = _
        rw [scanNumberFrom, if_neg h48, if_pos (nonzero c hd h48), hz]
        rfl
      · show scanNumber (c :: (cs ++ (n.frac ++ (n.exp ++ rest)))) = _
        rw [scanNumber, if_neg (dec_digit_facts c hd).2.2.1, if_neg h48, hz]
        rfl
  unfold NumLit.render
  cases n.negative with
  | false =>
    simp only [if_false, Bool.false_eq_true, List.nil_append, List.append_assoc]
    exact hint.2
  | true =>
    simp only [if_true, List.append_assoc, List.singleton_append, List.cons_append,
      List.nil_append]
    rw [scanNumber, if_pos h45, hint.1]
    rfl

/-! ## What the scanner takes for a number is a number of the grammar -/

theorem digit_of_scan (c : Byte) (h : isDigit c = true) : isDecDigit c = true := by
  rw [← isDigit_eq_isDecDigit]; exact h

theorem sound_e0 (s : GoString) : ∀ l rest, scanNumberFrom .e0 s = .ok l rest →
    l.all isDecDigit = true ∧ s = l ++ rest := by
  induction s with
  | nil =>
    intro l rest h
    rw [scanNumberFrom] at h
    cases h
    exact ⟨rfl, rfl⟩
  | cons c cs ih =>
    intro l rest h
    rw [scanNumberFrom] at h
    split at h
    · rename_i hd
      obtain ⟨l1, h1, h2⟩ := Scan.cons_ok _ _ _ _ h
      obtain ⟨a, b⟩ := ih l1 rest h1
      subst h2
      exact ⟨by simp [digit_of_scan c hd, a], by rw [b]; rfl⟩
    · cases h
      exact ⟨rfl, rfl⟩

theorem sound_eSign (s l rest : GoString) (h : scanNumberFrom .eSign s = .ok l rest) :
    isDigits l = true ∧ s = l ++ rest := by
  cases s with
  | nil => rw [scanNumberFrom] at h; cases h
  | cons c cs =>
    rw [scanNumberFrom] at h
    split at h
    · rename_i hd
      obtain ⟨l1, h1, h2⟩ := Scan.cons_ok _ _ _ _ h
      obtain ⟨a, b⟩ := sound_e0 cs l1 rest h1
      subst h2
      exact ⟨by simp [isDigits, digit_of_scan c hd, a], by rw [b]; rfl⟩
    · cases h

theorem sound_e (s l rest : GoString) (e : Byte)
    (he : (decide (e.val = 0x65) || decide (e.val = 0x45)) = true)
    (h : scanNumberFrom .e s = .ok l rest) :
    isExpPart (e :: l) = true ∧ s = l ++ rest := by
  cases s with
  | nil => rw [scanNumberFrom] at h; cases h
  | cons c cs =>
    rw [scanNumberFrom] at h
    by_cases hsg : (decide (c.val = 43) || decide (c.val = 45)) = true
    · rw [if_pos hsg] at h
      obtain ⟨l1, h1, h2⟩ := Scan.cons_ok _ _ _ _ h
      obtain ⟨a, b⟩ := sound_eSign cs l1 rest h1
      subst h2
      refine ⟨?_, by rw [b]; rfl⟩
      have hsg2 : (decide (c.val = 0x2B) || decide (c.val = 0x2D)) = true := hsg
      simp only [isExpPart, he, Bool.true_and]
      rw [if_pos hsg2]
      exact a
    · rw [if_neg hsg] at h
      split at h
      · rename_i hd
        obtain ⟨l1, h1, h2⟩ := Scan.cons_ok _ _ _ _ h
        obtain ⟨a, b⟩ := sound_e0 cs l1 rest h1
        subst h2
        refine ⟨?_, by rw [b]; rfl⟩
        have hsg2 : ¬ ((decide (c.val = 0x2B) || decide (c.val = 0x2D)) = true) := hsg
        simp only [isExpPart, he, Bool.true_and]
        rw [if_neg hsg2]
        simp [isDigits, digit_of_scan c hd, a]
      · cases h

theorem sound_dot0 (s : GoString) : ∀ l rest, scanNumberFrom .dot0 s = .ok l rest →
    ∃ ds x, l = ds ++ x ∧ ds.all isDecDigit = true ∧ isExpPart x = true ∧ s = l ++ rest := by
  induction s with
  | nil =>
    intro l rest h
    rw [scanNumberFrom] at h
    cases h
    exact ⟨[], [], rfl, rfl, rfl, rfl⟩
  | cons c cs ih =>
    intro l rest h
    rw [scanNumberFrom] at h
    split at h
    · rename_i hd
      obtain ⟨l1, h1, h2⟩ := Scan.cons_ok _ _ _ _ h
      obtain ⟨ds, x, a, b, c1, d⟩ := ih l1 rest h1
      subst h2
      exact ⟨c :: ds, x, by rw [a]; rfl, by simp [digit_of_scan c hd, b], c1, by rw [d]; rfl⟩
    · split at h
      · rename_i he
        obtain ⟨l1, h1, h2⟩ := Scan.cons_ok _ _ _ _ h
        obtain ⟨a, b⟩ := sound_e cs l1 rest c he h1
        subst h2
        exact ⟨[], c :: l1, rfl, rfl, a, by rw [b]; rfl⟩
      · cases h
        exact ⟨[], [], rfl, rfl, rfl, rfl⟩

theorem sound_dot (s l rest : GoString) (p : Byte) (hp : p.val = 46)
    (h : scanNumberFrom .dot s = .ok l rest) :
    ∃ f x, p :: l = f ++ x ∧ isFracPart f = true ∧ isExpPart x = true ∧ s = l ++ rest := by
  cases s with
  | nil => rw [scanNumberFrom] at h; cases h
  | cons c cs =>
    rw [scanNumberFrom] at h
    split at h
    · rename_i hd
      obtain ⟨l1, h1, h2⟩ := Scan.cons_ok _ _ _ _ h
      obtain ⟨ds, x, a, b, c1, d⟩ := sound_dot0 cs l1 rest h1
      subst h2
      refine ⟨p :: c :: ds, x, by rw [a]; rfl, ?_, c1, by rw [d]; rfl⟩
      have hp2 : p.val = 0x2E := hp
      simp [isFracPart, isDigits, hp2, digit_of_scan c hd, b]
    · cases h

theorem sound_digits (s : GoString) : ∀ l rest, scanNumberFrom .digits s = .ok l rest →
    ∃ ds f x, l = ds ++ (f ++ x) ∧ ds.all isDecDigit = true ∧ isFracPart f = true ∧
      isExpPart x = true ∧ s = l ++ rest := by
  induction s with
  | nil =>
    intro l rest h
    rw [scanNumberFrom] at h
    cases h
    exact ⟨[], [], [], rfl, rfl, rfl, rfl, rfl⟩
  | cons c cs ih =>
    intro l rest h
    rw [scanNumberFrom] at h
    split at h
    · rename_i hd
      obtain ⟨l1, h1, h2⟩ := Scan.cons_ok _ _ _ _ h
      obtain ⟨ds, f, x, a, b, c1, c2, d⟩ := ih l1 rest h1
      subst h2
      exact ⟨c :: ds, f, x, by rw [a]; rfl, by simp [digit_of_scan c hd, b], c1, c2,
        by rw [d]; rfl⟩
    · split at h
      · rename_i hp
        obtain ⟨l1, h1, h2⟩ := Scan.cons_ok _ _ _ _ h
        obtain ⟨f, x, a, b, c1, d⟩ := sound_dot cs l1 rest c hp h1
        subst h2
        exact ⟨[], f, x, a, rfl, b, c1, by rw [d]; rfl⟩
      · split at h
        · rename_i he
          obtain ⟨l1, h1, h2⟩ := Scan.cons_ok _ _ _ _ h
          obtain ⟨a, b⟩ := sound_e cs l1 rest c he h1
          subst h2
          exact ⟨[], [], c :: l1, rfl, rfl, rfl, a, by rw [b]; rfl⟩
        · cases h
          exact ⟨[], [], [], rfl, rfl, rfl, rfl, rfl⟩

theorem sound_zero (s l rest : GoString) (h : scanNumberFrom .zero s = .ok l rest) :
    ∃ f x, l = f ++ x ∧ isFracPart f = true ∧ isExpPart x = true ∧ s = l ++ rest := by
  cases s with
  | nil =>
    rw [scanNumberFrom] at h
    cases h
    exact ⟨[], [], rfl, rfl, rfl, rfl⟩
  | cons c cs =>
    rw [scanNumberFrom] at h
    split at h
    · rename_i hp
      obtain ⟨l1, h1, h2⟩ := Scan.cons_ok _ _ _ _ h
      obtain ⟨f, x, a, b, c1, d⟩ := sound_dot cs l1 rest c hp h1
      subst h2
      exact ⟨f, x, a, b, c1, by rw [d]; rfl⟩
    · split at h
      · rename_i he
        obtain ⟨l1, h1, h2⟩ := Scan.cons_ok _ _ _ _ h
        obtain ⟨a, b⟩ := sound_e cs l1 rest c he h1
        subst h2
        exact ⟨[], c :: l1, rfl, rfl, a, by rw [b]; rfl⟩
      · cases h
        exact ⟨[], [], rfl, rfl, rfl, rfl⟩

theorem int_zero : ∀ c : Byte, c.val = 48 → isIntPart [c] = true := by decide

theorem int_nonzero (c : Byte) (ds : GoString) (h1 : c.val ≠ 48) (h2 : isDigit c = true)
    (h3 : ds.all isDecDigit = true) : isIntPart (c :: ds) = true := by
  have h1b : ¬ c.val = 0x30 := h1
  simp only [isIntPart]
  rw [if_neg h1b]
  simp [digit_of_scan c h2, h3]

theorem sound_int (c : Byte) (cs l rest : GoString) (hd : isDigit c = true)
    (h : (if c.val = 48 then Scan.cons c (scanNumberFrom .zero cs)
      else Scan.cons c (scanNumberFrom .digits cs)) = .ok l rest) :
    ∃ i f x, l = i ++ (f ++ x) ∧ isIntPart i = true ∧ isFracPart f = true ∧
      isExpPart x = true ∧ c :: cs = l ++ rest := by
  by_cases h48 : c.val = 48
  · rw [if_pos h48] at h
    obtain ⟨l1, h1, h2⟩ := Scan.cons_ok _ _ _ _ h
    obtain ⟨f, x, a, b, c1, d⟩ := sound_zero cs l1 rest h1
    subst h2
    exact ⟨[c], f, x, by rw [a]; rfl, int_zero c h48, b, c1, by rw [d]; rfl⟩
  · rw [if_neg h48] at h
    obtain ⟨l1, h1, h2⟩ := Scan.cons_ok _ _ _ _ h
    obtain ⟨ds, f, x, a, b, c1, c2, d⟩ := sound_digits cs l1 rest h1
    subst h2
    exact ⟨c :: ds, f, x, by rw [a]; rfl, int_nonzero c ds h48 hd b, c1, c2, by rw [d]; rfl⟩

/-- Whatever the scanner takes for a number, at `-` or a digit, is a number of the
grammar. -/
theorem scanNumber_sound (c : Byte) (cs l rest : GoString)
    (hc : (decide (c.val = 45) || isDigit c) = true)
    (h : scanNumber (c :: cs) = .ok l rest) :
    ∃ n : NumLit, n.wellFormed = true ∧ l = n.render ∧ c :: cs = l ++ rest := by
  rw [scanNumber] at h
  by_cases h45 : c.val = 45
  · rw [if_pos h45] at h
    obtain ⟨l1, h1, h2⟩ := Scan.cons_ok _ _ _ _ h
    have hcm : c = (0x2D : Byte) := Fin.ext h45
    cases cs with
    | nil => rw [scanNumberFrom] at h1; cases h1
    | cons d ds =>
      rw [scanNumberFrom] at h1
      have key : ∀ d : Byte, (decide (49 ≤ d.val) && decide (d.val ≤ 57)) = true →
          isDigit d = true ∧ d.val ≠ 48 := by decide
      have key0 : ∀ d : Byte, d.val = 48 → isDigit d = true := by decide
      have hint : ∃ i f x, l1 = i ++ (f ++ x) ∧ isIntPart i = true ∧ isFracPart f = true ∧
          isExpPart x = true ∧ d :: ds = l1 ++ rest := by
        by_cases h48 : d.val = 48
        · rw [if_pos h48] at h1
          exact sound_int d ds l1 rest (key0 d h48) (by rw [if_pos h48]; exact h1)
        · rw [if_neg h48] at h1
          split at h1
          · rename_i h19
            exact sound_int d ds l1 rest (key d h19).1 (by rw [if_neg h48]; exact h1)
          · cases h1
      obtain ⟨i, f, x, a, b, c1, c2, e⟩ := hint
      refine ⟨⟨true, i, f, x⟩, ?_, ?_, ?_⟩
      · simp [NumLit.wellFormed, b, c1, c2]
      · rw [h2, a, hcm]; rfl
      · rw [h2, hcm, e]; rfl
  · rw [if_neg h45] at h
    have hd : isDigit c = true := by
      simp only [Bool.or_eq_true, decide_eq_true_eq] at hc
      exact hc.resolve_left h45
    obtain ⟨i, f, x, a, b, c1, c2, e⟩ := sound_int c cs l rest hd h
    refine ⟨⟨false, i, f, x⟩, ?_, ?_, e⟩
    · simp [NumLit.wellFormed, b, c1, c2]
    · rw [a]; rfl

/-! ## The scanner reads every document of the grammar -/

theorem scanValue_ws (f d : Nat) (ws s : GoString) (h : ws.all isWs = true) :
    scanValue f d (ws ++ s) = scanValue f d s := by
  cases f with
  | zero => rw [scanValue.eq_1, scanValue.eq_1]
  | succ f => rw [scanValue.eq_2, scanValue.eq_2, skipSpace_ws ws s h]

theorem scanValue_null (f d : Nat) (rest : GoString) :
    scanValue (f + 1) d (ascii "null" ++ rest) = .ok .null rest := by
  have e : ascii "null" ++ rest = (110 : Byte) :: (ascii "ull" ++ rest) := rfl
  rw [e, scanValue.eq_2, skipSpace_cons _ _ (by decide)]
  dsimp only
  rw [if_neg (by decide), if_neg (by decide), if_neg (by decide), if_neg (by decide),
    if_neg (by decide), if_neg (by decide), if_pos (by decide), scanLiteral_append]

theorem scanValue_true (f d : Nat) (rest : GoString) :
    scanValue (f + 1) d (ascii "true" ++ rest) = .ok (.bool true) rest := by
  have e : ascii "true" ++ rest = (116 : Byte) :: (ascii "rue" ++ rest) := rfl
  rw [e, scanValue.eq_2, skipSpace_cons _ _ (by decide)]
  dsimp only
  rw [if_neg (by decide), if_neg (by decide), if_neg (by decide), if_neg (by decide),
    if_pos (by decide), scanLiteral_append]

theorem scanValue_false (f d : Nat) (rest : GoString) :
    scanValue (f + 1) d (ascii "false" ++ rest) = .ok (.bool false) rest := by
  have e : ascii "false" ++ rest = (102 : Byte) :: (ascii "alse" ++ rest) := rfl
  rw [e, scanValue.eq_2, skipSpace_cons _ _ (by decide)]
  dsimp only
  rw [if_neg (by decide), if_neg (by decide), if_neg (by decide), if_neg (by decide),
    if_neg (by decide), if_pos (by decide), scanLiteral_append]

theorem number_head (n : NumLit) (h : n.wellFormed = true) :
    ∃ c tl, n.render = c :: tl ∧ (decide (c.val = 45) || isDigit c) = true := by
  unfold NumLit.wellFormed at h
  simp only [Bool.and_eq_true] at h
  have hd : ∀ c : Byte, isDecDigit c = true → (decide (c.val = 45) || isDigit c) = true := by
    decide
  have h0 : ∀ c : Byte, c.val = 48 → (decide (c.val = 45) || isDigit c) = true := by decide
  unfold NumLit.render
  cases n.negative with
  | true => exact ⟨0x2D, _, rfl, by decide⟩
  | false =>
    rcases int_part_cases n.int h.1.1 with ⟨c, hc, h48⟩ | ⟨c, cs, hc, _, hcd, _⟩
    · exact ⟨c, _, by rw [hc]; rfl, h0 c h48⟩
    · exact ⟨c, _, by rw [hc]; rfl, hd c hcd⟩

theorem sign_or_digit_facts : ∀ c : Byte, (decide (c.val = 45) || isDigit c) = true →
    isSpace c = false ∧ c.val ≠ 123 ∧ c.val ≠ 91 ∧ c.val ≠ 34 ∧ c.val ≠ 93 ∧ c.val ≠ 125 := by
  decide

/-- At `-` or a digit the scanner reads a number. -/
theorem scanValue_at_number (f d : Nat) (c : Byte) (cs : GoString)
    (h : (decide (c.val = 45) || isDigit c) = true) :
    scanValue (f + 1) d (c :: cs) =
      match scanNumber (c :: cs) with
      | .ok lit rest => .ok (.number lit) rest
      | .more => .more
      | .bad m => .bad m := by
  obtain ⟨h0, h1, h2, h3, _, _⟩ := sign_or_digit_facts c h
  rw [scanValue.eq_2, skipSpace_cons c cs h0]
  dsimp only
  rw [if_neg h1, if_neg h2, if_neg h3, if_pos h]
  all_goals rfl

theorem scanValue_number (f d : Nat) (n : NumLit) (rest : GoString) (h : n.wellFormed = true)
    (hs : stopsNumber rest = true) :
    scanValue (f + 1) d (n.render ++ rest) = .ok (.number n.render) rest := by
  obtain ⟨c, tl, e, hc⟩ := number_head n h
  have hnum := scanNumber_render n rest h hs
  rw [e] at hnum ⊢
  show scanValue (f + 1) d (c :: (tl ++ rest)) = _
  have hnum2 : scanNumber (c :: (tl ++ rest)) = .ok (c :: tl) rest := hnum
  rw [scanValue_at_number f d c _ hc, hnum2]

theorem scanValue_string (f d : Nat) (items : List StrItem) (rest : GoString)
    (h : items.all StrItem.wellFormed = true) :
    scanValue (f + 1) d (quoted items ++ rest) = .ok (.string (readString items)) rest := by
  have e : quoted items ++ rest = (34 : Byte) :: (renderItems items ++ (0x22 : Byte) :: rest) := by
    simp [quoted]
  have h34 : ((34 : Byte) : Nat) = 34 := rfl
  rw [e, scanValue.eq_2, skipSpace_cons _ _ (by decide)]
  dsimp only
  rw [if_neg (by decide), if_neg (by decide), if_pos h34, scanString_items items rest h]
  rfl

theorem scanValue_emptyArray (f d : Nat) (ws rest : GoString) (h : ws.all isWs = true)
    (hd : d + 1 ≤ maxNestingDepth) :
    scanValue (f + 1) d ((0x5B : Byte) :: (ws ++ [(0x5D : Byte)]) ++ rest) =
      .ok (.array []) rest := by
  have e : (0x5B : Byte) :: (ws ++ [(0x5D : Byte)]) ++ rest =
      (91 : Byte) :: (ws ++ (93 : Byte) :: rest) := by simp
  have h91 : ((91 : Byte) : Nat) = 91 := rfl
  have h93 : ((93 : Byte) : Nat) = 93 := rfl
  rw [e, scanValue.eq_2, skipSpace_cons _ _ (by decide)]
  dsimp only
  rw [if_neg (by decide), if_pos h91, if_neg (by omega),
    skipSpace_ws_cons ws _ _ h (by decide)]
  dsimp only
  rw [if_pos h93]

theorem scanValue_emptyObject (f d : Nat) (ws rest : GoString) (h : ws.all isWs = true)
    (hd : d + 1 ≤ maxNestingDepth) :
    scanValue (f + 1) d ((0x7B : Byte) :: (ws ++ [(0x7D : Byte)]) ++ rest) =
      .ok (.object []) rest := by
  have e : (0x7B : Byte) :: (ws ++ [(0x7D : Byte)]) ++ rest =
      (123 : Byte) :: (ws ++ (125 : Byte) :: rest) := by simp
  have h123 : ((123 : Byte) : Nat) = 123 := rfl
  have h125 : ((125 : Byte) : Nat) = 125 := rfl
  rw [e, scanValue.eq_2, skipSpace_cons _ _ (by decide)]
  dsimp only
  rw [if_pos h123, if_neg (by omega), skipSpace_ws_cons ws _ _ h (by decide)]
  dsimp only
  rw [if_pos h125]

/-- Behind `[`, where the next token is not `]`, the scanner reads elements. -/
theorem scanValue_array (f d : Nat) (s tl : GoString) (c : Byte)
    (hd : d + 1 ≤ maxNestingDepth) (hs : skipSpace s = c :: tl) (hc : c.val ≠ 93) :
    scanValue (f + 1) d ((0x5B : Byte) :: s) = scanElems f (d + 1) [] s := by
  have h91 : ((0x5B : Byte) : Nat) = 91 := rfl
  rw [scanValue.eq_2, skipSpace_cons _ _ (by decide)]
  dsimp only
  rw [if_neg (by decide), if_pos h91, if_neg (by omega), hs]
  dsimp only
  rw [if_neg hc]

/-- Behind an opening brace, where the next token is not the closing brace, the scanner
reads members. -/
theorem scanValue_object (f d : Nat) (s tl : GoString) (c : Byte)
    (hd : d + 1 ≤ maxNestingDepth) (hs : skipSpace s = c :: tl) (hc : c.val ≠ 125) :
    scanValue (f + 1) d ((0x7B : Byte) :: s) = scanMembers f (d + 1) [] s := by
  have h123 : ((0x7B : Byte) : Nat) = 123 := rfl
  rw [scanValue.eq_2, skipSpace_cons _ _ (by decide)]
  dsimp only
  rw [if_pos h123, if_neg (by omega), hs]
  dsimp only
  rw [if_neg hc]

theorem scanElems_last (f d : Nat) (acc : List JValue) (s post rest : GoString) (v : JValue)
    (hv : scanValue f d s = .ok v (post ++ (0x5D : Byte) :: rest))
    (hp : post.all isWs = true) :
    scanElems (f + 1) d acc s = .ok (.array (acc ++ [v])) rest := by
  have h93 : ((0x5D : Byte) : Nat) = 93 := rfl
  rw [scanElems.eq_2, hv]
  dsimp only
  rw [skipSpace_ws_cons post _ _ hp (by decide)]
  dsimp only
  rw [if_neg (by decide), if_pos h93]

theorem scanElems_cons (f d : Nat) (acc : List JValue) (s post tail : GoString) (v : JValue)
    (hv : scanValue f d s = .ok v (post ++ (0x2C : Byte) :: tail))
    (hp : post.all isWs = true) :
    scanElems (f + 1) d acc s = scanElems f d (acc ++ [v]) tail := by
  have h44 : ((0x2C : Byte) : Nat) = 44 := rfl
  rw [scanElems.eq_2, hv]
  dsimp only
  rw [skipSpace_ws_cons post _ _ hp (by decide)]
  dsimp only
  rw [if_pos h44]

/-- The scanner reads the key of a member, the colon, and goes on to the value. -/
theorem scanMembers_key (f d : Nat) (acc : List (GoString × JValue)) (pre mid s : GoString)
    (key : List StrItem) (hpre : pre.all isWs = true) (hkey : key.all StrItem.wellFormed = true)
    (hmid : mid.all isWs = true) :
    scanMembers (f + 1) d acc (pre ++ (quoted key ++ (mid ++ (0x3A : Byte) :: s))) =
      match scanValue f d s with
      | .ok v rest1 =>
        (match skipSpace rest1 with
          | [] => .more
          | c :: cs =>
            if c.val = 44 then scanMembers f d (acc ++ [(readString key, v)]) cs
            else if c.val = 125 then .ok (.object (acc ++ [(readString key, v)])) cs
            else .bad (ascii "after object key:value pair"))
      | .more => .more
      | .bad m => .bad m := by
  have e : pre ++ (quoted key ++ (mid ++ (0x3A : Byte) :: s)) =
      pre ++ (0x22 : Byte) :: (renderItems key ++ (0x22 : Byte) :: (mid ++ (0x3A : Byte) :: s)) := by
    simp [quoted]
  have h34 : ((0x22 : Byte) : Nat) = 34 := rfl
  have h58 : ((0x3A : Byte) : Nat) = 58 := rfl
  rw [e, scanMembers.eq_2, skipSpace_ws_cons pre _ _ hpre (by decide)]
  dsimp only
  rw [if_pos h34, scanString_items key _ hkey]
  dsimp only
  rw [skipSpace_ws_cons mid _ _ hmid (by decide)]
  dsimp only
  rw [if_pos h58]
  rfl

theorem scanMembers_last (f d : Nat) (acc : List (GoString × JValue))
    (pre mid s post rest : GoString) (key : List StrItem) (v : JValue)
    (hpre : pre.all isWs = true) (hkey : key.all StrItem.wellFormed = true)
    (hmid : mid.all isWs = true)
    (hv : scanValue f d s = .ok v (post ++ (0x7D : Byte) :: rest))
    (hp : post.all isWs = true) :
    scanMembers (f + 1) d acc (pre ++ (quoted key ++ (mid ++ (0x3A : Byte) :: s))) =
      .ok (.object (acc ++ [(readString key, v)])) rest := by
  have h125 : ((0x7D : Byte) : Nat) = 125 := rfl
  rw [scanMembers_key f d acc pre mid s key hpre hkey hmid, hv]
  dsimp only
  rw [skipSpace_ws_cons post _ _ hp (by decide)]
  dsimp only
  rw [if_neg (by decide), if_pos h125]

theorem scanMembers_cons (f d : Nat) (acc : List (GoString × JValue))
    (pre mid s post tail : GoString) (key : List StrItem) (v : JValue)
    (hpre : pre.all isWs = true) (hkey : key.all StrItem.wellFormed = true)
    (hmid : mid.all isWs = true)
    (hv : scanValue f d s = .ok v (post ++ (0x2C : Byte) :: tail))
    (hp : post.all isWs = true) :
    scanMembers (f + 1) d acc (pre ++ (quoted key ++ (mid ++ (0x3A : Byte) :: s))) =
      scanMembers f d (acc ++ [(readString key, v)]) tail := by
  have h44 : ((0x2C : Byte) : Nat) = 44 := rfl
  rw [scanMembers_key f d acc pre mid s key hpre hkey hmid, hv]
  dsimp only
  rw [skipSpace_ws_cons post _ _ hp (by decide)]
  dsimp only
  rw [if_pos h44]

theorem ws_not_digit : ∀ c : Byte, isWs c = true →
    (!(isDecDigit c || decide (c.val = 0x2E) || decide (c.val = 0x65) || decide (c.val = 0x45))) = true := by
  decide

/-- White space and then a comma or a closing bracket do not continue a number. -/
theorem stops_after_value (post : GoString) (c : Byte) (rest : GoString)
    (hp : post.all isWs = true) (hc : stopsNumber [c] = true) :
    stopsNumber (post ++ c :: rest) = true := by
  cases post with
  | nil => exact hc
  | cons w ws =>
    simp only [List.all_cons, Bool.and_eq_true] at hp
    exact ws_not_digit w hp.1

/-- The first byte of a document is not white space and not a closing bracket. -/
theorem doc_head (item : StrItem → Bool) (doc : Doc) (h : doc.valid item = true) :
    ∃ c tl, doc.render = c :: tl ∧ isSpace c = false ∧ c.val ≠ 93 ∧ c.val ≠ 125 := by
  cases doc with
  | null => exact ⟨110, _, rfl, by decide, by decide, by decide⟩
  | bool b =>
    cases b with
    | true => exact ⟨116, _, rfl, by decide, by decide, by decide⟩
    | false => exact ⟨102, _, rfl, by decide, by decide, by decide⟩
  | number n =>
    obtain ⟨c, tl, e, hc⟩ := number_head n h
    obtain ⟨h0, _, _, _, h4, h5⟩ := sign_or_digit_facts c hc
    exact ⟨c, tl, e, h0, h4, h5⟩
  | string items => exact ⟨0x22, _, rfl, by decide, by decide, by decide⟩
  | emptyArray ws => exact ⟨0x5B, _, rfl, by decide, by decide, by decide⟩
  | array es => exact ⟨0x5B, _, rfl, by decide, by decide, by decide⟩
  | emptyObject ws => exact ⟨0x7B, _, rfl, by decide, by decide, by decide⟩
  | object ms => exact ⟨0x7B, _, rfl, by decide, by decide, by decide⟩

theorem elems_head (item : StrItem → Bool) (es : Elems) (rest : GoString)
    (h : es.valid item = true) :
    ∃ c tl, skipSpace (es.render ++ rest) = c :: tl ∧ c.val ≠ 93 := by
  cases es with
  | last pre v post =>
    simp only [Elems.valid, Bool.and_eq_true] at h
    obtain ⟨c, tl, e, h0, h1, _⟩ := doc_head item v h.1.2
    refine ⟨c, tl ++ (post ++ [(0x5D : Byte)]) ++ rest, ?_, h1⟩
    simp only [Elems.render, List.append_assoc, e, List.cons_append]
    rw [skipSpace_ws _ _ h.1.1, skipSpace_cons _ _ h0]
  | cons pre v post tail =>
    simp only [Elems.valid, Bool.and_eq_true] at h
    obtain ⟨c, tl, e, h0, h1, _⟩ := doc_head item v h.1.1.2
    refine ⟨c, tl ++ (post ++ (0x2C : Byte) :: tail.render) ++ rest, ?_, h1⟩
    simp only [Elems.render, List.append_assoc, e, List.cons_append]
    rw [skipSpace_ws _ _ h.1.1.1, skipSpace_cons _ _ h0]

theorem members_head (item : StrItem → Bool) (ms : Members) (rest : GoString)
    (h : ms.valid item = true) :
    ∃ c tl, skipSpace (ms.render ++ rest) = c :: tl ∧ c.val ≠ 125 := by
  cases ms with
  | last pre key mid sep v post =>
    simp only [Members.valid, Bool.and_eq_true] at h
    have e : (Members.last pre key mid sep v post).render ++ rest =
        pre ++ (0x22 : Byte) :: ((renderItems key ++ [(0x22 : Byte)]) ++
          (mid ++ (0x3A : Byte) :: (sep ++ (v.render ++ (post ++ [(0x7D : Byte)])))) ++ rest) := by
      simp [Members.render, quoted]
    rw [e, skipSpace_ws _ _ h.1.1.1.1.1, skipSpace_cons _ _ (by decide)]
    exact ⟨_, _, rfl, by decide⟩
  | cons pre key mid sep v post tail =>
    simp only [Members.valid, Bool.and_eq_true] at h
    have e : (Members.cons pre key mid sep v post tail).render ++ rest =
        pre ++ (0x22 : Byte) :: ((renderItems key ++ [(0x22 : Byte)]) ++
          (mid ++ (0x3A : Byte) :: (sep ++ (v.render ++ (post ++ (0x2C : Byte) :: tail.render)))) ++
            rest) := by
      simp [Members.render, quoted]
    rw [e, skipSpace_ws _ _ h.1.1.1.1.1.1, skipSpace_cons _ _ (by decide)]
    exact ⟨_, _, rfl, by decide⟩

mutual
/-- The scanner reads every document of the grammar that is not nested too deeply, given
enough fuel, and stops right behind it. -/
theorem scan_doc : ∀ (doc : Doc), doc.valid StrItem.wellFormed = true →
    ∃ F, ∀ f, F ≤ f → ∀ (d : Nat) (rest : GoString),
      d + doc.depth ≤ maxNestingDepth → (doc.isNumber = true → stopsNumber rest = true) →
      scanValue f d (doc.render ++ rest) = .ok (doc.valueWith readString) rest
  | .null, _ => ⟨1, fun f hf d rest _ _ => by
      obtain ⟨g, rfl⟩ : ∃ g, f = g + 1 := ⟨f - 1, by omega⟩
      exact scanValue_null g d rest⟩
  | .bool true, _ => ⟨1, fun f hf d rest _ _ => by
      obtain ⟨g, rfl⟩ : ∃ g, f = g + 1 := ⟨f - 1, by omega⟩
      exact scanValue_true g d rest⟩
  | .bool false, _ => ⟨1, fun f hf d rest _ _ => by
      obtain ⟨g, rfl⟩ : ∃ g, f = g + 1 := ⟨f - 1, by omega⟩
      exact scanValue_false g d rest⟩
  | .number n, h => ⟨1, fun f hf d rest _ hs => by
      obtain ⟨g, rfl⟩ : ∃ g, f = g + 1 := ⟨f - 1, by omega⟩
      exact scanValue_number g d n rest h (hs rfl)⟩
  | .string items, h => ⟨1, fun f hf d rest _ _ => by
      obtain ⟨g, rfl⟩ : ∃ g, f = g + 1 := ⟨f - 1, by omega⟩
      exact scanValue_string g d items rest h⟩
  | .emptyArray ws, h => ⟨1, fun f hf d rest hd _ => by
      obtain ⟨g, rfl⟩ : ∃ g, f = g + 1 := ⟨f - 1, by omega⟩
      simp only [Doc.depth] at hd
      exact scanValue_emptyArray g d ws rest h hd⟩
  | .emptyObject ws, h => ⟨1, fun f hf d rest hd _ => by
      obtain ⟨g, rfl⟩ : ∃ g, f = g + 1 := ⟨f - 1, by omega⟩
      simp only [Doc.depth] at hd
      exact scanValue_emptyObject g d ws rest h hd⟩
  | .array es, h => by
    have hes : es.valid StrItem.wellFormed = true := h
    obtain ⟨F, hF⟩ := scan_elems es hes
    refine ⟨F + 1, fun f hf d rest hd _ => ?_⟩
    obtain ⟨g, rfl⟩ : ∃ g, f = g + 1 := ⟨f - 1, by omega⟩
    simp only [Doc.depth] at hd
    obtain ⟨c, tl, hs, hc⟩ := elems_head _ es rest hes
    show scanValue (g + 1) d ((0x5B : Byte) :: (es.render ++ rest)) = _
    rw [scanValue_array g d _ tl c (by omega) hs hc, hF g (by omega) (d + 1) [] rest (by omega)]
    rfl
  | .object ms, h => by
    have hms : ms.valid StrItem.wellFormed = true := h
    obtain ⟨F, hF⟩ := scan_members ms hms
    refine ⟨F + 1, fun f hf d rest hd _ => ?_⟩
    obtain ⟨g, rfl⟩ : ∃ g, f = g + 1 := ⟨f - 1, by omega⟩
    simp only [Doc.depth] at hd
    obtain ⟨c, tl, hs, hc⟩ := members_head _ ms rest hms
    show scanValue (g + 1) d ((0x7B : Byte) :: (ms.render ++ rest)) = _
    rw [scanValue_object g d _ tl c (by omega) hs hc, hF g (by omega) (d + 1) [] rest (by omega)]
    rfl
/-- The scanner reads the elements of an array of the grammar up to the closing `]`. -/
theorem scan_elems : ∀ (es : Elems), es.valid StrItem.wellFormed = true →
    ∃ F, ∀ f, F ≤ f → ∀ (d : Nat) (acc : List JValue) (rest : GoString),
      d + es.depth ≤ maxNestingDepth →
      scanElems f d acc (es.render ++ rest) =
        .ok (.array (acc ++ es.valuesWith readString)) rest
  | .last pre v post, h => by
    simp only [Elems.valid, Bool.and_eq_true] at h
    obtain ⟨F, hF⟩ := scan_doc v h.1.2
    refine ⟨F + 1, fun f hf d acc rest hd => ?_⟩
    obtain ⟨g, rfl⟩ : ∃ g, f = g + 1 := ⟨f - 1, by omega⟩
    simp only [Elems.depth] at hd
    have hv := hF g (by omega) d (post ++ (0x5D : Byte) :: rest) hd
      (fun _ => stops_after_value post _ rest h.2 (by decide))
    have e : (Elems.last pre v post).render ++ rest =
        pre ++ (v.render ++ (post ++ (0x5D : Byte) :: rest)) := by
      simp [Elems.render]
    rw [e]
    exact scanElems_last g d acc _ post rest _
      (by rw [scanValue_ws g d pre _ h.1.1]; exact hv) h.2
  | .cons pre v post tail, h => by
    simp only [Elems.valid, Bool.and_eq_true] at h
    obtain ⟨F1, hF1⟩ := scan_doc v h.1.1.2
    obtain ⟨F2, hF2⟩ := scan_elems tail h.2
    refine ⟨max F1 F2 + 1, fun f hf d acc rest hd => ?_⟩
    obtain ⟨g, rfl⟩ : ∃ g, f = g + 1 := ⟨f - 1, by omega⟩
    have hg1 : F1 ≤ g := by have := Nat.le_max_left F1 F2; omega
    have hg2 : F2 ≤ g := by have := Nat.le_max_right F1 F2; omega
    simp only [Elems.depth] at hd
    have hd1 : d + v.depth ≤ maxNestingDepth := by
      have := Nat.le_max_left v.depth tail.depth; omega
    have hd2 : d + tail.depth ≤ maxNestingDepth := by
      have := Nat.le_max_right v.depth tail.depth; omega
    have hv := hF1 g hg1 d (post ++ (0x2C : Byte) :: (tail.render ++ rest)) hd1
      (fun _ => stops_after_value post _ _ h.1.2 (by decide))
    have e : (Elems.cons pre v post tail).render ++ rest =
        pre ++ (v.render ++ (post ++ (0x2C : Byte) :: (tail.render ++ rest))) := by
      simp [Elems.render]
    rw [e, scanElems_cons g d acc _ post (tail.render ++ rest) _
      (by rw [scanValue_ws g d pre _ h.1.1.1]; exact hv) h.1.2,
      hF2 g hg2 d _ rest hd2]
    simp [Elems.valuesWith]
/-- The scanner reads the members of an object of the grammar up to the closing brace. -/
theorem scan_members : ∀ (ms : Members), ms.valid StrItem.wellFormed = true →
    ∃ F, ∀ f, F ≤ f → ∀ (d : Nat) (acc : List (GoString × JValue)) (rest : GoString),
      d + ms.depth ≤ maxNestingDepth →
      scanMembers f d acc (ms.render ++ rest) =
        .ok (.object (acc ++ ms.valuesWith readString)) rest
  | .last pre key mid sep v post, h => by
    simp only [Members.valid, Bool.and_eq_true] at h
    obtain ⟨⟨⟨⟨⟨hpre, hkey⟩, hmid⟩, hsep⟩, hval⟩, hpost⟩ := h
    obtain ⟨F, hF⟩ := scan_doc v hval
    refine ⟨F + 1, fun f hf d acc rest hd => ?_⟩
    obtain ⟨g, rfl⟩ : ∃ g, f = g + 1 := ⟨f - 1, by omega⟩
    simp only [Members.depth] at hd
    have hv := hF g (by omega) d (post ++ (0x7D : Byte) :: rest) hd
      (fun _ => stops_after_value post _ rest hpost (by decide))
    have e : (Members.last pre key mid sep v post).render ++ rest =
        pre ++ (quoted key ++ (mid ++ (0x3A : Byte) ::
          (sep ++ (v.render ++ (post ++ (0x7D : Byte) :: rest))))) := by
      simp [Members.render]
    rw [e]
    exact scanMembers_last g d acc pre mid _ post rest key _ hpre hkey hmid
      (by rw [scanValue_ws g d sep _ hsep]; exact hv) hpost
  | .cons pre key mid sep v post tail, h => by
    simp only [Members.valid, Bool.and_eq_true] at h
    obtain ⟨⟨⟨⟨⟨⟨hpre, hkey⟩, hmid⟩, hsep⟩, hval⟩, hpost⟩, htail⟩ := h
    obtain ⟨F1, hF1⟩ := scan_doc v hval
    obtain ⟨F2, hF2⟩ := scan_members tail htail
    refine ⟨max F1 F2 + 1, fun f hf d acc rest hd => ?_⟩
    obtain ⟨g, rfl⟩ : ∃ g, f = g + 1 := ⟨f - 1, by omega⟩
    have hg1 : F1 ≤ g := by have := Nat.le_max_left F1 F2; omega
    have hg2 : F2 ≤ g := by have := Nat.le_max_right F1 F2; omega
    simp only [Members.depth] at hd
    have hd1 : d + v.depth ≤ maxNestingDepth := by
      have := Nat.le_max_left v.depth tail.depth; omega
    have hd2 : d + tail.depth ≤ maxNestingDepth := by
      have := Nat.le_max_right v.depth tail.depth; omega
    have hv := hF1 g hg1 d (post ++ (0x2C : Byte) :: (tail.render ++ rest)) hd1
      (fun _ => stops_after_value post _ _ hpost (by decide))
    have e : (Members.cons pre key mid sep v post tail).render ++ rest =
        pre ++ (quoted key ++ (mid ++ (0x3A : Byte) ::
          (sep ++ (v.render ++ (post ++ (0x2C : Byte) :: (tail.render ++ rest)))))) := by
      simp [Members.render]
    rw [e, scanMembers_cons g d acc pre mid _ post (tail.render ++ rest) key _ hpre hkey hmid
      (by rw [scanValue_ws g d sep _ hsep]; exact hv) hpost,
      hF2 g hg2 d _ rest hd2]
    simp [Members.valuesWith]
end

/-! ## Whatever the scanner reads is a document of the grammar -/

theorem skipSpace_eq_cons (s : GoString) (c : Byte) (cs : GoString)
    (h : skipSpace s = c :: cs) : ∃ ws, ws.all isWs = true ∧ s = ws ++ c :: cs := by
  obtain ⟨ws, hws, e⟩ := skipSpace_split s
  exact ⟨ws, hws, by rw [h] at e; exact e⟩

theorem sound_value_step (f d : Nat)
    (ihE : ∀ d acc s v rest, d ≤ maxNestingDepth → scanElems f d acc s = .ok v rest →
      ∃ es : Elems, es.valid StrItem.wellFormed = true ∧ d + es.depth ≤ maxNestingDepth ∧
        s = es.render ++ rest ∧ v = .array (acc ++ es.valuesWith readString))
    (ihM : ∀ d acc s v rest, d ≤ maxNestingDepth → scanMembers f d acc s = .ok v rest →
      ∃ ms : Members, ms.valid StrItem.wellFormed = true ∧ d + ms.depth ≤ maxNestingDepth ∧
        s = ms.render ++ rest ∧ v = .object (acc ++ ms.valuesWith readString))
    (s : GoString) (v : JValue) (rest : GoString) (hd : d ≤ maxNestingDepth)
    (h : scanValue (f + 1) d s = .ok v rest) :
    ∃ (ws : GoString) (doc : Doc), ws.all isWs = true ∧ doc.valid StrItem.wellFormed = true ∧
      d + doc.depth ≤ maxNestingDepth ∧ s = ws ++ (doc.render ++ rest) ∧
      v = doc.valueWith readString := by
  rw [scanValue.eq_2] at h
  cases hsk : skipSpace s with
  | nil => rw [hsk] at h; cases h
  | cons c cs =>
    obtain ⟨ws, hws, hs⟩ := skipSpace_eq_cons s c cs hsk
    rw [hsk] at h
    dsimp only at h
    by_cases h123 : c.val = 123
    · rw [if_pos h123] at h
      have hc : c = (0x7B : Byte) := Fin.ext h123
      by_cases hdepth : d + 1 > maxNestingDepth
      · rw [if_pos hdepth] at h; cases h
      · rw [if_neg hdepth] at h
        cases hsk2 : skipSpace cs with
        | nil => rw [hsk2] at h; cases h
        | cons d1 ds =>
          rw [hsk2] at h
          dsimp only at h
          by_cases h125 : d1.val = 125
          · rw [if_pos h125] at h
            cases h
            obtain ⟨ws2, hws2, hs2⟩ := skipSpace_eq_cons cs d1 _ hsk2
            have hd1 : d1 = (0x7D : Byte) := Fin.ext h125
            refine ⟨ws, .emptyObject ws2, hws, hws2, ?_, ?_, rfl⟩
            · simp only [Doc.depth]; omega
            · rw [hs, hs2, hc, hd1]; simp [Doc.render]
          · rw [if_neg h125] at h
            obtain ⟨ms, hv, hdm, hsm, hvm⟩ := ihM (d + 1) [] cs v rest (by omega) h
            refine ⟨ws, .object ms, hws, hv, ?_, ?_, ?_⟩
            · simp only [Doc.depth]; omega
            · rw [hs, hsm, hc]; simp [Doc.render]
            · rw [hvm]; rfl
    · rw [if_neg h123] at h
      by_cases h91 : c.val = 91
      · rw [if_pos h91] at h
        have hc : c = (0x5B : Byte) := Fin.ext h91
        by_cases hdepth : d + 1 > maxNestingDepth
        · rw [if_pos hdepth] at h; cases h
        · rw [if_neg hdepth] at h
          cases hsk2 : skipSpace cs with
          | nil => rw [hsk2] at h; cases h
          | cons d1 ds =>
            rw [hsk2] at h
            dsimp only at h
            by_cases h93 : d1.val = 93
            · rw [if_pos h93] at h
              cases h
              obtain ⟨ws2, hws2, hs2⟩ := skipSpace_eq_cons cs d1 _ hsk2
              have hd1 : d1 = (0x5D : Byte) := Fin.ext h93
              refine ⟨ws, .emptyArray ws2, hws, hws2, ?_, ?_, rfl⟩
              · simp only [Doc.depth]; omega
              · rw [hs, hs2, hc, hd1]; simp [Doc.render]
            · rw [if_neg h93] at h
              obtain ⟨es, hv, hde, hse, hve⟩ := ihE (d + 1) [] cs v rest (by omega) h
              refine ⟨ws, .array es, hws, hv, ?_, ?_, ?_⟩
              · simp only [Doc.depth]; omega
              · rw [hs, hse, hc]; simp [Doc.render]
              · rw [hve]; rfl
      · rw [if_neg h91] at h
        by_cases h34 : c.val = 34
        · rw [if_pos h34] at h
          have hc : c = (0x22 : Byte) := Fin.ext h34
          cases hstr : scanString cs with
          | more => rw [hstr] at h; cases h
          | bad m => rw [hstr] at h; cases h
          | ok raw rest1 =>
            rw [hstr] at h
            cases h
            obtain ⟨items, hi, hraw, hcs⟩ := scanString_sound cs raw _ hstr
            refine ⟨ws, .string items, hws, hi, ?_, ?_, ?_⟩
            · simp only [Doc.depth]; omega
            · rw [hs, hcs, hc, hraw]; simp [Doc.render, quoted]
            · rw [hraw]; rfl
        · rw [if_neg h34] at h
          by_cases hnum : (decide (c.val = 45) || isDigit c) = true
          · rw [if_pos hnum] at h
            cases hn : scanNumber (c :: cs) with
            | more => rw [hn] at h; cases h
            | bad m => rw [hn] at h; cases h
            | ok lit rest1 =>
              rw [hn] at h
              cases h
              obtain ⟨n, hw, hl, hcs⟩ := scanNumber_sound c cs lit _ hnum hn
              refine ⟨ws, .number n, hws, hw, ?_, ?_, ?_⟩
              · simp only [Doc.depth]; omega
              · rw [hs, hcs, hl]; rfl
              · rw [hl]; rfl
          · rw [if_neg hnum] at h
            by_cases h116 : c.val = 116
            · rw [if_pos h116] at h
              have hc : c = (116 : Byte) := Fin.ext h116
              cases hl : scanLiteral (ascii "rue") cs with
              | more => rw [hl] at h; cases h
              | bad m => rw [hl] at h; cases h
              | ok u rest1 =>
                rw [hl] at h
                cases h
                have hcs := scanLiteral_ok _ cs u _ hl
                refine ⟨ws, .bool true, hws, rfl, ?_, ?_, rfl⟩
                · simp only [Doc.depth]; omega
                · rw [hs, hcs, hc]; rfl
            · rw [if_neg h116] at h
              by_cases h102 : c.val = 102
              · rw [if_pos h102] at h
                have hc : c = (102 : Byte) := Fin.ext h102
                cases hl : scanLiteral (ascii "alse") cs with
                | more => rw [hl] at h; cases h
                | bad m => rw [hl] at h; cases h
                | ok u rest1 =>
                  rw [hl] at h
                  cases h
                  have hcs := scanLiteral_ok _ cs u _ hl
                  refine ⟨ws, .bool false, hws, rfl, ?_, ?_, rfl⟩
                  · simp only [Doc.depth]; omega
                  · rw [hs, hcs, hc]; rfl
              · rw [if_neg h102] at h
                by_cases h110 : c.val = 110
                · rw [if_pos h110] at h
                  have hc : c = (110 : Byte) := Fin.ext h110
                  cases hl : scanLiteral (ascii "ull") cs with
                  | more => rw [hl] at h; cases h
                  | bad m => rw [hl] at h; cases h
                  | ok u rest1 =>
                    rw [hl] at h
                    cases h
                    have hcs := scanLiteral_ok _ cs u _ hl
                    refine ⟨ws, .null, hws, rfl, ?_, ?_, rfl⟩
                    · simp only [Doc.depth]; omega
                    · rw [hs, hcs, hc]; rfl
                · rw [if_neg h110] at h; cases h

theorem sound_elems_step (f d : Nat)
    (ihV : ∀ d s v rest, d ≤ maxNestingDepth → scanValue f d s = .ok v rest →
      ∃ (ws : GoString) (doc : Doc), ws.all isWs = true ∧
        doc.valid StrItem.wellFormed = true ∧ d + doc.depth ≤ maxNestingDepth ∧
        s = ws ++ (doc.render ++ rest) ∧ v = doc.valueWith readString)
    (ihE : ∀ d acc s v rest, d ≤ maxNestingDepth → scanElems f d acc s = .ok v rest →
      ∃ es : Elems, es.valid StrItem.wellFormed = true ∧ d + es.depth ≤ maxNestingDepth ∧
        s = es.render ++ rest ∧ v = .array (acc ++ es.valuesWith readString))
    (acc : List JValue) (s : GoString) (v : JValue) (rest : GoString)
    (hd : d ≤ maxNestingDepth) (h : scanElems (f + 1) d acc s = .ok v rest) :
    ∃ es : Elems, es.valid StrItem.wellFormed = true ∧ d + es.depth ≤ maxNestingDepth ∧
      s = es.render ++ rest ∧ v = .array (acc ++ es.valuesWith readString) := by
  rw [scanElems.eq_2] at h
  cases hval : scanValue f d s with
  | more => rw [hval] at h; cases h
  | bad m => rw [hval] at h; cases h
  | ok val rest1 =>
    rw [hval] at h
    dsimp only at h
    obtain ⟨pre, doc, hpre, hdoc, hdd, hs, hv⟩ := ihV d s val rest1 hd hval
    cases hsk : skipSpace rest1 with
    | nil => rw [hsk] at h; cases h
    | cons c cs =>
      rw [hsk] at h
      dsimp only at h
      obtain ⟨post, hpost, hr1⟩ := skipSpace_eq_cons rest1 c cs hsk
      by_cases h44 : c.val = 44
      · rw [if_pos h44] at h
        have hc : c = (0x2C : Byte) := Fin.ext h44
        obtain ⟨tail, ht, htd, hts, htv⟩ := ihE d _ cs v rest hd h
        refine ⟨.cons pre doc post tail, ?_, ?_, ?_, ?_⟩
        · simp [Elems.valid, hpre, hdoc, hpost, ht]
        · simp only [Elems.depth]
          rcases Nat.le_total doc.depth tail.depth with hle | hle
          · rw [Nat.max_eq_right hle]; exact htd
          · rw [Nat.max_eq_left hle]; exact hdd
        · rw [hs, hr1, hts, hc]; simp [Elems.render]
        · rw [htv, hv]; simp [Elems.valuesWith]
      · rw [if_neg h44] at h
        by_cases h93 : c.val = 93
        · rw [if_pos h93] at h
          have hc : c = (0x5D : Byte) := Fin.ext h93
          cases h
          refine ⟨.last pre doc post, ?_, ?_, ?_, ?_⟩
          · simp [Elems.valid, hpre, hdoc, hpost]
          · simp only [Elems.depth]; exact hdd
          · rw [hs, hr1, hc]; simp [Elems.render]
          · rw [hv]; rfl
        · rw [if_neg h93] at h; cases h

theorem sound_members_step (f d : Nat)
    (ihV : ∀ d s v rest, d ≤ maxNestingDepth → scanValue f d s = .ok v rest →
      ∃ (ws : GoString) (doc : Doc), ws.all isWs = true ∧
        doc.valid StrItem.wellFormed = true ∧ d + doc.depth ≤ maxNestingDepth ∧
        s = ws ++ (doc.render ++ rest) ∧ v = doc.valueWith readString)
    (ihM : ∀ d acc s v rest, d ≤ maxNestingDepth → scanMembers f d acc s = .ok v rest →
      ∃ ms : Members, ms.valid StrItem.wellFormed = true ∧ d + ms.depth ≤ maxNestingDepth ∧
        s = ms.render ++ rest ∧ v = .object (acc ++ ms.valuesWith readString))
    (acc : List (GoString × JValue)) (s : GoString) (v : JValue) (rest : GoString)
    (hd : d ≤ maxNestingDepth) (h : scanMembers (f + 1) d acc s = .ok v rest) :
    ∃ ms : Members, ms.valid StrItem.wellFormed = true ∧ d + ms.depth ≤ maxNestingDepth ∧
      s = ms.render ++ rest ∧ v = .object (acc ++ ms.valuesWith readString) := by
  rw [scanMembers.eq_2] at h
  cases hsk : skipSpace s with
  | nil => rw [hsk] at h; cases h
  | cons q s1 =>
    rw [hsk] at h
    dsimp only at h
    obtain ⟨pre, hpre, hs⟩ := skipSpace_eq_cons s q s1 hsk
    by_cases h34 : q.val = 34
    · rw [if_pos h34] at h
      have hq : q = (0x22 : Byte) := Fin.ext h34
      cases hstr : scanString s1 with
      | more => rw [hstr] at h; cases h
      | bad m => rw [hstr] at h; cases h
      | ok raw rest0 =>
        rw [hstr] at h
        dsimp only at h
        obtain ⟨key, hkey, hraw, hs1⟩ := scanString_sound s1 raw rest0 hstr
        cases hsk2 : skipSpace rest0 with
        | nil => rw [hsk2] at h; cases h
        | cons colon s2 =>
          rw [hsk2] at h
          dsimp only at h
          obtain ⟨mid, hmid, hr0⟩ := skipSpace_eq_cons rest0 colon s2 hsk2
          by_cases h58 : colon.val = 58
          · rw [if_pos h58] at h
            have hcolon : colon = (0x3A : Byte) := Fin.ext h58
            cases hval : scanValue f d s2 with
            | more => rw [hval] at h; cases h
            | bad m => rw [hval] at h; cases h
            | ok val rest1 =>
              rw [hval] at h
              dsimp only at h
              obtain ⟨sep, doc, hsep, hdoc, hdd, hs2, hv⟩ := ihV d s2 val rest1 hd hval
              cases hsk3 : skipSpace rest1 with
              | nil => rw [hsk3] at h; cases h
              | cons c cs =>
                rw [hsk3] at h
                dsimp only at h
                obtain ⟨post, hpost, hr1⟩ := skipSpace_eq_cons rest1 c cs hsk3
                by_cases h44 : c.val = 44
                · rw [if_pos h44] at h
                  have hc : c = (0x2C : Byte) := Fin.ext h44
                  obtain ⟨tail, ht, htd, hts, htv⟩ := ihM d _ cs v rest hd h
                  refine ⟨.cons pre key mid sep doc post tail, ?_, ?_, ?_, ?_⟩
                  · simp [Members.valid, hpre, hkey, hmid, hsep, hdoc, hpost, ht]
                  · simp only [Members.depth]
                    rcases Nat.le_total doc.depth tail.depth with hle | hle
                    · rw [Nat.max_eq_right hle]; exact htd
                    · rw [Nat.max_eq_left hle]; exact hdd
                  · rw [hs, hs1, hr0, hs2, hr1, hts, hq, hcolon, hc, hraw]
                    simp [Members.render, quoted]
                  · rw [htv, hv, hraw]; simp [Members.valuesWith, readString]
                · rw [if_neg h44] at h
                  by_cases h125 : c.val = 125
                  · rw [if_pos h125] at h
                    have hc : c = (0x7D : Byte) := Fin.ext h125
                    cases h
                    refine ⟨.last pre key mid sep doc post, ?_, ?_, ?_, ?_⟩
                    · simp [Members.valid, hpre, hkey, hmid, hsep, hdoc, hpost]
                    · simp only [Members.depth]; exact hdd
                    · rw [hs, hs1, hr0, hs2, hr1, hq, hcolon, hc, hraw]
                      simp [Members.render, quoted]
                    · rw [hv, hraw]; rfl
                  · rw [if_neg h125] at h; cases h
          · rw [if_neg h58] at h; cases h
    · rw [if_neg h34] at h; cases h

/-- Whatever the scanner reads as a value is, after white space, a document of the grammar
nested no deeper than allowed, and the value is the one the decoder makes of it. -/
theorem scan_sound (f : Nat) :
    (∀ d s v rest, d ≤ maxNestingDepth → scanValue f d s = .ok v rest →
      ∃ (ws : GoString) (doc : Doc), ws.all isWs = true ∧
        doc.valid StrItem.wellFormed = true ∧ d + doc.depth ≤ maxNestingDepth ∧
        s = ws ++ (doc.render ++ rest) ∧ v = doc.valueWith readString) ∧
    (∀ d acc s v rest, d ≤ maxNestingDepth → scanElems f d acc s = .ok v rest →
      ∃ es : Elems, es.valid StrItem.wellFormed = true ∧ d + es.depth ≤ maxNestingDepth ∧
        s = es.render ++ rest ∧ v = .array (acc ++ es.valuesWith readString)) ∧
    (∀ d acc s v rest, d ≤ maxNestingDepth → scanMembers f d acc s = .ok v rest →
      ∃ ms : Members, ms.valid StrItem.wellFormed = true ∧ d + ms.depth ≤ maxNestingDepth ∧
        s = ms.render ++ rest ∧ v = .object (acc ++ ms.valuesWith readString)) := by
  induction f with
  | zero =>
    refine ⟨fun d s v rest _ h => ?_, fun d acc s v rest _ h => ?_,
      fun d acc s v rest _ h => ?_⟩
    · rw [scanValue.eq_1] at h; cases h
    · rw [scanElems.eq_1] at h; cases h
    · rw [scanMembers.eq_1] at h; cases h
  | succ f ih =>
    obtain ⟨ihV, ihE, ihM⟩ := ih
    exact ⟨fun d s v rest hd h => sound_value_step f d ihE ihM s v rest hd h,
      fun d acc s v rest hd h => sound_elems_step f d ihV ihE acc s v rest hd h,
      fun d acc s v rest hd h => sound_members_step f d ihV ihM acc s v rest hd h⟩

/-! ## The decoder reads the first document of the body, and nothing else -/

theorem strict_item_wellFormed (i : StrItem) (h : i.strict = true) : i.wellFormed = true := by
  cases i with
  | byte c =>
    have key : ∀ c : Byte,
        (0x20 ≤ c.val && c.val < 0x80 && c.val != 0x22 && c.val != 0x5C) = true →
        (0x20 ≤ c.val && c.val != 0x22 && c.val != 0x5C) = true := by decide
    exact key c h
  | rune r => exact h
  | esc c => exact h
  | unit u =>
    simp only [StrItem.strict, Bool.and_eq_true] at h
    exact h.1
  | pair hi lo => exact h

theorem all_mono {α : Type} (p q : α → Bool) (h : ∀ a, p a = true → q a = true) (l : List α)
    (hl : l.all p = true) : l.all q = true := by
  rw [List.all_eq_true] at hl ⊢
  exact fun a ha => h a (hl a ha)

mutual
/-- A document that follows a grammar follows every weaker grammar. -/
theorem doc_valid_mono (p q : StrItem → Bool) (h : ∀ i, p i = true → q i = true) :
    ∀ doc : Doc, doc.valid p = true → doc.valid q = true
  | .null, _ => rfl
  | .bool _, _ => rfl
  | .number _, hd => hd
  | .string items, hd => all_mono p q h items hd
  | .emptyArray _, hd => hd
  | .emptyObject _, hd => hd
  | .array es, hd => elems_valid_mono p q h es hd
  | .object ms, hd => members_valid_mono p q h ms hd
theorem elems_valid_mono (p q : StrItem → Bool) (h : ∀ i, p i = true → q i = true) :
    ∀ es : Elems, es.valid p = true → es.valid q = true
  | .last pre v post, hd => by
    simp only [Elems.valid, Bool.and_eq_true] at hd ⊢
    exact ⟨⟨hd.1.1, doc_valid_mono p q h v hd.1.2⟩, hd.2⟩
  | .cons pre v post tail, hd => by
    simp only [Elems.valid, Bool.and_eq_true] at hd ⊢
    exact ⟨⟨⟨hd.1.1.1, doc_valid_mono p q h v hd.1.1.2⟩, hd.1.2⟩,
      elems_valid_mono p q h tail hd.2⟩
theorem members_valid_mono (p q : StrItem → Bool) (h : ∀ i, p i = true → q i = true) :
    ∀ ms : Members, ms.valid p = true → ms.valid q = true
  | .last pre key mid sep v post, hd => by
    simp only [Members.valid, Bool.and_eq_true] at hd ⊢
    obtain ⟨⟨⟨⟨⟨a, b⟩, c⟩, d⟩, e⟩, f⟩ := hd
    exact ⟨⟨⟨⟨⟨a, all_mono p q h key b⟩, c⟩, d⟩, doc_valid_mono p q h v e⟩, f⟩
  | .cons pre key mid sep v post tail, hd => by
    simp only [Members.valid, Bool.and_eq_true] at hd ⊢
    obtain ⟨⟨⟨⟨⟨⟨a, b⟩, c⟩, d⟩, e⟩, f⟩, g⟩ := hd
    exact ⟨⟨⟨⟨⟨⟨a, all_mono p q h key b⟩, c⟩, d⟩, doc_valid_mono p q h v e⟩, f⟩,
      members_valid_mono p q h tail g⟩
end

mutual
/-- Two readings of strings that agree on the strings of a grammar give the same value
for every document of that grammar. -/
theorem doc_value_congr (str1 str2 : List StrItem → GoString) (item : StrItem → Bool)
    (h : ∀ items, items.all item = true → str1 items = str2 items) :
    ∀ doc : Doc, doc.valid item = true → doc.valueWith str1 = doc.valueWith str2
  | .null, _ => rfl
  | .bool _, _ => rfl
  | .number _, _ => rfl
  | .string items, hd => by
    simp only [Doc.valueWith]
    rw [h items hd]
  | .emptyArray _, _ => rfl
  | .emptyObject _, _ => rfl
  | .array es, hd => by
    simp only [Doc.valueWith]
    rw [elems_values_congr str1 str2 item h es hd]
  | .object ms, hd => by
    simp only [Doc.valueWith]
    rw [members_values_congr str1 str2 item h ms hd]
theorem elems_values_congr (str1 str2 : List StrItem → GoString) (item : StrItem → Bool)
    (h : ∀ items, items.all item = true → str1 items = str2 items) :
    ∀ es : Elems, es.valid item = true → es.valuesWith str1 = es.valuesWith str2
  | .last pre v post, hd => by
    simp only [Elems.valid, Bool.and_eq_true] at hd
    simp only [Elems.valuesWith]
    rw [doc_value_congr str1 str2 item h v hd.1.2]
  | .cons pre v post tail, hd => by
    simp only [Elems.valid, Bool.and_eq_true] at hd
    simp only [Elems.valuesWith]
    rw [doc_value_congr str1 str2 item h v hd.1.1.2,
      elems_values_congr str1 str2 item h tail hd.2]
theorem members_values_congr (str1 str2 : List StrItem → GoString)
    (item : StrItem → Bool)
    (h : ∀ items, items.all item = true → str1 items = str2 items) :
    ∀ ms : Members, ms.valid item = true → ms.valuesWith str1 = ms.valuesWith str2
  | .last pre key mid sep v post, hd => by
    simp only [Members.valid, Bool.and_eq_true] at hd
    obtain ⟨⟨⟨⟨⟨a, b⟩, c⟩, d⟩, e⟩, f⟩ := hd
    simp only [Members.valuesWith]
    rw [h key b, doc_value_congr str1 str2 item h v e]
  | .cons pre key mid sep v post tail, hd => by
    simp only [Members.valid, Bool.and_eq_true] at hd
    obtain ⟨⟨⟨⟨⟨⟨a, b⟩, c⟩, d⟩, e⟩, f⟩, g⟩ := hd
    simp only [Members.valuesWith]
    rw [h key b, doc_value_congr str1 str2 item h v e,
      members_values_congr str1 str2 item h tail g]
end

theorem strict_wellFormed (doc : Doc) (h : doc.strict = true) : doc.wellFormed = true :=
  doc_valid_mono _ _ strict_item_wellFormed doc h

/-- For a document whose strings are sequences of Unicode characters, the decoder makes
the value the document stands for. -/
theorem read_eq_denote (doc : Doc) (h : doc.strict = true) : doc.read = doc.denote :=
  doc_value_congr readString denoteItems StrItem.strict
    (fun items hi => unquote_items items hi) doc h

/-- The scanner, with the fuel that `readValue` gives, reads the document at the
beginning of the data. -/
theorem scan_body (data ws : GoString) (doc : Doc) (rest : GoString)
    (hdata : data = ws ++ (doc.render ++ rest)) (hws : ws.all isWs = true)
    (hwf : doc.wellFormed = true) (hdepth : doc.depth ≤ maxNestingDepth)
    (hstop : doc.isNumber = true → stopsNumber rest = true) :
    scanValue (2 * data.length + 2) 0 data = .ok doc.read rest := by
  obtain ⟨F, hF⟩ := scan_doc doc hwf
  have hbig : scanValue (max F (2 * data.length + 2)) 0 data = .ok doc.read rest := by
    rw [hdata, scanValue_ws _ _ ws _ hws]
    exact hF _ (Nat.le_max_left _ _) 0 rest (by omega) hstop
  have hfuel := readValue_fuel { data := data, readErr := none }
  have hsame := scanValue_fuel_le (2 * data.length + 2) (max F (2 * data.length + 2)) 0 data _
    (Nat.le_max_right _ _) rfl hfuel
  rw [hbig] at hsame
  exact hsame.symm

theorem array_read (doc : Doc) (h : doc.isArray = true) : ∃ es, doc.read = .array es := by
  cases doc with
  | emptyArray ws => exact ⟨[], rfl⟩
  | array es => exact ⟨_, rfl⟩
  | null => cases h
  | bool b => cases h
  | number n => cases h
  | string items => cases h
  | emptyObject ws => cases h
  | object ms => cases h

/-- A body that begins with an array of the grammar is read as that array. -/
theorem readValue_array (b : Body) (ws : GoString) (doc : Doc) (rest : GoString)
    (hdata : b.data = ws ++ (doc.render ++ rest)) (hws : ws.all isWs = true)
    (hwf : doc.wellFormed = true) (hdepth : doc.depth ≤ maxNestingDepth)
    (harr : doc.isArray = true) : readValue b = .ok doc.read := by
  have hscan := scan_body b.data ws doc rest hdata hws hwf hdepth
    (fun hn => by cases doc <;> simp_all [Doc.isArray, Doc.isNumber])
  obtain ⟨es, hes⟩ := array_read doc harr
  unfold readValue
  rw [hscan, hes]

theorem readValue_beginsWithArray (b : Body) (h : b.beginsWithArray) :
    ∃ es, readValue b = .ok (.array es) := by
  obtain ⟨ws, doc, rest, hdata, hws, hwf, harr, hdepth⟩ := h
  obtain ⟨es, hes⟩ := array_read doc harr
  exact ⟨es, by rw [readValue_array b ws doc rest hdata hws hwf hdepth harr, hes]⟩

/-- A body that holds `null` is read as `null`. -/
theorem readValue_holdsNull (b : Body) (h : b.holdsNull) : readValue b = .ok .null := by
  obtain ⟨ws, rest, hdata, hws, hend⟩ := h
  have hscan := scan_body b.data ws .null rest hdata hws rfl (by decide) (fun hn => by cases hn)
  have hr : Doc.read .null = .null := rfl
  rw [hr] at hscan
  unfold readValue
  rw [hscan]
  dsimp only
  rcases hend with hne | herr
  · rw [if_pos hne]
  · by_cases hne : rest ≠ []
    · rw [if_pos hne]
    · rw [if_neg hne, herr]

/-- A body that begins with an empty array is read as the empty array. -/
theorem readValue_holdsEmptyArray (b : Body) (h : b.holdsEmptyArray) :
    readValue b = .ok (.array []) := by
  obtain ⟨ws, inner, rest, hdata, hws, hinner⟩ := h
  exact readValue_array b ws (.emptyArray inner) rest
    (by rw [hdata]; simp [Doc.render]) hws hinner
    (show (1 : Nat) ≤ maxNestingDepth from by decide) rfl

theorem readValue_ok_of_scan (b : Body) (v : JValue) (h : readValue b = .ok v) :
    ∃ rest, scanValue (2 * b.data.length + 2) 0 b.data = .ok v rest := by
  unfold readValue at h
  split at h
  · cases h
  · repeat' split at h
    all_goals cases h
  · rename_i v1 rest heq
    refine ⟨rest, ?_⟩
    repeat' split at h
    all_goals first
      | (cases h; exact heq)
      | cases h

/-- Whatever the decoder reads is the value of a document of the grammar with which the
body begins. -/
theorem readValue_sound (b : Body) (v : JValue) (h : readValue b = .ok v) :
    ∃ (ws : GoString) (doc : Doc) (rest : GoString),
      b.data = ws ++ (doc.render ++ rest) ∧ ws.all isWs = true ∧ doc.wellFormed = true ∧
        doc.depth ≤ maxNestingDepth ∧ v = doc.read := by
  obtain ⟨rest, hscan⟩ := readValue_ok_of_scan b v h
  obtain ⟨ws, doc, hws, hwf, hdepth, hs, hv⟩ :=
    (scan_sound _).1 0 b.data v rest (Nat.zero_le _) hscan
  exact ⟨ws, doc, rest, hs, hws, hwf, by omega, hv⟩

/-- A body that does not begin with an array of the grammar and not with `null` is read,
if at all, as a value that does not fit a slice. -/
theorem readValue_not_slice (b : Body) (v : JValue) (h : readValue b = .ok v)
    (h1 : ¬ b.beginsWithArray) (h2 : ¬ b.beginsWithNull) : v.fitsSlice = false := by
  obtain ⟨ws, doc, rest, hdata, hws, hwf, hdepth, hv⟩ := readValue_sound b v h
  subst hv
  cases doc with
  | null => exact absurd ⟨ws, rest, hdata, hws⟩ h2
  | emptyArray inner => exact absurd ⟨ws, _, rest, hdata, hws, hwf, rfl, hdepth⟩ h1
  | array es => exact absurd ⟨ws, _, rest, hdata, hws, hwf, rfl, hdepth⟩ h1
  | bool x => rfl
  | number n => rfl
  | string items => rfl
  | emptyObject inner => rfl
  | object ms => rfl

/-! ## Keys that match a field name when letter case is ignored -/

theorem name_byte_facts : ∀ c : Byte, isNameByte c = true →
    c.val < 0x80 ∧
      ¬ ((decide (c.val = 0xE2)) = true) ∧ ¬ ((decide (c.val = 0xC5)) = true) ∧
      (foldByte c = 83 → c.val = 115) ∧ (foldByte c = 75 → c.val = 107) := by
  decide

theorem foldName_name_cons (c : Byte) (cs : GoString) (hc : isNameByte c = true) :
    foldName (c :: cs) = foldByte c :: foldName cs := by
  obtain ⟨_, h1, h2, _, _⟩ := name_byte_facts c hc
  simp only [decide_eq_true_eq] at h1 h2
  cases cs with
  | nil => rfl
  | cons b1 cs1 =>
    cases cs1 with
    | nil =>
      rw [foldName.eq_3]
      rw [if_neg (by simp only [Bool.and_eq_true, decide_eq_true_eq]; exact fun h => h2 h.1)]
    | cons b2 rest =>
      rw [foldName.eq_4]
      rw [if_neg (by simp only [Bool.and_eq_true, decide_eq_true_eq]; exact fun h => h1 h.1.1),
        if_neg (by simp only [Bool.and_eq_true, decide_eq_true_eq]; exact fun h => h2 h.1)]

theorem foldName_eq_nil (key : GoString) (h : foldName key = []) : key = [] := by
  cases key with
  | nil => rfl
  | cons k ks =>
    cases ks with
    | nil => rw [foldName.eq_2] at h; cases h
    | cons b1 ks1 =>
      cases ks1 with
      | nil => rw [foldName.eq_3] at h; split at h <;> cases h
      | cons b2 rest =>
        rw [foldName.eq_4] at h
        repeat' split at h
        all_goals cases h

/-- A byte that folds like a character of a field name is a spelling of that character. -/
theorem spelling_of_fold (c k : Byte) (hc : isNameByte c = true)
    (h : foldByte c = foldByte k) : [k] ∈ spellings c := by
  have hv := congrArg Fin.val h
  unfold foldByte at hv
  unfold isNameByte at hc
  simp only [Bool.or_eq_true, Bool.and_eq_true, decide_eq_true_eq] at hc
  unfold spellings
  by_cases hlow : (decide (97 ≤ c.val) && decide (c.val ≤ 122)) = true
  · rw [if_pos hlow] at hv ⊢
    have hlow2 := hlow
    simp only [Bool.and_eq_true, decide_eq_true_eq] at hlow2
    by_cases hk : (decide (97 ≤ k.val) && decide (k.val ≤ 122)) = true
    · rw [if_pos hk] at hv
      have hk2 := hk
      simp only [Bool.and_eq_true, decide_eq_true_eq] at hk2
      rw [ofNat_val, ofNat_val] at hv
      have hkc : k = c := Fin.ext (by omega)
      rw [hkc]
      exact List.mem_cons_self _ _
    · rw [if_neg hk] at hv
      rw [ofNat_val] at hv
      have hkc : k = Fin.ofNat (c.val - 32) := Fin.ext (by rw [ofNat_val]; omega)
      rw [hkc]
      exact List.mem_cons_of_mem _ (List.mem_cons_self _ _)
  · rw [if_neg hlow] at hv
    have hlow2 := hlow
    simp only [Bool.and_eq_true, decide_eq_true_eq] at hlow2
    by_cases hk : (decide (97 ≤ k.val) && decide (k.val ≤ 122)) = true
    · rw [if_pos hk] at hv
      have hk2 := hk
      simp only [Bool.and_eq_true, decide_eq_true_eq] at hk2
      rw [ofNat_val] at hv
      omega
    · rw [if_neg hk] at hv
      have hkc : k = c := Fin.ext hv.symm
      rw [hkc]
      exact List.mem_cons_self _ _

theorem isPrefixOf_append_self (sp key : GoString) : sp.isPrefixOf (sp ++ key) = true := by
  induction sp with
  | nil => simp [List.isPrefixOf]
  | cons c cs ih => simp [List.isPrefixOf, ih]

theorem equalFold_intro (c : Byte) (cs sp key : GoString) (hsp : sp ∈ spellings c)
    (h : equalFold cs key = true) : equalFold (c :: cs) (sp ++ key) = true := by
  rw [equalFold]
  apply List.any_eq_true.2
  refine ⟨sp, hsp, ?_⟩
  simp only [Bool.and_eq_true]
  exact ⟨isPrefixOf_append_self sp key, by rw [List.drop_left]; exact h⟩

theorem kelvin_spelling : [(0xE2 : Byte), 0x84, 0xAA] ∈ spellings (107 : Byte) := by decide

theorem long_s_spelling : [(0xC5 : Byte), 0xBF] ∈ spellings (115 : Byte) := by decide

/-- A key that the decoder folds to the same text as a field name equals the name when
letter case is ignored. -/
theorem equalFold_of_foldName (name : GoString) (hn : name.all isNameByte = true) :
    ∀ key, foldName name = foldName key → equalFold name key = true := by
  induction name with
  | nil =>
    intro key h
    have : key = [] := foldName_eq_nil key h.symm
    subst this
    rfl
  | cons c cs ih =>
    intro key h
    simp only [List.all_cons, Bool.and_eq_true] at hn
    obtain ⟨hc, hcs⟩ := hn
    obtain ⟨_, _, _, hS, hK⟩ := name_byte_facts c hc
    rw [foldName_name_cons c cs hc] at h
    cases key with
    | nil => cases h
    | cons k ks =>
      cases ks with
      | nil =>
        rw [foldName.eq_2] at h
        obtain ⟨h1, h2⟩ := List.cons.inj h
        exact equalFold_intro c cs [k] [] (spelling_of_fold c k hc h1) (ih hcs [] h2)
      | cons b1 ks1 =>
        cases ks1 with
        | nil =>
          rw [foldName.eq_3] at h
          split at h
          · rename_i hlong
            simp only [Bool.and_eq_true, decide_eq_true_eq] at hlong
            obtain ⟨h1, h2⟩ := List.cons.inj h
            have hc115 : c = (115 : Byte) := Fin.ext (hS h1)
            have hk : k = (0xC5 : Byte) := Fin.ext hlong.1
            have hb : b1 = (0xBF : Byte) := Fin.ext hlong.2
            rw [hc115, hk, hb]
            exact equalFold_intro 115 cs [0xC5, 0xBF] [] long_s_spelling (ih hcs [] h2)
          · obtain ⟨h1, h2⟩ := List.cons.inj h
            exact equalFold_intro c cs [k] [b1] (spelling_of_fold c k hc h1) (ih hcs [b1] h2)
        | cons b2 rest =>
          rw [foldName.eq_4] at h
          split at h
          · rename_i hkel
            simp only [Bool.and_eq_true, decide_eq_true_eq] at hkel
            obtain ⟨h1, h2⟩ := List.cons.inj h
            have hc107 : c = (107 : Byte) := Fin.ext (hK h1)
            have hk : k = (0xE2 : Byte) := Fin.ext hkel.1.1
            have hb1 : b1 = (0x84 : Byte) := Fin.ext hkel.1.2
            have hb2 : b2 = (0xAA : Byte) := Fin.ext hkel.2
            rw [hc107, hk, hb1, hb2]
            exact equalFold_intro 107 cs [0xE2, 0x84, 0xAA] rest kelvin_spelling (ih hcs rest h2)
          · split at h
            · rename_i hlong
              simp only [Bool.and_eq_true, decide_eq_true_eq] at hlong
              obtain ⟨h1, h2⟩ := List.cons.inj h
              have hc115 : c = (115 : Byte) := Fin.ext (hS h1)
              have hk : k = (0xC5 : Byte) := Fin.ext hlong.1
              have hb : b1 = (0xBF : Byte) := Fin.ext hlong.2
              rw [hc115, hk, hb]
              exact equalFold_intro 115 cs [0xC5, 0xBF] (b2 :: rest) long_s_spelling
                (ih hcs (b2 :: rest) h2)
            · obtain ⟨h1, h2⟩ := List.cons.inj h
              exact equalFold_intro c cs [k] (b1 :: b2 :: rest) (spelling_of_fold c k hc h1)
                (ih hcs (b1 :: b2 :: rest) h2)

/-! ## Decoding an array of objects -/

theorem findField_exact {T : Type} (fields : List (Field T)) (k : GoString) (f : Field T)
    (h : fields.find? (fun f => f.name = k) = some f) : findField fields k = some f := by
  unfold findField; rw [h]

theorem findField_none {T : Type} (fields : List (Field T)) (k : GoString)
    (h : fields.find? (fun f => f.name = k) = none)
    (hfold : fields.all (fun f => foldName f.name != foldName k) = true) :
    findField fields k = none := by
  unfold findField
  rw [h]
  apply List.find?_eq_none.2
  intro f hf
  have := List.all_eq_true.1 hfold f hf
  simpa using this

theorem parseDigits_eq (ds : GoString) (hne : ds ≠ []) (hd : ds.all isDigit = true) :
    parseDigits ds = some (decimalValue ds) := by
  have hfold : ∀ (l : GoString) (n : Nat), l.all isDigit = true →
      l.foldl (fun acc d => acc.bind (fun n => if isDigit d then some (n * 10 + (d.val - 48)) else none))
        (some n) = some (l.foldl (fun n d => n * 10 + (d.val - 48)) n) := by
    intro l
    induction l with
    | nil => intro n _; rfl
    | cons d l ih =>
      intro n h
      simp only [List.all_cons, Bool.and_eq_true] at h
      simp only [List.foldl_cons, Option.some_bind, h.1, if_true]
      exact ih _ h.2
  cases ds with
  | nil => exact absurd rfl hne
  | cons c cs => exact hfold (c :: cs) 0 hd

theorem isDigit_ne_sign (c : Byte) (h : isDigit c = true) : c.val ≠ 45 ∧ c.val ≠ 43 := by
  revert c; decide

theorem ParseInt_of_isIntLiteral (lit : GoString) (h : isIntLiteral lit = true) :
    ParseInt lit = some (intValue lit) := by
  cases lit with
  | nil => simp [isIntLiteral] at h
  | cons c cs =>
    unfold isIntLiteral at h
    unfold ParseInt intValue
    by_cases hc : c.val = 45
    · simp only [hc, if_true, Bool.and_eq_true, decide_eq_true_eq] at h
      obtain ⟨⟨hne, hd⟩, hle⟩ := h
      have hne' : cs ≠ [] := by simpa using hne
      have hle' : decimalValue cs ≤ 9223372036854775808 := by norm_num at hle; exact hle
      simp [hc, parseDigits_eq cs hne' hd, hle']
    · simp only [hc, if_false, Bool.and_eq_true, decide_eq_true_eq] at h
      obtain ⟨hd, hlt⟩ := h
      have h43 : c.val ≠ 43 := by
        have : isDigit c = true := by
          simp only [List.all_cons, Bool.and_eq_true] at hd; exact hd.1
        exact (isDigit_ne_sign c this).2
      have hlt' : decimalValue (c :: cs) < 9223372036854775808 := by norm_num at hlt; exact hlt
      simp [hc, h43, parseDigits_eq (c :: cs) (by simp) hd, hlt']

theorem storeStringElems_ok (es : List JValue) (h : es.all JValue.isStringOrNull = true) :
    storeStringElems [] es = (es.map elemString, none) := by
  induction es with
  | nil => rfl
  | cons e es ih =>
    simp only [List.all_cons, Bool.and_eq_true] at h
    have := ih h.2
    cases e <;> simp_all [storeStringElems, elemString, JValue.isStringOrNull]

theorem storeStringElems_noerr (backing : List GoString) (es : List JValue)
    (h : es.all JValue.isStringOrNull = true) : (storeStringElems backing es).2 = none := by
  induction es generalizing backing with
  | nil => rfl
  | cons e es ih =>
    simp only [List.all_cons, Bool.and_eq_true] at h
    have := ih backing.tail h.2
    cases e <;> simp_all [storeStringElems, JValue.isStringOrNull]

/-- Storing a value that the field accepts raises no error. -/
theorem storeField_ok {T : Type} (f : Field T) (cur : T) (v : JValue) (h : f.accepts v = true) :
    (storeField f cur v).2 = none := by
  cases f with
  | string name set => cases v <;> simp_all [storeField, Field.accepts]
  | int name set =>
    cases v <;> simp_all [storeField, Field.accepts]
    rename_i lit
    rw [ParseInt_of_isIntLiteral lit h]
  | float64 name pf set =>
    cases v <;> simp_all [storeField, Field.accepts]
    rename_i lit
    obtain ⟨x, hx⟩ := Option.isSome_iff_exists.1 h
    rw [hx]
  | strings name get set =>
    cases v <;> simp_all [storeField, Field.accepts, storeStrings]
    rename_i es
    split
    · rfl
    · exact storeStringElems_noerr _ es (List.all_eq_true.2 h)

theorem any_of_find {T : Type} (fields : List (Field T)) (k : GoString) (f : Field T)
    (h : fields.find? (fun f => f.name = k) = some f) :
    fields.any (fun f => f.name = k) = true :=
  List.any_eq_true.2 ⟨f, List.mem_of_find?_eq_some h, by simpa using List.find?_some h⟩

theorem wellTyped_cons {T : Type} (fields : List (Field T))
    (hnames : fields.all (fun f => f.name.all isNameByte) = true) (k : GoString) (v : JValue)
    (ms : List (GoString × JValue)) (h : wellTyped fields ((k, v) :: ms) = true) :
    (fields.any (fun f => f.name = k) = true → k ∉ ms.map Prod.fst) ∧
      wellTyped fields ms = true ∧
      (match fields.find? (fun f => f.name = k) with
        | some f => f.accepts v
        | none => fields.all (fun f => foldName f.name != foldName k)) = true := by
  unfold wellTyped at h ⊢
  simp only [List.map_cons, List.filter_cons, Bool.and_eq_true, decide_eq_true_eq,
    List.all_cons] at h ⊢
  obtain ⟨hnd, hkv, hall⟩ := h
  have hkv2 : (match fields.find? (fun f => f.name = k) with
      | some f => f.accepts v
      | none => fields.all (fun f => foldName f.name != foldName k)) = true := by
    cases hf : fields.find? (fun f => f.name = k) with
    | some f => rw [hf] at hkv; exact hkv
    | none =>
      rw [hf] at hkv
      simp only at hkv ⊢
      rw [List.all_eq_true] at hkv ⊢
      intro f hfm
      have hne := hkv f hfm
      have hname := List.all_eq_true.1 hnames f hfm
      by_cases he : foldName f.name = foldName k
      · rw [equalFold_of_foldName f.name hname k he] at hne
        cases hne
      · simpa using he
  by_cases hany : fields.any (fun f => decide (f.name = k)) = true
  · rw [if_pos hany, List.nodup_cons] at hnd
    exact ⟨fun _ hmem => hnd.1 (List.mem_filter.2 ⟨hmem, hany⟩), ⟨hnd.2, hall⟩, hkv2⟩
  · rw [if_neg hany] at hnd
    exact ⟨fun h => absurd h hany, ⟨hnd, hall⟩, hkv2⟩

/-- Storing a well-typed object raises no error. -/
theorem storeObject_ok {T : Type} (fields : List (Field T))
    (hnames : fields.all (fun f => f.name.all isNameByte) = true)
    (ms : List (GoString × JValue)) (h : wellTyped fields ms = true) (t : T) : (storeObject fields t ms).2 = none := by
  induction ms generalizing t with
  | nil => rfl
  | cons m ms ih =>
    obtain ⟨k, v⟩ := m
    obtain ⟨_, hms, hkv⟩ := wellTyped_cons fields hnames k v ms h
    unfold storeObject
    cases hf : fields.find? (fun f => f.name = k) with
    | none =>
      rw [hf] at hkv
      rw [findField_none fields k hf hkv]
      exact ih hms t
    | some f =>
      rw [hf] at hkv
      rw [findField_exact fields k f hf]
      simp only [storeField_ok f t v hkv, ih hms, saveError]

theorem member_cons_self (k : GoString) (v : JValue) (ms : List (GoString × JValue)) :
    member ((k, v) :: ms) k = some v := by
  simp [member]

theorem member_cons_ne (k name : GoString) (v : JValue) (ms : List (GoString × JValue))
    (h : k ≠ name) : member ((k, v) :: ms) name = member ms name := by
  simp [member, List.find?_cons, h]

theorem member_of_not_mem (name : GoString) (ms : List (GoString × JValue))
    (h : name ∉ ms.map Prod.fst) : member ms name = none := by
  unfold member
  rw [List.find?_eq_none.2]
  · rfl
  · intro m hm
    have : m.1 ≠ name := fun e => h (e ▸ List.mem_map_of_mem Prod.fst hm)
    simpa using this

/-- What a getter reads after an object was stored: its own member, stored into it, when
the object has one, and what it read before otherwise. -/
theorem get_storeObject {T α : Type} (fields : List (Field T)) (get : T → α) (name : GoString)
    (f : Field T) (own : α → JValue → α)
    (hfind : fields.find? (fun f => f.name = name) = some f)
    (hown : ∀ t v, get (storeField f t v).1 = own (get t) v)
    (hframe : ∀ g ∈ fields, g.name ≠ name → ∀ t v, get (storeField g t v).1 = get t)
    (hnames : fields.all (fun f => f.name.all isNameByte) = true)
    (ms : List (GoString × JValue)) (hw : wellTyped fields ms = true) (t : T) :
    get (storeObject fields t ms).1 =
      match member ms name with
      | some v => own (get t) v
      | none => get t := by
  induction ms generalizing t with
  | nil => rfl
  | cons m ms ih =>
    obtain ⟨k, v⟩ := m
    obtain ⟨hk, hms, hkv⟩ := wellTyped_cons fields hnames k v ms hw
    unfold storeObject
    by_cases hkn : k = name
    · subst hkn
      rw [findField_exact fields k f hfind, member_cons_self]
      simp only
      rw [ih hms, member_of_not_mem k ms (hk (any_of_find fields k f hfind))]
      exact hown t v
    · rw [member_cons_ne k name v ms hkn]
      cases hf : fields.find? (fun f => f.name = k) with
      | none =>
        rw [hf] at hkv
        rw [findField_none fields k hf hkv]
        exact ih hms t
      | some g =>
        rw [findField_exact fields k g hf]
        simp only
        have hg := List.find?_some hf
        have hgname : g.name = k := by simpa using hg
        have hgm : g ∈ fields := List.mem_of_find?_eq_some hf
        rw [ih hms, hframe g hgm (hgname ▸ hkn) t v]

/-- A member named like a field has a value the field accepts. -/
theorem accepts_of_member {T : Type} (fields : List (Field T)) (name : GoString) (f : Field T)
    (hfind : fields.find? (fun f => f.name = name) = some f)
    (hnames : fields.all (fun f => f.name.all isNameByte) = true)
    (ms : List (GoString × JValue)) (hw : wellTyped fields ms = true) (v : JValue)
    (hm : member ms name = some v) : f.accepts v = true := by
  induction ms with
  | nil => simp [member] at hm
  | cons m ms ih =>
    obtain ⟨k, v1⟩ := m
    obtain ⟨hk, hms, hkv⟩ := wellTyped_cons fields hnames k v1 ms hw
    by_cases hkn : k = name
    · subst hkn
      rw [member_cons_self] at hm
      rw [hfind] at hkv
      cases hm
      exact hkv
    · rw [member_cons_ne k name v1 ms hkn] at hm
      exact ih hms hm

theorem string_field {T : Type} (fields : List (Field T)) (get : T → GoString)
    (name : GoString) (set : T → GoString → T)
    (hfind : fields.find? (fun f => f.name = name) = some (.string name set))
    (hset : ∀ t s, get (set t s) = s)
    (hframe : ∀ g ∈ fields, g.name ≠ name → ∀ t v, get (storeField g t v).1 = get t)
    (hnames : fields.all (fun f => f.name.all isNameByte) = true)
    (ms : List (GoString × JValue)) (hw : wellTyped fields ms = true) (t : T) (ht : get t = []) :
    get (storeObject fields t ms).1 = stringOf ms name := by
  rw [get_storeObject fields get name _
    (fun cur v => match v with | .string s => s | _ => cur) hfind
    (by intro t v; cases v <;> simp [storeField, hset]) hframe hnames ms hw t, ht]
  unfold stringOf
  cases member ms name with
  | none => rfl
  | some v => cases v <;> rfl

theorem int_field {T : Type} (fields : List (Field T)) (get : T → Int)
    (name : GoString) (set : T → Int → T)
    (hfind : fields.find? (fun f => f.name = name) = some (.int name set))
    (hset : ∀ t s, get (set t s) = s)
    (hframe : ∀ g ∈ fields, g.name ≠ name → ∀ t v, get (storeField g t v).1 = get t)
    (hnames : fields.all (fun f => f.name.all isNameByte) = true)
    (ms : List (GoString × JValue)) (hw : wellTyped fields ms = true) (t : T) (ht : get t = 0) :
    get (storeObject fields t ms).1 = intOf ms name := by
  rw [get_storeObject fields get name _
    (fun cur v => match v with
      | .number lit => (match ParseInt lit with | some n => n | none => cur)
      | _ => cur) hfind
    (by
      intro t v
      cases v <;> simp [storeField]
      rename_i lit
      cases ParseInt lit <;> simp [hset]) hframe hnames ms hw t, ht]
  unfold intOf
  cases hm : member ms name with
  | none => rfl
  | some v =>
    have hacc := accepts_of_member fields name _ hfind hnames ms hw v hm
    cases v <;> try rfl
    rename_i lit
    simp only [Field.accepts] at hacc
    simp only [ParseInt_of_isIntLiteral lit hacc]

theorem float_field {T : Type} (fields : List (Field T)) (get : T → Float64)
    (name : GoString) (parseFloat : GoString → Option Float64) (set : T → Float64 → T)
    (hfind : fields.find? (fun f => f.name = name) = some (.float64 name parseFloat set))
    (hset : ∀ t s, get (set t s) = s)
    (hframe : ∀ g ∈ fields, g.name ≠ name → ∀ t v, get (storeField g t v).1 = get t)
    (hnames : fields.all (fun f => f.name.all isNameByte) = true)
    (ms : List (GoString × JValue)) (hw : wellTyped fields ms = true) (t : T)
    (ht : get t = { bits := 0 }) :
    get (storeObject fields t ms).1 = floatOf parseFloat ms name := by
  rw [get_storeObject fields get name _
    (fun cur v => match v with
      | .number lit => (match parseFloat lit with | some x => x | none => cur)
      | _ => cur) hfind
    (by
      intro t v
      cases v <;> simp [storeField]
      rename_i lit
      cases parseFloat lit <;> simp [hset]) hframe hnames ms hw t, ht]
  unfold floatOf
  cases hm : member ms name with
  | none => rfl
  | some v =>
    cases v <;> try rfl
    rename_i lit
    show (match parseFloat lit with | some x => x | none => ({ bits := 0 } : Float64)) =
      (parseFloat lit).getD { bits := 0 }
    cases parseFloat lit <;> rfl

theorem strings_field {T : Type} (fields : List (Field T)) (get : T → Slice GoString)
    (name : GoString) (set : T → Slice GoString → T)
    (hfind : fields.find? (fun f => f.name = name) = some (.strings name get set))
    (hset : ∀ t s, get (set t s) = s)
    (hframe : ∀ g ∈ fields, g.name ≠ name → ∀ t v, get (storeField g t v).1 = get t)
    (hnames : fields.all (fun f => f.name.all isNameByte) = true)
    (ms : List (GoString × JValue)) (hw : wellTyped fields ms = true) (t : T)
    (ht : get t = Slice.nil) :
    get (storeObject fields t ms).1 = stringsOf ms name := by
  rw [get_storeObject fields get name _ (fun cur v => (storeStrings cur v).1) hfind
    (by intro t v; simp [storeField, hset]) hframe hnames ms hw t, ht]
  unfold stringsOf
  cases hm : member ms name with
  | none => rfl
  | some v =>
    have hacc := accepts_of_member fields name _ hfind hnames ms hw v hm
    cases v <;> try rfl
    rename_i es
    simp only [Field.accepts] at hacc
    simp only [storeStrings]
    split
    · rename_i hlen
      have : es = [] := List.length_eq_zero.1 hlen
      subst this; rfl
    · have hb : (Slice.nil : Slice GoString).elems ++ (Slice.nil : Slice GoString).spare = [] := rfl
      rw [hb, storeStringElems_ok es hacc]
      simp

/-! ## Each record type -/

theorem storeObject_Term (ms : List (GoString × JValue))
    (hw : wellTyped Term.fields ms = true) :
    storeObject Term.fields Term.zero ms = (Term.ofObject ms, none) := by
  apply Prod.ext
  · apply Term.ext
    · refine int_field Term.fields Term.ID (ascii "id") _ rfl (fun _ _ => rfl) ?_ (by decide) ms hw Term.zero rfl
      intro g hg hne t v
      simp only [Term.fields, List.mem_cons, List.mem_singleton, List.not_mem_nil, or_false] at hg
      rcases hg with rfl | rfl | rfl | rfl
      all_goals first
        | exact absurd rfl hne
        | (cases v <;> first | rfl | (simp only [storeField]; split <;> rfl))
    · refine string_field Term.fields Term.Name (ascii "name") _ rfl (fun _ _ => rfl) ?_ (by decide) ms hw Term.zero rfl
      intro g hg hne t v
      simp only [Term.fields, List.mem_cons, List.mem_singleton, List.not_mem_nil, or_false] at hg
      rcases hg with rfl | rfl | rfl | rfl
      all_goals first
        | exact absurd rfl hne
        | (cases v <;> first | rfl | (simp only [storeField]; split <;> rfl))
    · refine string_field Term.fields Term.StartDate (ascii "start_date") _ rfl (fun _ _ => rfl) ?_ (by decide) ms hw Term.zero rfl
      intro g hg hne t v
      simp only [Term.fields, List.mem_cons, List.mem_singleton, List.not_mem_nil, or_false] at hg
      rcases hg with rfl | rfl | rfl | rfl
      all_goals first
        | exact absurd rfl hne
        | (cases v <;> first | rfl | (simp only [storeField]; split <;> rfl))
    · refine string_field Term.fields Term.EndDate (ascii "end_date") _ rfl (fun _ _ => rfl) ?_ (by decide) ms hw Term.zero rfl
      intro g hg hne t v
      simp only [Term.fields, List.mem_cons, List.mem_singleton, List.not_mem_nil, or_false] at hg
      rcases hg with rfl | rfl | rfl | rfl
      all_goals first
        | exact absurd rfl hne
        | (cases v <;> first | rfl | (simp only [storeField]; split <;> rfl))
  · exact storeObject_ok _ (by decide) ms hw _

theorem storeObject_School (ms : List (GoString × JValue))
    (hw : wellTyped School.fields ms = true) :
    storeObject School.fields School.zero ms = (School.ofObject ms, none) := by
  apply Prod.ext
  · apply School.ext
    · refine string_field School.fields School.Symbol (ascii "symbol") _ rfl (fun _ _ => rfl) ?_ (by decide) ms hw School.zero rfl
      intro g hg hne t v
      simp only [School.fields, List.mem_cons, List.mem_singleton, List.not_mem_nil, or_false] at hg
      rcases hg with rfl | rfl
      all_goals first
        | exact absurd rfl hne
        | (cases v <;> first | rfl | (simp only [storeField]; split <;> rfl))
    · refine string_field School.fields School.Name (ascii "name") _ rfl (fun _ _ => rfl) ?_ (by decide) ms hw School.zero rfl
      intro g hg hne t v
      simp only [School.fields, List.mem_cons, List.mem_singleton, List.not_mem_nil, or_false] at hg
      rcases hg with rfl | rfl
      all_goals first
        | exact absurd rfl hne
        | (cases v <;> first | rfl | (simp only [storeField]; split <;> rfl))
  · exact storeObject_ok _ (by decide) ms hw _

theorem storeObject_Subject (ms : List (GoString × JValue))
    (hw : wellTyped Subject.fields ms = true) :
    storeObject Subject.fields Subject.zero ms = (Subject.ofObject ms, none) := by
  apply Prod.ext
  · apply Subject.ext
    · refine string_field Subject.fields Subject.Symbol (ascii "symbol") _ rfl (fun _ _ => rfl) ?_ (by decide) ms hw Subject.zero rfl
      intro g hg hne t v
      simp only [Subject.fields, List.mem_cons, List.mem_singleton, List.not_mem_nil, or_false] at hg
      rcases hg with rfl | rfl
      all_goals first
        | exact absurd rfl hne
        | (cases v <;> first | rfl | (simp only [storeField]; split <;> rfl))
    · refine string_field Subject.fields Subject.Name (ascii "name") _ rfl (fun _ _ => rfl) ?_ (by decide) ms hw Subject.zero rfl
      intro g hg hne t v
      simp only [Subject.fields, List.mem_cons, List.mem_singleton, List.not_mem_nil, or_false] at hg
      rcases hg with rfl | rfl
      all_goals first
        | exact absurd rfl hne
        | (cases v <;> first | rfl | (simp only [storeField]; split <;> rfl))
  · exact storeObject_ok _ (by decide) ms hw _

theorem storeObject_Course (ms : List (GoString × JValue))
    (hw : wellTyped Course.fields ms = true) :
    storeObject Course.fields Course.zero ms = (Course.ofObject ms, none) := by
  apply Prod.ext
  · apply Course.ext
    · refine int_field Course.fields Course.ID (ascii "id") _ rfl (fun _ _ => rfl) ?_ (by decide) ms hw Course.zero rfl
      intro g hg hne t v
      simp only [Course.fields, List.mem_cons, List.mem_singleton, List.not_mem_nil, or_false] at hg
      rcases hg with rfl | rfl | rfl | rfl | rfl | rfl | rfl | rfl | rfl | rfl | rfl | rfl | rfl | rfl | rfl | rfl
      all_goals first
        | exact absurd rfl hne
        | (cases v <;> first | rfl | (simp only [storeField]; split <;> rfl))
    · refine string_field Course.fields Course.Title (ascii "title") _ rfl (fun _ _ => rfl) ?_ (by decide) ms hw Course.zero rfl
      intro g hg hne t v
      simp only [Course.fields, List.mem_cons, List.mem_singleton, List.not_mem_nil, or_false] at hg
      rcases hg with rfl | rfl | rfl | rfl | rfl | rfl | rfl | rfl | rfl | rfl | rfl | rfl | rfl | rfl | rfl | rfl
      all_goals first
        | exact absurd rfl hne
        | (cases v <;> first | rfl | (simp only [storeField]; split <;> rfl))
    · refine string_field Course.fields Course.Term (ascii "term") _ rfl (fun _ _ => rfl) ?_ (by decide) ms hw Course.zero rfl
      intro g hg hne t v
      simp only [Course.fields, List.mem_cons, List.mem_singleton, List.not_mem_nil, or_false] at hg
      rcases hg with rfl | rfl | rfl | rfl | rfl | rfl | rfl | rfl | rfl | rfl | rfl | rfl | rfl | rfl | rfl | rfl
      all_goals first
        | exact absurd rfl hne
        | (cases v <;> first | rfl | (simp only [storeField]; split <;> rfl))
    · refine string_field Course.fields Course.Instructor (ascii "instructor") _ rfl (fun _ _ => rfl) ?_ (by decide) ms hw Course.zero rfl
      intro g hg hne t v
      simp only [Course.fields, List.mem_cons, List.mem_singleton, List.not_mem_nil, or_false] at hg
      rcases hg with rfl | rfl | rfl | rfl | rfl | rfl | rfl | rfl | rfl | rfl | rfl | rfl | rfl | rfl | rfl | rfl
      all_goals first
        | exact absurd rfl hne
        | (cases v <;> first | rfl | (simp only [storeField]; split <;> rfl))
    · refine string_field Course.fields Course.Subject (ascii "subject") _ rfl (fun _ _ => rfl) ?_ (by decide) ms hw Course.zero rfl
      intro g hg hne t v
      simp only [Course.fields, List.mem_cons, List.mem_singleton, List.not_mem_nil, or_false] at hg
      rcases hg with rfl | rfl | rfl | rfl | rfl | rfl | rfl | rfl | rfl | rfl | rfl | rfl | rfl | rfl | rfl | rfl
      all_goals first
        | exact absurd rfl hne
        | (cases v <;> first | rfl | (simp only [storeField]; split <;> rfl))
    · refine string_field Course.fields Course.CatalogNum (ascii "catalog_num") _ rfl (fun _ _ => rfl) ?_ (by decide) ms hw Course.zero rfl
      intro g hg hne t v
      simp only [Course.fields, List.mem_cons, List.mem_singleton, List.not_mem_nil, or_false] at hg
      rcases hg with rfl | rfl | rfl | rfl | rfl | rfl | rfl | rfl | rfl | rfl | rfl | rfl | rfl | rfl | rfl | rfl
      all_goals first
        | exact absurd rfl hne
        | (cases v <;> first | rfl | (simp only [storeField]; split <;> rfl))
    · refine string_field Course.fields Course.Section (ascii "section") _ rfl (fun _ _ => rfl) ?_ (by decide) ms hw Course.zero rfl
      intro g hg hne t v
      simp only [Course.fields, List.mem_cons, List.mem_singleton, List.not_mem_nil, or_false] at hg
      rcases hg with rfl | rfl | rfl | rfl | rfl | rfl | rfl | rfl | rfl | rfl | rfl | rfl | rfl | rfl | rfl | rfl
      all_goals first
        | exact absurd rfl hne
        | (cases v <;> first | rfl | (simp only [storeField]; split <;> rfl))
    · refine string_field Course.fields Course.Room (ascii "room") _ rfl (fun _ _ => rfl) ?_ (by decide) ms hw Course.zero rfl
      intro g hg hne t v
      simp only [Course.fields, List.mem_cons, List.mem_singleton, List.not_mem_nil, or_false] at hg
      rcases hg with rfl | rfl | rfl | rfl | rfl | rfl | rfl | rfl | rfl | rfl | rfl | rfl | rfl | rfl | rfl | rfl
      all_goals first
        | exact absurd rfl hne
        | (cases v <;> first | rfl | (simp only [storeField]; split <;> rfl))
    · refine string_field Course.fields Course.MeetingDays (ascii "meeting_days") _ rfl (fun _ _ => rfl) ?_ (by decide) ms hw Course.zero rfl
      intro g hg hne t v
      simp only [Course.fields, List.mem_cons, List.mem_singleton, List.not_mem_nil, or_false] at hg
      rcases hg with rfl | rfl | rfl | rfl | rfl | rfl | rfl | rfl | rfl | rfl | rfl | rfl | rfl | rfl | rfl | rfl
      all_goals first
        | exact absurd rfl hne
        | (cases v <;> first | rfl | (simp only [storeField]; split <;> rfl))
    · refine string_field Course.fields Course.StartTime (ascii "start_time") _ rfl (fun _ _ => rfl) ?_ (by decide) ms hw Course.zero rfl
      intro g hg hne t v
      simp only [Course.fields, List.mem_cons, List.mem_singleton, List.not_mem_nil, or_false] at hg
      rcases hg with rfl | rfl | rfl | rfl | rfl | rfl | rfl | rfl | rfl | rfl | rfl | rfl | rfl | rfl | rfl | rfl
      all_goals first
        | exact absurd rfl hne
        | (cases v <;> first | rfl | (simp only [storeField]; split <;> rfl))
    · refine string_field Course.fields Course.EndTime (ascii "end_time") _ rfl (fun _ _ => rfl) ?_ (by decide) ms hw Course.zero rfl
      intro g hg hne t v
      simp only [Course.fields, List.mem_cons, List.mem_singleton, List.not_mem_nil, or_false] at hg
      rcases hg with rfl | rfl | rfl | rfl | rfl | rfl | rfl | rfl | rfl | rfl | rfl | rfl | rfl | rfl | rfl | rfl
      all_goals first
        | exact absurd rfl hne
        | (cases v <;> first | rfl | (simp only [storeField]; split <;> rfl))
    · refine int_field Course.fields Course.Seats (ascii "seats") _ rfl (fun _ _ => rfl) ?_ (by decide) ms hw Course.zero rfl
      intro g hg hne t v
      simp only [Course.fields, List.mem_cons, List.mem_singleton, List.not_mem_nil, or_false] at hg
      rcases hg with rfl | rfl | rfl | rfl | rfl | rfl | rfl | rfl | rfl | rfl | rfl | rfl | rfl | rfl | rfl | rfl
      all_goals first
        | exact absurd rfl hne
        | (cases v <;> first | rfl | (simp only [storeField]; split <;> rfl))
    · refine string_field Course.fields Course.Topic (ascii "topic") _ rfl (fun _ _ => rfl) ?_ (by decide) ms hw Course.zero rfl
      intro g hg hne t v
      simp only [Course.fields, List.mem_cons, List.mem_singleton, List.not_mem_nil, or_false] at hg
      rcases hg with rfl | rfl | rfl | rfl | rfl | rfl | rfl | rfl | rfl | rfl | rfl | rfl | rfl | rfl | rfl | rfl
      all_goals first
        | exact absurd rfl hne
        | (cases v <;> first | rfl | (simp only [storeField]; split <;> rfl))
    · refine string_field Course.fields Course.Component (ascii "component") _ rfl (fun _ _ => rfl) ?_ (by decide) ms hw Course.zero rfl
      intro g hg hne t v
      simp only [Course.fields, List.mem_cons, List.mem_singleton, List.not_mem_nil, or_false] at hg
      rcases hg with rfl | rfl | rfl | rfl | rfl | rfl | rfl | rfl | rfl | rfl | rfl | rfl | rfl | rfl | rfl | rfl
      all_goals first
        | exact absurd rfl hne
        | (cases v <;> first | rfl | (simp only [storeField]; split <;> rfl))
    · refine int_field Course.fields Course.ClassNum (ascii "class_num") _ rfl (fun _ _ => rfl) ?_ (by decide) ms hw Course.zero rfl
      intro g hg hne t v
      simp only [Course.fields, List.mem_cons, List.mem_singleton, List.not_mem_nil, or_false] at hg
      rcases hg with rfl | rfl | rfl | rfl | rfl | rfl | rfl | rfl | rfl | rfl | rfl | rfl | rfl | rfl | rfl | rfl
      all_goals first
        | exact absurd rfl hne
        | (cases v <;> first | rfl | (simp only [storeField]; split <;> rfl))
    · refine int_field Course.fields Course.CourseID (ascii "course_id") _ rfl (fun _ _ => rfl) ?_ (by decide) ms hw Course.zero rfl
      intro g hg hne t v
      simp only [Course.fields, List.mem_cons, List.mem_singleton, List.not_mem_nil, or_false] at hg
      rcases hg with rfl | rfl | rfl | rfl | rfl | rfl | rfl | rfl | rfl | rfl | rfl | rfl | rfl | rfl | rfl | rfl
      all_goals first
        | exact absurd rfl hne
        | (cases v <;> first | rfl | (simp only [storeField]; split <;> rfl))
  · exact storeObject_ok _ (by decide) ms hw _

theorem storeObject_Instructor (ms : List (GoString × JValue))
    (hw : wellTyped Instructor.fields ms = true) :
    storeObject Instructor.fields Instructor.zero ms = (Instructor.ofObject ms, none) := by
  apply Prod.ext
  · apply Instructor.ext
    · refine int_field Instructor.fields Instructor.ID (ascii "id") _ rfl (fun _ _ => rfl) ?_ (by decide) ms hw Instructor.zero rfl
      intro g hg hne t v
      simp only [Instructor.fields, List.mem_cons, List.mem_singleton, List.not_mem_nil, or_false] at hg
      rcases hg with rfl | rfl | rfl | rfl | rfl | rfl | rfl
      all_goals first
        | exact absurd rfl hne
        | (cases v <;> first | rfl | (simp only [storeField]; split <;> rfl))
    · refine string_field Instructor.fields Instructor.Name (ascii "name") _ rfl (fun _ _ => rfl) ?_ (by decide) ms hw Instructor.zero rfl
      intro g hg hne t v
      simp only [Instructor.fields, List.mem_cons, List.mem_singleton, List.not_mem_nil, or_false] at hg
      rcases hg with rfl | rfl | rfl | rfl | rfl | rfl | rfl
      all_goals first
        | exact absurd rfl hne
        | (cases v <;> first | rfl | (simp only [storeField]; split <;> rfl))
    · refine string_field Instructor.fields Instructor.Bio (ascii "bio") _ rfl (fun _ _ => rfl) ?_ (by decide) ms hw Instructor.zero rfl
      intro g hg hne t v
      simp only [Instructor.fields, List.mem_cons, List.mem_singleton, List.not_mem_nil, or_false] at hg
      rcases hg with rfl | rfl | rfl | rfl | rfl | rfl | rfl
      all_goals first
        | exact absurd rfl hne
        | (cases v <;> first | rfl | (simp only [storeField]; split <;> rfl))
    · refine string_field Instructor.fields Instructor.Address (ascii "address") _ rfl (fun _ _ => rfl) ?_ (by decide) ms hw Instructor.zero rfl
      intro g hg hne t v
      simp only [Instructor.fields, List.mem_cons, List.mem_singleton, List.not_mem_nil, or_false] at hg
      rcases hg with rfl | rfl | rfl | rfl | rfl | rfl | rfl
      all_goals first
        | exact absurd rfl hne
        | (cases v <;> first | rfl | (simp only [storeField]; split <;> rfl))
    · refine string_field Instructor.fields Instructor.Phone (ascii "phone") _ rfl (fun _ _ => rfl) ?_ (by decide) ms hw Instructor.zero rfl
      intro g hg hne t v
      simp only [Instructor.fields, List.mem_cons, List.mem_singleton, List.not_mem_nil, or_false] at hg
      rcases hg with rfl | rfl | rfl | rfl | rfl | rfl | rfl
      all_goals first
        | exact absurd rfl hne
        | (cases v <;> first | rfl | (simp only [storeField]; split <;> rfl))
    · refine string_field Instructor.fields Instructor.OfficeHours (ascii "office_hours") _ rfl (fun _ _ => rfl) ?_ (by decide) ms hw Instructor.zero rfl
      intro g hg hne t v
      simp only [Instructor.fields, List.mem_cons, List.mem_singleton, List.not_mem_nil, or_false] at hg
      rcases hg with rfl | rfl | rfl | rfl | rfl | rfl | rfl
      all_goals first
        | exact absurd rfl hne
        | (cases v <;> first | rfl | (simp only [storeField]; split <;> rfl))
    · refine strings_field Instructor.fields Instructor.Subjects (ascii "subjects") _ rfl (fun _ _ => rfl) ?_ (by decide) ms hw Instructor.zero rfl
      intro g hg hne t v
      simp only [Instructor.fields, List.mem_cons, List.mem_singleton, List.not_mem_nil, or_false] at hg
      rcases hg with rfl | rfl | rfl | rfl | rfl | rfl | rfl
      all_goals first
        | exact absurd rfl hne
        | (cases v <;> first | rfl | (simp only [storeField]; split <;> rfl))
  · exact storeObject_ok _ (by decide) ms hw _

theorem names_Building (parseFloat : GoString → Option Float64) :
    (Building.fields parseFloat).all (fun f => f.name.all isNameByte) = true := rfl

theorem storeObject_Building (parseFloat : GoString → Option Float64) (ms : List (GoString × JValue))
    (hw : wellTyped (Building.fields parseFloat) ms = true) :
    storeObject (Building.fields parseFloat) Building.zero ms = (Building.ofObject parseFloat ms, none) := by
  apply Prod.ext
  · apply Building.ext
    · refine int_field (Building.fields parseFloat) Building.ID (ascii "id") _ rfl (fun _ _ => rfl) ?_ (names_Building parseFloat) ms hw Building.zero rfl
      intro g hg hne t v
      simp only [Building.fields, List.mem_cons, List.mem_singleton, List.not_mem_nil, or_false] at hg
      rcases hg with rfl | rfl | rfl | rfl | rfl
      all_goals first
        | exact absurd rfl hne
        | (cases v <;> first | rfl | (simp only [storeField]; split <;> rfl))
    · refine string_field (Building.fields parseFloat) Building.Name (ascii "name") _ rfl (fun _ _ => rfl) ?_ (names_Building parseFloat) ms hw Building.zero rfl
      intro g hg hne t v
      simp only [Building.fields, List.mem_cons, List.mem_singleton, List.not_mem_nil, or_false] at hg
      rcases hg with rfl | rfl | rfl | rfl | rfl
      all_goals first
        | exact absurd rfl hne
        | (cases v <;> first | rfl | (simp only [storeField]; split <;> rfl))
    · refine float_field (Building.fields parseFloat) Building.Lat (ascii "lat") parseFloat _ rfl (fun _ _ => rfl) ?_ (names_Building parseFloat) ms hw Building.zero rfl
      intro g hg hne t v
      simp only [Building.fields, List.mem_cons, List.mem_singleton, List.not_mem_nil, or_false] at hg
      rcases hg with rfl | rfl | rfl | rfl | rfl
      all_goals first
        | exact absurd rfl hne
        | (cases v <;> first | rfl | (simp only [storeField]; split <;> rfl))
    · refine float_field (Building.fields parseFloat) Building.Lon (ascii "lon") parseFloat _ rfl (fun _ _ => rfl) ?_ (names_Building parseFloat) ms hw Building.zero rfl
      intro g hg hne t v
      simp only [Building.fields, List.mem_cons, List.mem_singleton, List.not_mem_nil, or_false] at hg
      rcases hg with rfl | rfl | rfl | rfl | rfl
      all_goals first
        | exact absurd rfl hne
        | (cases v <;> first | rfl | (simp only [storeField]; split <;> rfl))
    · refine string_field (Building.fields parseFloat) Building.NUMapsLink (ascii "nu_maps_link") _ rfl (fun _ _ => rfl) ?_ (names_Building parseFloat) ms hw Building.zero rfl
      intro g hg hne t v
      simp only [Building.fields, List.mem_cons, List.mem_singleton, List.not_mem_nil, or_false] at hg
      rcases hg with rfl | rfl | rfl | rfl | rfl
      all_goals first
        | exact absurd rfl hne
        | (cases v <;> first | rfl | (simp only [storeField]; split <;> rfl))
  · exact storeObject_ok _ (names_Building parseFloat) ms hw _

theorem storeObject_Room (ms : List (GoString × JValue))
    (hw : wellTyped Room.fields ms = true) :
    storeObject Room.fields Room.zero ms = (Room.ofObject ms, none) := by
  apply Prod.ext
  · apply Room.ext
    · refine int_field Room.fields Room.ID (ascii "id") _ rfl (fun _ _ => rfl) ?_ (by decide) ms hw Room.zero rfl
      intro g hg hne t v
      simp only [Room.fields, List.mem_cons, List.mem_singleton, List.not_mem_nil, or_false] at hg
      rcases hg with rfl | rfl | rfl
      all_goals first
        | exact absurd rfl hne
        | (cases v <;> first | rfl | (simp only [storeField]; split <;> rfl))
    · refine int_field Room.fields Room.BuildingID (ascii "building_id") _ rfl (fun _ _ => rfl) ?_ (by decide) ms hw Room.zero rfl
      intro g hg hne t v
      simp only [Room.fields, List.mem_cons, List.mem_singleton, List.not_mem_nil, or_false] at hg
      rcases hg with rfl | rfl | rfl
      all_goals first
        | exact absurd rfl hne
        | (cases v <;> first | rfl | (simp only [storeField]; split <;> rfl))
    · refine string_field Room.fields Room.Name (ascii "name") _ rfl (fun _ _ => rfl) ?_ (by decide) ms hw Room.zero rfl
      intro g hg hne t v
      simp only [Room.fields, List.mem_cons, List.mem_singleton, List.not_mem_nil, or_false] at hg
      rcases hg with rfl | rfl | rfl
      all_goals first
        | exact absurd rfl hne
        | (cases v <;> first | rfl | (simp only [storeField]; split <;> rfl))
  · exact storeObject_ok _ (by decide) ms hw _

/-! ## Bodies that are not arrays -/

theorem unmarshal_not_slice {T : Type} (zero : T) (fields : List (Field T)) (v : JValue)
    (h : v.fitsSlice = false) :
    (unmarshal zero fields v).1 = none ∧ (unmarshal zero fields v).2 ≠ none := by
  cases v <;> simp_all [JValue.fitsSlice, unmarshal]

/-- A response whose body does not begin with a JSON array or with `null` makes a method
return the nil slice and an error. -/
theorem finish_rejected {T : Type} (c : Client) (zero : T) (fields : List (Field T))
    (resp : Response) (h1 : ¬ resp.Body.beginsWithArray) (h2 : ¬ resp.Body.beginsWithNull) :
    (finish c zero fields (.ok resp)).values = none ∧
      (finish c zero fields (.ok resp)).err ≠ none := by
  have hdec : (Decode zero fields resp.Body).2 ≠ none := by
    unfold Decode
    cases hv : readValue resp.Body with
    | error e => simp
    | ok v => exact (unmarshal_not_slice zero fields v (readValue_not_slice _ v hv h1 h2)).2
  unfold finish
  dsimp only
  split
  · exact ⟨rfl, by simp⟩
  · rename_i hnone
    exact absurd hnone hdec

/-- A response whose body holds `null` makes a method return the nil slice and no error. -/
theorem finish_null {T : Type} (c : Client) (zero : T) (fields : List (Field T))
    (resp : Response) (h : resp.Body.holdsNull) :
    (finish c zero fields (.ok resp)).values = none ∧
      (finish c zero fields (.ok resp)).err = none := by
  have hdec : Decode zero fields resp.Body = (none, none) := by
    unfold Decode
    rw [readValue_holdsNull _ h]
    rfl
  simp [finish, hdec]

/-- A response whose body begins with an empty array makes a method return an empty slice
and no error. -/
theorem finish_empty {T : Type} (c : Client) (zero : T) (fields : List (Field T))
    (resp : Response) (h : resp.Body.holdsEmptyArray) :
    (finish c zero fields (.ok resp)).values = some [] ∧
      (finish c zero fields (.ok resp)).err = none := by
  have hdec : Decode zero fields resp.Body = (some [], none) := by
    unfold Decode
    rw [readValue_holdsEmptyArray _ h]
    rfl
  simp [finish, hdec]

theorem finish_cases {T : Type} (c : Client) (zero : T) (fields : List (Field T))
    (resp : Response) :
    (¬ resp.Body.beginsWithArray → ¬ resp.Body.beginsWithNull →
      (finish c zero fields (.ok resp)).values = none ∧
        (finish c zero fields (.ok resp)).err ≠ none) ∧
    (resp.Body.holdsNull →
      (finish c zero fields (.ok resp)).values = none ∧
        (finish c zero fields (.ok resp)).err = none) ∧
    (resp.Body.holdsEmptyArray →
      (finish c zero fields (.ok resp)).values = some [] ∧
        (finish c zero fields (.ok resp)).err = none) :=
  ⟨finish_rejected c zero fields resp, finish_null c zero fields resp,
    finish_empty c zero fields resp⟩

/-- A body that the decoder does not read as an array does not begin with an array of the
grammar. -/
theorem not_beginsWithArray (b : Body) (h : ∀ es, readValue b ≠ .ok (.array es)) :
    ¬ b.beginsWithArray := fun hb => by
  obtain ⟨es, he⟩ := readValue_beginsWithArray b hb
  exact h es he

/-- A body whose first byte is neither white space nor `n` does not begin with `null`. -/
theorem not_beginsWithNull (b : Body) (c : Byte) (tl : GoString) (h : b.data = c :: tl)
    (hc : isWs c = false) (hn : c ≠ 110) : ¬ b.beginsWithNull := by
  rintro ⟨ws, rest, hdata, hws⟩
  rw [h] at hdata
  cases ws with
  | nil =>
    have e : ([] : GoString) ++ (ascii "null" ++ rest) = (110 : Byte) :: (ascii "ull" ++ rest) := rfl
    rw [e] at hdata
    exact hn (List.cons.inj hdata).1
  | cons w ws1 =>
    simp only [List.all_cons, Bool.and_eq_true] at hws
    have hw : c = w := (List.cons.inj hdata).1
    rw [hw, hws.1] at hc
    cases hc

/-- Counterexample to C5: a response with status 404 whose body is `null` (valid JSON, not
an array) makes Terms return the nil slice and no error; and the body `[] oops`, which is
not valid JSON, makes Terms return an empty slice and no error. -/
theorem null_body_decodes :
    ((NewClient (respondWith 404 (ascii "null")) (ascii "k")).Terms.values = none ∧
      (NewClient (respondWith 404 (ascii "null")) (ascii "k")).Terms.err = none) ∧
    ((NewClient (respondWith 404 (ascii "[] oops")) (ascii "k")).Terms.values = some [] ∧
      (NewClient (respondWith 404 (ascii "[] oops")) (ascii "k")).Terms.err = none) := by
  decide

/-- C5, amended. For each of the seven methods and every response, whatever its status
code: unless the body begins, after optional white space, with a complete JSON array
(RFC 8259, nested no deeper than 10000 levels) or with `null`, the method returns the nil
slice and a non-nil error; this covers every body that is empty, truncated or malformed
and every body whose first value is an object, a string, a number or a boolean. A body
that holds `null` gives the nil slice and no error, and a body that begins with an empty
array gives an empty slice and no error, whatever bytes follow the array. -/
theorem decode_failure (c : Client) (parseFloat : GoString → Option Float64) :
    (∀ req resp, c.TermsRequest = .ok req → c.client req = .ok resp →
      (¬ resp.Body.beginsWithArray → ¬ resp.Body.beginsWithNull →
        c.Terms.values = none ∧ c.Terms.err ≠ none) ∧
      (resp.Body.holdsNull → c.Terms.values = none ∧ c.Terms.err = none) ∧
      (resp.Body.holdsEmptyArray → c.Terms.values = some [] ∧ c.Terms.err = none)) ∧
    (∀ req resp, c.SchoolsRequest = .ok req → c.client req = .ok resp →
      (¬ resp.Body.beginsWithArray → ¬ resp.Body.beginsWithNull →
        c.Schools.values = none ∧ c.Schools.err ≠ none) ∧
      (resp.Body.holdsNull → c.Schools.values = none ∧ c.Schools.err = none) ∧
      (resp.Body.holdsEmptyArray → c.Schools.values = some [] ∧ c.Schools.err = none)) ∧
    (∀ config req resp, c.SubjectsRequest config = .ok req → c.client req = .ok resp →
      (¬ resp.Body.beginsWithArray → ¬ resp.Body.beginsWithNull →
        (c.Subjects config).values = none ∧ (c.Subjects config).err ≠ none) ∧
      (resp.Body.holdsNull →
        (c.Subjects config).values = none ∧ (c.Subjects config).err = none) ∧
      (resp.Body.holdsEmptyArray →
        (c.Subjects config).values = some [] ∧ (c.Subjects config).err = none)) ∧
    (∀ config req resp, c.CoursesRequest config = .ok req → c.client req = .ok resp →
      (¬ resp.Body.beginsWithArray → ¬ resp.Body.beginsWithNull →
        (c.Courses config).values = none ∧ (c.Courses config).err ≠ none) ∧
      (resp.Body.holdsNull →
        (c.Courses config).values = none ∧ (c.Courses config).err = none) ∧
      (resp.Body.holdsEmptyArray →
        (c.Courses config).values = some [] ∧ (c.Courses config).err = none)) ∧
    (∀ subject req resp, c.InstructorsRequest subject = .ok req → c.client req = .ok resp →
      (¬ resp.Body.beginsWithArray → ¬ resp.Body.beginsWithNull →
        (c.Instructors subject).values = none ∧ (c.Instructors subject).err ≠ none) ∧
      (resp.Body.holdsNull →
        (c.Instructors subject).values = none ∧ (c.Instructors subject).err = none) ∧
      (resp.Body.holdsEmptyArray →
        (c.Instructors subject).values = some [] ∧ (c.Instructors subject).err = none)) ∧
    (∀ config req resp, c.BuildingsRequest config = .ok req → c.client req = .ok resp →
      (¬ resp.Body.beginsWithArray → ¬ resp.Body.beginsWithNull →
        (c.Buildings parseFloat config).values = none ∧
          (c.Buildings parseFloat config).err ≠ none) ∧
      (resp.Body.holdsNull →
        (c.Buildings parseFloat config).values = none ∧
          (c.Buildings parseFloat config).err = none) ∧
      (resp.Body.holdsEmptyArray →
        (c.Buildings parseFloat config).values = some [] ∧
          (c.Buildings parseFloat config).err = none)) ∧
    (∀ config req resp, c.RoomsRequest config = .ok req → c.client req = .ok resp →
      (¬ resp.Body.beginsWithArray → ¬ resp.Body.beginsWithNull →
        (c.Rooms config).values = none ∧ (c.Rooms config).err ≠ none) ∧
      (resp.Body.holdsNull → (c.Rooms config).values = none ∧ (c.Rooms config).err = none) ∧
      (resp.Body.holdsEmptyArray →
        (c.Rooms config).values = some [] ∧ (c.Rooms config).err = none)) := by
  refine ⟨fun req resp hr hc => ?_, fun req resp hr hc => ?_,
    fun config req resp hr hc => ?_, fun config req resp hr hc => ?_,
    fun subject req resp hr hc => ?_, fun config req resp hr hc => ?_,
    fun config req resp hr hc => ?_⟩
  · rw [TermsRequest_eq] at hr; injection hr with hr; subst hr
    rw [Terms_eq, hc]; exact finish_cases _ _ _ _
  · rw [SchoolsRequest_eq] at hr; injection hr with hr; subst hr
    rw [Schools_eq, hc]; exact finish_cases _ _ _ _
  · rw [SubjectsRequest_eq] at hr; injection hr with hr; subst hr
    rw [Subjects_eq, hc]; exact finish_cases _ _ _ _
  · rw [CoursesRequest_eq] at hr; injection hr with hr; subst hr
    rw [Courses_eq, hc]; exact finish_cases _ _ _ _
  · rw [InstructorsRequest_eq] at hr; injection hr with hr; subst hr
    rw [Instructors_eq, hc]; exact finish_cases _ _ _ _
  · rw [BuildingsRequest_eq] at hr; injection hr with hr; subst hr
    rw [Buildings_eq, hc]; exact finish_cases _ _ _ _
  · rw [RoomsRequest_eq] at hr; injection hr with hr; subst hr
    rw [Rooms_eq, hc]; exact finish_cases _ _ _ _

/-- Witness of C5 as amended: a response with status 400 whose body is the truncated array
`[{"id":1}`, without the closing `]`, makes Courses return the nil slice and an error; so
does the malformed body `[1,]` for Terms, and the object `{"error":"bad request"}` for
Rooms. -/
theorem decode_failure_witness :
    (((NewClient (respondWith 400 truncatedBody) (ascii "k")).Courses
        { ID := [], Term := [], Subject := [], Instructor := [], Room := [],
          CatalogNum := [], MeetingDays := [], StartTime := [], EndTime := [],
          StartDate := [], EndDate := [], Seats := [], Component := [], Section := [],
          ClassNum := [], CourseID := [] }).values = none ∧
      ((NewClient (respondWith 400 truncatedBody) (ascii "k")).Courses
        { ID := [], Term := [], Subject := [], Instructor := [], Room := [],
          CatalogNum := [], MeetingDays := [], StartTime := [], EndTime := [],
          StartDate := [], EndDate := [], Seats := [], Component := [], Section := [],
          ClassNum := [], CourseID := [] }).err ≠ none) ∧
    ((NewClient (respondWith 400 malformedBody) (ascii "k")).Terms.values = none ∧
      (NewClient (respondWith 400 malformedBody) (ascii "k")).Terms.err ≠ none) ∧
    (((NewClient (respondWith 400 errorBody) (ascii "k")).Rooms
        { ID := [], Building := [] }).values = none ∧
      ((NewClient (respondWith 400 errorBody) (ascii "k")).Rooms
        { ID := [], Building := [] }).err ≠ none) :=
  ⟨((decode_failure (NewClient (respondWith 400 truncatedBody) (ascii "k"))
      (fun _ => none)).2.2.2.1 _ _ _ rfl rfl).1
      (not_beginsWithArray _ (fun es he => by
        have hr : readValue { data := truncatedBody, readErr := none } =
            .error .unexpectedEOF := rfl
        rw [hr] at he
        cases he))
      (not_beginsWithNull _ 0x5B (ascii "\x7b\"id\":1\x7d") rfl (by decide) (by decide)),
    ((decode_failure (NewClient (respondWith 400 malformedBody) (ascii "k"))
      (fun _ => none)).1 _ _ rfl rfl).1
      (not_beginsWithArray _ (fun es he => by
        have hr : readValue { data := malformedBody, readErr := none } =
            .error (.invalidJSON (ascii "looking for beginning of value")) := rfl
        rw [hr] at he
        cases he))
      (not_beginsWithNull _ 0x5B (ascii "1,]") rfl (by decide) (by decide)),
    ((decode_failure (NewClient (respondWith 400 errorBody) (ascii "k"))
      (fun _ => none)).2.2.2.2.2.2 _ _ _ rfl rfl).1
      (not_beginsWithArray _ (fun es he => by
        have hr : readValue { data := errorBody, readErr := none } =
            .ok (.object [(ascii "error", .string (ascii "bad request"))]) := rfl
        rw [hr] at he
        cases he))
      (not_beginsWithNull _ 0x7B (ascii "\"error\":\"bad request\"\x7d") rfl (by decide)
        (by decide))⟩

/-! ## A well-formed array of objects is decoded in order -/

theorem storeElems_objects {T : Type} (zero : T) (fields : List (Field T))
    (F : List (GoString × JValue) → T) (objs : List (List (GoString × JValue)))
    (h : ∀ ms ∈ objs, storeObject fields zero ms = (F ms, none)) :
    storeElems zero fields (objs.map JValue.object) = (objs.map (fun ms => some (F ms)), none) := by
  induction objs with
  | nil => rfl
  | cons ms rest ih =>
    have h1 := h ms (List.mem_cons_self _ _)
    have h2 := ih (fun m hm => h m (List.mem_cons_of_mem _ hm))
    simp only [List.map_cons, storeElems, storeElem, h1, h2, saveError]

theorem array_of_denote (doc : Doc) (es : List JValue) (h : doc.denote = .array es) :
    doc.isArray = true := by
  cases doc with
  | emptyArray ws => rfl
  | array elems => rfl
  | null => cases h
  | bool b => cases h
  | number n => cases h
  | string items => cases h
  | emptyObject ws => cases h
  | object ms => cases h

/-- A body that begins with the text of an array of objects is read as that array: the
keys and the strings are the texts they stand for, escapes resolved. -/
theorem readValue_holdsArray (b : Body) (objs : List (List (GoString × JValue)))
    (h : b.holdsArray objs) : readValue b = .ok (.array (objs.map JValue.object)) := by
  obtain ⟨ws, doc, rest, hdata, hws, hstrict, hdepth, hden⟩ := h
  rw [readValue_array b ws doc rest hdata hws (strict_wellFormed doc hstrict) hdepth
    (array_of_denote doc _ hden), read_eq_denote doc hstrict, hden]

theorem finish_objects {T : Type} (c : Client) (zero : T) (fields : List (Field T))
    (F : List (GoString × JValue) → T) (resp : Response)
    (objs : List (List (GoString × JValue))) (hbody : resp.Body.holdsArray objs)
    (h : ∀ ms ∈ objs, storeObject fields zero ms = (F ms, none)) :
    (finish c zero fields (.ok resp)).err = none ∧
      (finish c zero fields (.ok resp)).values = some (objs.map (fun ms => some (F ms))) := by
  have hdec : Decode zero fields resp.Body = (some (objs.map (fun ms => some (F ms))), none) := by
    unfold Decode
    rw [readValue_holdsArray _ objs hbody]
    simp only [unmarshal, storeElems_objects zero fields F objs h]
  simp [finish, hdec]

/-- Counterexample to C4: the body `[{"id":1.5}]` is a well-formed JSON array of one
object whose member `id` is a number, the JSON type of the field, and yet Terms returns
the nil slice and an `UnmarshalTypeError`, because the number is not an integer. The
bodies `[{"ID":7}]` and `[{"id":1,"id":2}]` are decoded, but not member by member: the
first object has no member `id` and its record has ID 7, the second has the member `id`
twice and its record has ID 2. -/
theorem array_not_decoded :
    (Body.holdsArray { data := fractionalBody, readErr := none }
        [[(ascii "id", .number (ascii "1.5"))]] ∧
      (NewClient (respondWith 200 fractionalBody) (ascii "k")).Terms.values = none ∧
      (NewClient (respondWith 200 fractionalBody) (ascii "k")).Terms.err =
        some (.unmarshalType (ascii "number 1.5"))) ∧
    (Body.holdsArray { data := upperKeyBody, readErr := none }
        [[(ascii "ID", .number (ascii "7"))]] ∧
      (NewClient (respondWith 200 upperKeyBody) (ascii "k")).Terms.values =
        some [some { ID := 7, Name := [], StartDate := [], EndDate := [] }]) ∧
    (Body.holdsArray { data := repeatedKeyBody, readErr := none }
        [[(ascii "id", .number (ascii "1")), (ascii "id", .number (ascii "2"))]] ∧
      (NewClient (respondWith 200 repeatedKeyBody) (ascii "k")).Terms.values =
        some [some { ID := 2, Name := [], StartDate := [], EndDate := [] }]) :=
  ⟨⟨⟨[], fractionalDoc, [], by decide, rfl, by decide, by decide, rfl⟩, by decide, by decide⟩,
    ⟨⟨[], upperKeyDoc, [], by decide, rfl, by decide, by decide, rfl⟩, by decide⟩,
    ⟨⟨[], repeatedKeyDoc, [], by decide, rfl, by decide, by decide, rfl⟩, by decide⟩⟩

/-- C4, amended. For each of the seven methods: when the HTTP client answers the request
with a response whose body begins, after optional white space, with a well-formed JSON
array of N objects (RFC 8259: any white space between tokens; strings of Unicode
characters, written as themselves in UTF-8 or with escapes, a surrogate escape only as one
of a pair; nesting up to 10000 levels), followed by any bytes, and in every object no key
that names a field occurs twice, every member named like a field is `null` or has the type
of the field (a string for a string field; for an `int` field a number written without
fraction and exponent that fits in 64 bits; for a `float64` field a number that
`strconv.ParseFloat` takes; for the field `Subjects` of an instructor an array of strings
and `null`s), and no other key equals a field name when letter case is ignored (Unicode
folding, under which the Kelvin sign is a `k` and the long s an `s`), then the method
returns no error and a slice of exactly N records, the i-th of which holds, field by
field, the members of the i-th object, with the zero value for a member that is absent or
`null`. -/
theorem array_decoded (c : Client) (parseFloat : GoString → Option Float64) :
    (∀ req resp (objs : List (List (GoString × JValue))),
      c.TermsRequest = .ok req → c.client req = .ok resp → resp.Body.holdsArray objs →
      (∀ ms ∈ objs, wellTyped Term.fields ms = true) →
      c.Terms.err = none ∧
        c.Terms.values = some (objs.map (fun ms => some (Term.ofObject ms)))) ∧
    (∀ req resp (objs : List (List (GoString × JValue))),
      c.SchoolsRequest = .ok req → c.client req = .ok resp → resp.Body.holdsArray objs →
      (∀ ms ∈ objs, wellTyped School.fields ms = true) →
      c.Schools.err = none ∧
        c.Schools.values = some (objs.map (fun ms => some (School.ofObject ms)))) ∧
    (∀ config req resp (objs : List (List (GoString × JValue))),
      c.SubjectsRequest config = .ok req → c.client req = .ok resp →
      resp.Body.holdsArray objs → (∀ ms ∈ objs, wellTyped Subject.fields ms = true) →
      (c.Subjects config).err = none ∧
        (c.Subjects config).values = some (objs.map (fun ms => some (Subject.ofObject ms)))) ∧
    (∀ config req resp (objs : List (List (GoString × JValue))),
      c.CoursesRequest config = .ok req → c.client req = .ok resp →
      resp.Body.holdsArray objs → (∀ ms ∈ objs, wellTyped Course.fields ms = true) →
      (c.Courses config).err = none ∧
        (c.Courses config).values = some (objs.map (fun ms => some (Course.ofObject ms)))) ∧
    (∀ subject req resp (objs : List (List (GoString × JValue))),
      c.InstructorsRequest subject = .ok req → c.client req = .ok resp →
      resp.Body.holdsArray objs → (∀ ms ∈ objs, wellTyped Instructor.fields ms = true) →
      (c.Instructors subject).err = none ∧
        (c.Instructors subject).values =
          some (objs.map (fun ms => some (Instructor.ofObject ms)))) ∧
    (∀ config req resp (objs : List (List (GoString × JValue))),
      c.BuildingsRequest config = .ok req → c.client req = .ok resp →
      resp.Body.holdsArray objs →
      (∀ ms ∈ objs, wellTyped (Building.fields parseFloat) ms = true) →
      (c.Buildings parseFloat config).err = none ∧
        (c.Buildings parseFloat config).values =
          some (objs.map (fun ms => some (Building.ofObject parseFloat ms)))) ∧
    (∀ config req resp (objs : List (List (GoString × JValue))),
      c.RoomsRequest config = .ok req → c.client req = .ok resp →
      resp.Body.holdsArray objs → (∀ ms ∈ objs, wellTyped Room.fields ms = true) →
      (c.Rooms config).err = none ∧
        (c.Rooms config).values = some (objs.map (fun ms => some (Room.ofObject ms)))) := by
  refine ⟨fun req resp objs hr hc hb hw => ?_, fun req resp objs hr hc hb hw => ?_,
    fun config req resp objs hr hc hb hw => ?_, fun config req resp objs hr hc hb hw => ?_,
    fun subject req resp objs hr hc hb hw => ?_, fun config req resp objs hr hc hb hw => ?_,
    fun config req resp objs hr hc hb hw => ?_⟩
  · rw [TermsRequest_eq] at hr; injection hr with hr; subst hr
    rw [Terms_eq, hc]
    exact finish_objects _ _ _ _ _ objs hb (fun ms hm => storeObject_Term ms (hw ms hm))
  · rw [SchoolsRequest_eq] at hr; injection hr with hr; subst hr
    rw [Schools_eq, hc]
    exact finish_objects _ _ _ _ _ objs hb (fun ms hm => storeObject_School ms (hw ms hm))
  · rw [SubjectsRequest_eq] at hr; injection hr with hr; subst hr
    rw [Subjects_eq, hc]
    exact finish_objects _ _ _ _ _ objs hb (fun ms hm => storeObject_Subject ms (hw ms hm))
  · rw [CoursesRequest_eq] at hr; injection hr with hr; subst hr
    rw [Courses_eq, hc]
    exact finish_objects _ _ _ _ _ objs hb (fun ms hm => storeObject_Course ms (hw ms hm))
  · rw [InstructorsRequest_eq] at hr; injection hr with hr; subst hr
    rw [Instructors_eq, hc]
    exact finish_objects _ _ _ _ _ objs hb (fun ms hm => storeObject_Instructor ms (hw ms hm))
  · rw [BuildingsRequest_eq] at hr; injection hr with hr; subst hr
    rw [Buildings_eq, hc]
    exact finish_objects _ _ _ _ _ objs hb
      (fun ms hm => storeObject_Building parseFloat ms (hw ms hm))
  · rw [RoomsRequest_eq] at hr; injection hr with hr; subst hr
    rw [Rooms_eq, hc]
    exact finish_objects _ _ _ _ _ objs hb (fun ms hm => storeObject_Room ms (hw ms hm))

/-- Witness of C4 as amended: Subjects, given the body
`[{"symbol":"CS","name":"Computer Science"}]`, returns no error and one Subject with
Symbol `CS` and Name `Computer Science`; and given the same array written with white
space and escapes and followed by other bytes, with the name `Café` and a line feed, it
returns no error and one Subject with the characters the escapes stand for. -/
theorem array_decoded_witness :
    (((NewClient (respondWith 200 subjectsBody)
        (ascii "k")).Subjects { Term := ascii "4720", School := [] }).err = none ∧
      ((NewClient (respondWith 200 subjectsBody)
        (ascii "k")).Subjects { Term := ascii "4720", School := [] }).values =
        some [some { Symbol := ascii "CS", Name := ascii "Computer Science" }]) ∧
    (((NewClient (respondWith 200 escapedBody)
        (ascii "k")).Subjects { Term := ascii "4720", School := [] }).err = none ∧
      ((NewClient (respondWith 200 escapedBody)
        (ascii "k")).Subjects { Term := ascii "4720", School := [] }).values =
        some [some { Symbol := ascii "CS", Name := ascii "Caf" ++ [0xC3, 0xA9, 0x0A] }]) := by
  have h1 := (array_decoded
    (NewClient (respondWith 200 subjectsBody)
      (ascii "k")) (fun _ => none)).2.2.1 { Term := ascii "4720", School := [] } _ _
    [[(ascii "symbol", .string (ascii "CS")), (ascii "name", .string (ascii "Computer Science"))]]
    rfl rfl ⟨[], subjectsDoc, [], by decide, rfl, by decide, by decide, rfl⟩ (by decide)
  have h2 := (array_decoded
    (NewClient (respondWith 200 escapedBody)
      (ascii "k")) (fun _ => none)).2.2.1 { Term := ascii "4720", School := [] } _ _
    [[(ascii "symbol", .string (ascii "CS")),
      (ascii "name", .string (ascii "Caf" ++ [0xC3, 0xA9, 0x0A]))]]
    rfl rfl ⟨ascii " ", escapedDoc, ascii " tail", by decide, by decide, by decide, by decide,
      by rfl⟩ (by decide)
  exact ⟨⟨h1.1, h1.2.trans (by decide)⟩, ⟨h2.1, h2.2.trans (by decide)⟩⟩

end NuApiClient
